import Mathlib

/-!
# GuruJi survey server: aggregation and submission handlers

A shallow embedding of `server/index.js`: the in-memory collection
(`getInMemoryCollection`), the aggregation handler `GET /api/aggregates`, the
submission handler `POST /api/responses` and the SSE subscriber set.

Modelling conventions.

* JavaScript numbers are IEEE 754 binary64 values.  A finite number is given by
  its exact rational value; `roundQ` rounds a rational to the nearest double
  (ties to even, gradual underflow) and `fl` adds the overflow to an infinity.
  The arithmetic operators round their exact result with `fl`.  The sign of
  zero is not modelled: no result of the handlers depends on it.  The counters
  `count`, `positiveCount` and `totalRespondents` are natural numbers, which
  is what the program computes below `2 ^ 53`.
* A JavaScript object used as a dictionary is a list of key/value pairs in
  insertion order.  `Object.entries` lists integer-like keys first; no such
  key carries one of the routed module prefixes, so the module lists, which
  keep only routed keys, see the insertion order.  Likewise the property
  names inherited from `Object.prototype` (`constructor`, `toString`, ...)
  are treated as ordinary keys; none of them carries a routed prefix either.
* Strings are Lean strings; `startsWith` and `split('-')[0]` compare code
  points, which agrees with JavaScript for the ASCII prefixes used here.
* An exception raised inside a handler is the `error` of an `Except`: the
  handler catches it and answers with status 500 and the message.
-/

namespace GuruJi

/-! ## Numbers -/

/-- A JavaScript number: a finite double, given by its value, or `Infinity`, `-Infinity`, `NaN`. -/
inductive JsNumber where
  | finite (v : ℚ)
  | posInf
  | negInf
  | nan
deriving DecidableEq, Repr

/-- Rounding of a rational to the nearest integer, ties to the even one. -/
def roundHalfEven (t : ℚ) : ℤ :=
  if t - ⌊t⌋ < 1 / 2 then ⌊t⌋
  else if 1 / 2 < t - ⌊t⌋ then ⌊t⌋ + 1
  else if ⌊t⌋ % 2 = 0 then ⌊t⌋ else ⌊t⌋ + 1

/-- The binary exponent of the doubles around `q`: `⌊log₂ |q|⌋`, and `-1022` below the normal range. -/
def binade (q : ℚ) : ℤ := max (Int.log 2 |q|) (-1022)

/-- The spacing of the doubles around `q` (53 significant bits). -/
def ulp (q : ℚ) : ℚ := (2 : ℚ) ^ (binade q - 52)

/-- The double nearest to `q`, ties to even, before the overflow test. -/
def roundQ (q : ℚ) : ℚ := (roundHalfEven (q / ulp q) : ℚ) * ulp q

/-- The double that an arithmetic operation returns for the exact result `q`. -/
def fl (q : ℚ) : JsNumber :=
  if 2 ^ 1024 ≤ roundQ q then .posInf
  else if roundQ q ≤ -(2 ^ 1024) then .negInf
  else .finite (roundQ q)

/-- The operator `+` on numbers. -/
def JsNumber.add : JsNumber → JsNumber → JsNumber
  | .finite a, .finite b => fl (a + b)
  | .nan, _ => .nan
  | _, .nan => .nan
  | .posInf, .negInf => .nan
  | .negInf, .posInf => .nan
  | .posInf, _ => .posInf
  | _, .posInf => .posInf
  | .negInf, _ => .negInf
  | _, .negInf => .negInf

/-- The operator `*` on numbers. -/
def JsNumber.mul : JsNumber → JsNumber → JsNumber
  | .finite a, .finite b => fl (a * b)
  | .nan, _ => .nan
  | _, .nan => .nan
  | .posInf, .finite b => if b = 0 then .nan else if 0 < b then .posInf else .negInf
  | .negInf, .finite b => if b = 0 then .nan else if 0 < b then .negInf else .posInf
  | .finite a, .posInf => if a = 0 then .nan else if 0 < a then .posInf else .negInf
  | .finite a, .negInf => if a = 0 then .nan else if 0 < a then .negInf else .posInf
  | .posInf, .posInf => .posInf
  | .negInf, .negInf => .posInf
  | .posInf, .negInf => .negInf
  | .negInf, .posInf => .negInf

/-- The operator `/` on numbers (a zero divisor is taken as `+0`). -/
def JsNumber.div : JsNumber → JsNumber → JsNumber
  | .finite a, .finite b =>
    if b = 0 then (if a = 0 then .nan else if 0 < a then .posInf else .negInf) else fl (a / b)
  | .nan, _ => .nan
  | _, .nan => .nan
  | .finite _, .posInf => .finite 0
  | .finite _, .negInf => .finite 0
  | .posInf, .finite b => if 0 ≤ b then .posInf else .negInf
  | .negInf, .finite b => if 0 ≤ b then .negInf else .posInf
  | .posInf, .posInf => .nan
  | .posInf, .negInf => .nan
  | .negInf, .posInf => .nan
  | .negInf, .negInf => .nan

/-- The built-in `Math.round`: the nearest integer, ties towards `+∞`. -/
def jsRound : JsNumber → JsNumber
  | .finite x => .finite ((⌊x + 1 / 2⌋ : ℤ) : ℚ)
  | n => n

/-- The constant `Number.EPSILON`. -/
def EPSILON : JsNumber := .finite (1 / 2 ^ 52)

/-! ## Records -/

/-- An answer value as found in a record.  `number n` has `typeof` equal to `'number'`;
`nonNumber asNumber` is any other value (a string, a boolean, `null`, an array, ...) on which
the built-in `Number(rawVal)` returns, together with what it returns: `"7"` is
`nonNumber (finite 7)` and `"n/a"` is `nonNumber nan`; `uncoercible` is a value on which
`Number(rawVal)` raises a `TypeError`, such as the object `{toString: 1}`. -/
inductive RawVal where
  | number (n : JsNumber)
  | nonNumber (asNumber : JsNumber)
  | uncoercible
deriving DecidableEq, Repr

/-- The `answers` field of a record or of a request body. -/
inductive AnswersField where
  /-- Absent (`undefined`) or another falsy value (`null`, `0`, `""`, `false`). -/
  | missing
  /-- A truthy value whose `typeof` is not `'object'` (non-empty string, non-zero number, `true`). -/
  | scalar
  /-- A non-null object (or array), given by `Object.entries`. -/
  | mapping (entries : List (String × RawVal))
deriving DecidableEq, Repr

/-- A stored response record.  `question` and `response` are the legacy pair;
`none` stands for `undefined`. -/
structure Doc where
  id : String
  companyId : String
  surveyId : String
  respondentId : Option String
  answers : AnswersField
  question : Option String
  response : Option RawVal
  createdAt : Nat
deriving DecidableEq, Repr

/-- Truthiness of an optional string field: present and not the empty string. -/
def truthy : Option String → Bool
  | none => false
  | some s => s != ""

/-! ## The in-memory collection -/

/-- The query object `q` built by the aggregation handler. -/
structure Query where
  companyId : Option String
  surveyId : Option String
deriving DecidableEq, Repr

/-- The filter callback of `find`: every key of the query must be strictly equal in the record. -/
def matchesQuery (query : Query) (d : Doc) : Bool :=
  (match query.companyId with
    | none => true
    | some c => d.companyId == c) &&
  (match query.surveyId with
    | none => true
    | some s => d.surveyId == s)

/-- The call `find(query).sort(..).limit(n).toArray()` of the in-memory collection:
`sort` is the identity there, `limit n` keeps the first `n` results. -/
def findSortLimit (store : List Doc) (query : Query) (n : Nat) : List Doc :=
  (store.filter (matchesQuery query)).take n

/-- The call `insertOne(doc)` of the in-memory collection: the record, with the generated id, is
put at the front of the array (`unshift`). -/
def insertOne (store : List Doc) (id : String) (doc : Doc) : List Doc :=
  { doc with id := id } :: store

/-! ## Aggregation -/

/-- A per-question accumulator `{ sum, count, positiveCount }`. -/
structure Stat where
  sum : JsNumber
  count : Nat
  positiveCount : Nat
deriving DecidableEq, Repr

/-- The built-in `qid.startsWith(p)`. -/
def startsWith (qid p : String) : Bool :=
  p.toList.isPrefixOf qid.toList

/-- The expression `String(qid).split('-')[0]`: the text before the first hyphen. -/
def firstSegment (qid : String) : String :=
  String.mk (qid.toList.takeWhile (fun c => c != '-'))

/-- The positive threshold of a question id. -/
def threshold (qid : String) : ℚ :=
  if firstSegment qid = "ee" ∨ firstSegment qid = "employee" then 7 else 4

/-- The value `typeof rawVal === 'number' ? rawVal : Number(rawVal)`; `Number` may raise. -/
def coerce : RawVal → Except String JsNumber
  | .number n => .ok n
  | .nonNumber asNumber => .ok asNumber
  | .uncoercible => .error "Cannot convert object to primitive value"

/-- The three statements that update the accumulator of `qid` by a finite `val`. -/
def bump (qid : String) (val : ℚ) (s : Stat) : Stat :=
  { sum := s.sum.add (.finite val)
    count := s.count + 1
    positiveCount := if val ≥ threshold qid then s.positiveCount + 1 else s.positiveCount }

/-- Create the entry of `qid` when it has none (`if (!questionStats[qid]) ...`), then update it. -/
def upsert : List (String × Stat) → String → ℚ → List (String × Stat)
  | [], qid, val => [(qid, bump qid val { sum := .finite 0, count := 0, positiveCount := 0 })]
  | (k, s) :: rest, qid, val =>
    if k = qid then (k, bump qid val s) :: rest else (k, s) :: upsert rest qid val

/-- The body run for one `(qid, rawVal)` pair: a value that is not finite
(`!Number.isFinite(val)`) is skipped. -/
def addAnswer (questionStats : List (String × Stat)) (qid : String) (rawVal : RawVal) :
    Except String (List (String × Stat)) :=
  match coerce rawVal with
  | .error err => .error err
  | .ok (.finite val) => .ok (upsert questionStats qid val)
  | .ok _ => .ok questionStats

/-- The loop `Object.entries(doc.answers).forEach`. -/
def addAnswers : List (String × RawVal) → List (String × Stat) →
    Except String (List (String × Stat))
  | [], questionStats => .ok questionStats
  | e :: rest, questionStats =>
    match addAnswer questionStats e.1 e.2 with
    | .error err => .error err
    | .ok updated => addAnswers rest updated

/-- The state of the `docs.forEach` loop. -/
structure Accum where
  questionStats : List (String × Stat)
  totalRespondents : Nat
deriving DecidableEq, Repr

/-- The callback of `docs.forEach`. -/
def accumulateDoc (acc : Accum) (doc : Doc) : Except String Accum :=
  match doc.answers with
  | .mapping entries =>
    match addAnswers entries acc.questionStats with
    | .error err => .error err
    | .ok updated =>
      .ok { questionStats := updated, totalRespondents := acc.totalRespondents + 1 }
  | _ =>
    match doc.question, doc.response with
    | some qid, some rawVal =>
      if qid != "" then
        match addAnswer acc.questionStats qid rawVal with
        | .error err => .error err
        | .ok updated => .ok { acc with questionStats := updated }
      else .ok acc
    | _, _ => .ok acc

/-- The loop `docs.forEach` from a given state. -/
def accumulateFrom : List Doc → Accum → Except String Accum
  | [], acc => .ok acc
  | doc :: rest, acc =>
    match accumulateDoc acc doc with
    | .error err => .error err
    | .ok updated => accumulateFrom rest updated

/-- The whole `docs.forEach` loop. -/
def accumulate (docs : List Doc) : Except String Accum :=
  accumulateFrom docs { questionStats := [], totalRespondents := 0 }

/-- An entry of `questionScores`. -/
structure QuestionScore where
  questionId : String
  average : JsNumber
  positivePercentage : JsNumber
deriving DecidableEq, Repr

/-- The roll-up of a module. -/
structure SummaryMetrics where
  positiveAverage : JsNumber
  totalQuestions : Nat
  responseCount : Nat
  trend : Nat
deriving DecidableEq, Repr

/-- A module summary; `sectionData` is always the empty array. -/
structure Module where
  questionScores : List QuestionScore
  sectionData : List Unit
  summaryMetrics : SummaryMetrics
deriving DecidableEq, Repr

/-- The keys of the `modules` object. -/
inductive ModuleKey where
  | aiReadiness
  | leadership
  | employeeExperience
deriving DecidableEq, Repr

/-- The `modules` object. -/
structure Modules where
  aiReadiness : Module
  leadership : Module
  employeeExperience : Module
deriving DecidableEq, Repr

/-- Read `modules[modKey]`. -/
def Modules.get (m : Modules) : ModuleKey → Module
  | .aiReadiness => m.aiReadiness
  | .leadership => m.leadership
  | .employeeExperience => m.employeeExperience

/-- Replace `modules[modKey]`. -/
def Modules.set (m : Modules) (k : ModuleKey) (v : Module) : Modules :=
  match k with
  | .aiReadiness => { m with aiReadiness := v }
  | .leadership => { m with leadership := v }
  | .employeeExperience => { m with employeeExperience := v }

/-- A module as first built: empty lists and `responseCount: totalRespondents`. -/
def emptyModule (totalRespondents : Nat) : Module :=
  { questionScores := []
    sectionData := []
    summaryMetrics :=
      { positiveAverage := .finite 0, totalQuestions := 0, responseCount := totalRespondents
        trend := 0 } }

/-- The `modules` object as first built. -/
def initModules (totalRespondents : Nat) : Modules :=
  { aiReadiness := emptyModule totalRespondents
    leadership := emptyModule totalRespondents
    employeeExperience := emptyModule totalRespondents }

/-- The `if / else if` chain on the prefix of the question id. -/
def route (qid : String) : Option ModuleKey :=
  if startsWith qid "ai-" then some .aiReadiness
  else if startsWith qid "leadership-" then some .leadership
  else if startsWith qid "ee-" || startsWith qid "employee" then some .employeeExperience
  else none

/-- The object pushed for one entry of `questionStats`. -/
def scoreOf (qid : String) (stats : Stat) : QuestionScore :=
  let avg := stats.sum.div (.finite stats.count)
  let positivePct : JsNumber :=
    if stats.count > 0 then
      ((JsNumber.finite stats.positiveCount).div (.finite stats.count)).mul (.finite 100)
    else .finite 0
  { questionId := qid
    average := avg
    positivePercentage := (jsRound (positivePct.mul (.finite 10))).div (.finite 10) }

/-- The call `modules[k].questionScores.push(score)`. -/
def pushScore (m : Modules) (k : ModuleKey) (score : QuestionScore) : Modules :=
  m.set k { m.get k with questionScores := (m.get k).questionScores ++ [score] }

/-- The callback of `Object.entries(questionStats).forEach`. -/
def routeEntry (m : Modules) (e : String × Stat) : Modules :=
  match route e.1 with
  | some k => pushScore m k (scoreOf e.1 e.2)
  | none => m

/-- The expression `q.positivePercentage || 0`: zero and `NaN` are falsy. -/
def orZero : JsNumber → JsNumber
  | .nan => .finite 0
  | .finite x => if x = 0 then .finite 0 else .finite x
  | n => n

/-- The roll-up of one module (callback of `Object.keys(modules).forEach`). -/
def rollUp (md : Module) : Module :=
  let qlist := md.questionScores
  { md with
    summaryMetrics :=
      { md.summaryMetrics with
        totalQuestions := qlist.length
        positiveAverage :=
          if qlist.length > 0 then
            let avgPos : JsNumber :=
              (qlist.foldl (fun (acc : JsNumber) q => acc.add (orZero q.positivePercentage))
                (JsNumber.finite 0)).div
                (.finite qlist.length)
            (jsRound ((avgPos.add EPSILON).mul (.finite 10))).div (.finite 10)
          else .finite 0 } }

/-- The aggregation of the fetched records: accumulation, routing and roll-up.  An exception
raised while the records are read is the error. -/
def aggregate (docs : List Doc) : Except String Modules :=
  match accumulate docs with
  | .error err => .error err
  | .ok acc =>
    let modules := acc.questionStats.foldl routeEntry (initModules acc.totalRespondents)
    .ok { aiReadiness := rollUp modules.aiReadiness
          leadership := rollUp modules.leadership
          employeeExperience := rollUp modules.employeeExperience }

/-- The query parameters of `GET /api/aggregates` (`none`: parameter not given). -/
structure AggregatesRequest where
  companyId : Option String
  surveyId : Option String
deriving DecidableEq, Repr

/-- The query object built from the request: a falsy parameter adds no key. -/
def buildQuery (req : AggregatesRequest) : Query :=
  { companyId := if truthy req.companyId then req.companyId else none
    surveyId := if truthy req.surveyId then req.surveyId else none }

/-- The handler `GET /api/aggregates` over the in-memory store: `ok aggregates` is the answer
`{ok: true, aggregates}`, `error message` the answer `{error: message}` with status 500. -/
def getAggregates (store : List Doc) (req : AggregatesRequest) : Except String Modules :=
  aggregate (findSortLimit store (buildQuery req) 10000)

/-! ## Submission and the change notifier -/

/-- The body of `POST /api/responses`.  Only `companyId`, `surveyId`, `respondentId` and `answers`
are read by the handler; `question` and `response` are the legacy pair a client may send. -/
structure SubmitBody where
  companyId : Option String
  surveyId : Option String
  respondentId : Option String
  answers : AnswersField
  question : Option String
  response : Option RawVal
deriving DecidableEq, Repr

/-- The payload written to the SSE clients (`summary: { submitted: 1 }`). -/
structure SsePayload where
  surveyId : String
  companyId : String
  timestamp : Nat
  submitted : Nat
deriving DecidableEq, Repr

/-- What the handlers do to the outside: a call of `clientRes.write` on one SSE client with the
named event (`threw` records whether the call raised, which the handler catches), the socket.io
broadcast, and the error log. -/
inductive Effect where
  | sseWrite (client : Nat) (event : String) (payload : SsePayload) (threw : Bool)
  | ioEmit (companyId surveyId : String) (timestamp : Nat)
  | consoleError (message : String)
deriving DecidableEq, Repr

/-- The answer of `POST /api/responses`: `200 {ok: true, response}`, `400 {error}`, `500 {error}`. -/
inductive PostResult where
  | ok (response : Doc)
  | badRequest (error : String)
  | serverError (error : String)
deriving DecidableEq, Repr

/-- The server state: the `responses` array of the in-memory store and the set `sseClients`
(in insertion order, the order `Set.forEach` visits). -/
structure Server where
  store : List Doc
  sseClients : List Nat
deriving DecidableEq, Repr

/-- The call `sseClients.add(client)` of `GET /sse`. -/
def sseAdd (srv : Server) (client : Nat) : Server :=
  if client ∈ srv.sseClients then srv else { srv with sseClients := srv.sseClients ++ [client] }

/-- The call `sseClients.delete(client)` of the `close` listener. -/
def sseDelete (srv : Server) (client : Nat) : Server :=
  { srv with sseClients := srv.sseClients.filter (fun c => c != client) }

/-- The loop `sseClients.forEach(clientRes => { try { clientRes.write(text) } catch (e) {} })`:
one call of `write` per client, an exception being swallowed. -/
def sseBroadcast (writeThrows : Nat → Bool) (clients : List Nat) (payload : SsePayload) :
    List Effect :=
  clients.map (fun c => Effect.sseWrite c "response:created" payload (writeThrows c))

/-- The handler `POST /api/responses`.  `now` is `new Date()`; `persist` is the outcome of
`responses.insertOne(doc)`: the generated id, or the message of a rejection (the in-memory
collection never rejects, a database-backed one may); `writeThrows` tells on which clients
`write` raises. -/
def postResponses (now : Nat) (persist : Except String String) (writeThrows : Nat → Bool)
    (srv : Server) (body : SubmitBody) : Server × PostResult × List Effect :=
  if !truthy body.companyId || !truthy body.surveyId || body.answers == AnswersField.missing then
    (srv, PostResult.badRequest "companyId, surveyId and answers required", [])
  else
    let doc : Doc :=
      { id := ""
        companyId := body.companyId.getD ""
        surveyId := body.surveyId.getD ""
        respondentId := if truthy body.respondentId then body.respondentId else none
        answers := body.answers
        question := none
        response := none
        createdAt := now }
    match persist with
    | .error message =>
      (srv, PostResult.serverError message, [Effect.consoleError message])
    | .ok insertedId =>
      let saved : Doc := { doc with id := insertedId }
      let payload : SsePayload :=
        { surveyId := saved.surveyId, companyId := saved.companyId
          timestamp := saved.createdAt, submitted := 1 }
      ({ srv with store := insertOne srv.store insertedId doc },
        PostResult.ok saved,
        sseBroadcast writeThrows srv.sseClients payload ++
          [Effect.ioEmit saved.companyId saved.surveyId saved.createdAt])

/-! ## Reference description of the aggregation -/

/-- The finite number an answer value stands for, when it stands for one. -/
def finiteValue : RawVal → Option ℚ
  | .number (.finite v) => some v
  | .nonNumber (.finite v) => some v
  | _ => none

/-- The entries of an answers mapping whose value is a finite number. -/
def finiteEntries (entries : List (String × RawVal)) : List (String × ℚ) :=
  entries.filterMap (fun e => (finiteValue e.2).map (fun v => (e.1, v)))

/-- The `(question-id, finite value)` pairs the aggregation reads from one record: the entries
of the answers mapping, else the legacy pair. -/
def readPairs (doc : Doc) : List (String × ℚ) :=
  match doc.answers with
  | .mapping entries => finiteEntries entries
  | _ =>
    match doc.question, doc.response with
    | some qid, some rawVal => if qid != "" then finiteEntries [(qid, rawVal)] else []
    | _, _ => []

/-- All pairs read from the fetched records, in reading order. -/
def allPairs (docs : List Doc) : List (String × ℚ) :=
  docs.flatMap readPairs

/-- The answer values the aggregation passes to `Number` when it reads one record. -/
def readValues (doc : Doc) : List RawVal :=
  match doc.answers with
  | .mapping entries => entries.map (fun e => e.2)
  | _ =>
    match doc.question, doc.response with
    | some qid, some rawVal => if qid != "" then [rawVal] else []
    | _, _ => []

/-- No answer value read from the records makes `Number` raise. -/
def coercible (docs : List Doc) : Prop :=
  ∀ d ∈ docs, ∀ r ∈ readValues d, r ≠ RawVal.uncoercible

instance coercibleDecidable (docs : List Doc) : Decidable (coercible docs) :=
  inferInstanceAs (Decidable (∀ d ∈ docs, ∀ r ∈ readValues d, r ≠ RawVal.uncoercible))

/-- The finite values read for one question id, in reading order. -/
def valuesOf (qid : String) (pairs : List (String × ℚ)) : List ℚ :=
  (pairs.filter (fun p => p.1 == qid)).map (fun p => p.2)

/-- The number of values at or above the positive threshold of the question. -/
def positiveCountOf (qid : String) (vals : List ℚ) : Nat :=
  (vals.filter (fun v => decide (v ≥ threshold qid))).length

/-- The sum of a list of numbers as the program computes it: a running double sum from 0. -/
def doubleSum (vals : List ℚ) : JsNumber :=
  vals.foldl (fun (s : JsNumber) v => s.add (.finite v)) (JsNumber.finite 0)

/-- The idiom `Math.round(x * 10) / 10`: rounding to one decimal in double arithmetic. -/
def roundOneDecimal (x : JsNumber) : JsNumber :=
  (jsRound (x.mul (.finite 10))).div (.finite 10)

/-- A record that carries an answers mapping (`doc.answers && typeof doc.answers === 'object'`). -/
def hasMapping (doc : Doc) : Bool :=
  match doc.answers with
  | .mapping _ => true
  | _ => false

/-- The read `questionStats[qid]` of an own property. -/
def statAt : List (String × Stat) → String → Option Stat
  | [], _ => none
  | (k, s) :: rest, qid => if k = qid then some s else statAt rest qid

/-- The prefix that sends a question id to a module. -/
def hasModulePrefix : ModuleKey → String → Bool
  | .aiReadiness, qid => startsWith qid "ai-"
  | .leadership, qid => startsWith qid "leadership-"
  | .employeeExperience, qid => startsWith qid "ee-" || startsWith qid "employee"

/-- The aggregates computed from the pairs read, by the routing loop and the roll-up: what the
aggregation returns when no value read makes `Number` raise. -/
def modulesOf (docs : List Doc) : Modules :=
  let modules := ((allPairs docs).foldl (fun st p => upsert st p.1 p.2) []).foldl routeEntry
    (initModules (docs.countP hasMapping))
  { aiReadiness := rollUp modules.aiReadiness
    leadership := rollUp modules.leadership
    employeeExperience := rollUp modules.employeeExperience }

/-- The tenths of the percentage of `p` out of `c`, as the program computes them:
`Math.round(((p / c) * 100) * 10)`. -/
def tenthsOf (p c : Nat) : ℤ :=
  ⌊roundQ (roundQ (roundQ ((p : ℚ) / c) * 100) * 10) + 1 / 2⌋

/-- The question id, count and positive count of an accumulator entry. -/
def countsOf (e : String × Stat) : String × Nat × Nat := (e.1, e.2.count, e.2.positiveCount)

/-- The question id and `positivePercentage` of an entry of `questionScores`. -/
def labelOf (e : QuestionScore) : String × JsNumber := (e.questionId, e.positivePercentage)

/-! ## Sample records -/

/-- A record of the legacy shape: `{ question: 'ai-1', response: 5 }`, no `answers`. -/
def legacyDoc : Doc :=
  { id := "r1", companyId := "c1", surveyId := "s1", respondentId := none
    answers := .missing, question := some "ai-1", response := some (.number (.finite 5))
    createdAt := 0 }

/-- A record with `answers: { 'employees-1': 5 }`. -/
def employeesDoc : Doc :=
  { id := "r2", companyId := "c1", surveyId := "s1", respondentId := none
    answers := .mapping [("employees-1", .number (.finite 5))], question := none, response := none
    createdAt := 0 }

/-- A record with `answers: { 'ee': 5 }`: an id without hyphen. -/
def bareEeDoc : Doc :=
  { id := "r3", companyId := "c1", surveyId := "s1", respondentId := none
    answers := .mapping [("ee", .number (.finite 5))], question := none, response := none
    createdAt := 0 }

/-- A record with `answers: { 'ai-1': 8, 'ai-2': 2 }`. -/
def aiDoc : Doc :=
  { id := "r4", companyId := "c1", surveyId := "s1", respondentId := none
    answers := .mapping [("ai-1", .number (.finite 8)), ("ai-2", .number (.finite 2))]
    question := none, response := none, createdAt := 0 }

/-- A record with `answers: { 'ai-1': 5 }`. -/
def ai1Doc : Doc :=
  { id := "r5", companyId := "c1", surveyId := "s1", respondentId := none
    answers := .mapping [("ai-1", .number (.finite 5))], question := none, response := none
    createdAt := 0 }

/-- A record with `answers: { 'ai-2': 5 }`. -/
def ai2Doc : Doc :=
  { id := "r6", companyId := "c1", surveyId := "s1", respondentId := none
    answers := .mapping [("ai-2", .number (.finite 5))], question := none, response := none
    createdAt := 0 }

/-- A record with a value that is not a number: `answers: { 'ai-1': 'n/a' }`. -/
def notNumericDoc : Doc :=
  { id := "r7", companyId := "c1", surveyId := "s1", respondentId := none
    answers := .mapping [("ai-1", .nonNumber .nan)], question := none, response := none
    createdAt := 0 }

/-- The double written `0.1`. -/
def dbl01 : ℚ := 3602879701896397 / 36028797018963968

/-- The double written `0.2`. -/
def dbl02 : ℚ := 3602879701896397 / 18014398509481984

/-- The double written `0.3`. -/
def dbl03 : ℚ := 5404319552844595 / 18014398509481984

/-- A record with `answers: { 'ai-1': v }`. -/
def ai1DocOf (v : ℚ) : Doc :=
  { id := "r8", companyId := "c1", surveyId := "s1", respondentId := none
    answers := .mapping [("ai-1", .number (.finite v))], question := none, response := none
    createdAt := 0 }

/-- A record with `answers: { 'ai-1': {toString: 1} }`: `Number` raises on the value. -/
def uncoercibleDoc : Doc :=
  { id := "r9", companyId := "c1", surveyId := "s1", respondentId := none
    answers := .mapping [("ai-1", .uncoercible)], question := none, response := none
    createdAt := 0 }

/-- A module with two questions whose `positivePercentage` are the doubles `11.1` and `77.8`
(one positive value out of nine, seven out of nine), before its roll-up. -/
def tieModule : Module :=
  { questionScores :=
      [{ questionId := "ai-1", average := .finite 3
         positivePercentage := .finite (6248744482976563 / 562949953421312) },
       { questionId := "ai-2", average := .finite 4
         positivePercentage := .finite (5474688297022259 / 70368744177664) }]
    sectionData := []
    summaryMetrics := { positiveAverage := .finite 0, totalQuestions := 0, responseCount := 18
                        trend := 0 } }

/-! ## Reference notions for the submission handler -/

/-- The validation of `POST /api/responses` passes: `companyId`, `surveyId` and `answers` are
all truthy. -/
def accepted (body : SubmitBody) : Bool :=
  truthy body.companyId && truthy body.surveyId && body.answers != AnswersField.missing

/-- The filter of an aggregation request matches a submission: each parameter that is given
(truthy) equals the field of the submission. -/
def requestMatches (req : AggregatesRequest) (body : SubmitBody) : Bool :=
  (!truthy req.companyId || req.companyId == body.companyId) &&
  (!truthy req.surveyId || req.surveyId == body.surveyId)

/-- The calls of `write` made on one SSE client. -/
def writesTo (client : Nat) (effects : List Effect) : List Effect :=
  effects.filter (fun e =>
    match e with
    | .sseWrite c _ _ _ => c == client
    | _ => false)

/-- All calls of `write` on SSE clients. -/
def sseWrites (effects : List Effect) : List Effect :=
  effects.filter (fun e =>
    match e with
    | .sseWrite _ _ _ _ => true
    | _ => false)

/-- A submission `{ companyId: 'c1', surveyId: 's1', answers: { 'ai-1': 5 } }`. -/
def mappingBody : SubmitBody :=
  { companyId := some "c1", surveyId := some "s1", respondentId := none
    answers := .mapping [("ai-1", .number (.finite 5))], question := none, response := none }

/-- A submission of the legacy shape `{ companyId: 'c1', surveyId: 's1', question: 'ai-1',
response: 5 }`, without `answers`. -/
def legacyBody : SubmitBody :=
  { companyId := some "c1", surveyId := some "s1", respondentId := none
    answers := .missing, question := some "ai-1", response := some (.number (.finite 5)) }

/-- A submission whose `answers` is a string: `{ companyId: 'c1', surveyId: 's1', answers: 'yes' }`. -/
def scalarBody : SubmitBody :=
  { companyId := some "c1", surveyId := some "s1", respondentId := none
    answers := .scalar, question := none, response := none }

/-- The request `GET /api/aggregates?companyId=c1&surveyId=s1`. -/
def c1s1Request : AggregatesRequest :=
  { companyId := some "c1", surveyId := some "s1" }

/-- A store that already holds 10000 records of company `c1` and survey `s1`. -/
def fullStore : List Doc := List.replicate 10000 ai1Doc

/-- A submission `{ companyId: 'c1', surveyId: 's1', answers: { 'ai-1': {toString: 1} } }`. -/
def uncoercibleBody : SubmitBody :=
  { companyId := some "c1", surveyId := some "s1", respondentId := none
    answers := .mapping [("ai-1", .uncoercible)], question := none, response := none }

/-! # Theorems -/

/-! ## Rounding to a double -/

theorem floor_le_roundHalfEven (t : ℚ) : ⌊t⌋ ≤ roundHalfEven t := by
  unfold roundHalfEven
  split_ifs <;> omega

theorem roundHalfEven_le_floor_add_one (t : ℚ) : roundHalfEven t ≤ ⌊t⌋ + 1 := by
  unfold roundHalfEven
  split_ifs <;> omega

theorem abs_roundHalfEven_sub_le (t : ℚ) : |(roundHalfEven t : ℚ) - t| ≤ 1 / 2 := by
  have h1 : (⌊t⌋ : ℚ) ≤ t := Int.floor_le t
  have h2 : t < ⌊t⌋ + 1 := Int.lt_floor_add_one t
  unfold roundHalfEven
  rw [abs_le]
  split_ifs with ha hb hc
  · constructor <;> linarith
  · push_cast; constructor <;> linarith
  · constructor <;> linarith
  · push_cast; constructor <;> linarith

theorem roundHalfEven_eq_of_abs_lt (t : ℚ) (m : ℤ) (h : |t - m| < 1 / 2) :
    roundHalfEven t = m := by
  have h1 := abs_roundHalfEven_sub_le t
  rw [abs_le] at h1
  rw [abs_lt] at h
  have h2 : ((roundHalfEven t - m : ℤ) : ℚ) < 1 := by push_cast; linarith
  have h3 : (-1 : ℚ) < ((roundHalfEven t - m : ℤ) : ℚ) := by push_cast; linarith
  have h4 : roundHalfEven t - m < 1 := by exact_mod_cast h2
  have h5 : -1 < roundHalfEven t - m := by exact_mod_cast h3
  omega

theorem roundHalfEven_intCast (n : ℤ) : roundHalfEven (n : ℚ) = n :=
  roundHalfEven_eq_of_abs_lt _ n (by simp)

theorem roundHalfEven_tie_even (t : ℚ) (m : ℤ) (h : t = m + 1 / 2) (hm : m % 2 = 0) :
    roundHalfEven t = m := by
  have hf : ⌊t⌋ = m := by
    rw [Int.floor_eq_iff, h]; constructor <;> norm_num
  unfold roundHalfEven
  rw [hf, h]
  norm_num [hm]

theorem roundHalfEven_tie_odd (t : ℚ) (m : ℤ) (h : t = m + 1 / 2) (hm : m % 2 = 1) :
    roundHalfEven t = m + 1 := by
  have hf : ⌊t⌋ = m := by
    rw [Int.floor_eq_iff, h]; constructor <;> norm_num
  unfold roundHalfEven
  rw [hf, h]
  norm_num [hm]

theorem roundHalfEven_mono {s t : ℚ} (h : s ≤ t) : roundHalfEven s ≤ roundHalfEven t := by
  have hfl : ⌊s⌋ ≤ ⌊t⌋ := Int.floor_mono h
  rcases hfl.lt_or_eq with hlt | heq
  · calc roundHalfEven s ≤ ⌊s⌋ + 1 := roundHalfEven_le_floor_add_one s
      _ ≤ ⌊t⌋ := by omega
      _ ≤ roundHalfEven t := floor_le_roundHalfEven t
  · unfold roundHalfEven
    rw [heq]
    split_ifs <;> first | omega | (exfalso; linarith)

theorem ulp_pos (q : ℚ) : 0 < ulp q := zpow_pos (by norm_num) _

theorem binade_ge (q : ℚ) : -1022 ≤ binade q := le_max_right _ _

theorem two_zpow_eq (x : ℤ) : ((2 : ℕ) : ℚ) ^ x = (2 : ℚ) ^ x := by norm_num

theorem lt_two_zpow_binade (q : ℚ) : |q| < (2 : ℚ) ^ (binade q + 1) := by
  have h1 : |q| < ((2 : ℕ) : ℚ) ^ (Int.log 2 |q| + 1) := Int.lt_zpow_succ_log_self (by norm_num) _
  rw [two_zpow_eq] at h1
  refine lt_of_lt_of_le h1 (zpow_le_zpow_right₀ (by norm_num) ?_)
  unfold binade
  have := le_max_left (Int.log 2 |q|) (-1022)
  omega

theorem two_zpow_binade_le (q : ℚ) (hq : q ≠ 0) (hb : -1022 < binade q) :
    (2 : ℚ) ^ binade q ≤ |q| := by
  have hlog : binade q = Int.log 2 |q| := by
    unfold binade at hb ⊢
    rcases max_cases (Int.log 2 |q|) (-1022) with ⟨h, -⟩ | ⟨h, -⟩
    · exact h
    · rw [h] at hb; omega
  rw [hlog, ← two_zpow_eq]
  exact Int.zpow_log_le_self (by norm_num) (abs_pos.mpr hq)

theorem binade_eq_of_bounds (q : ℚ) (e : ℤ) (he : -1022 ≤ e) (h1 : (2 : ℚ) ^ e ≤ |q|)
    (h2 : |q| < (2 : ℚ) ^ (e + 1)) : binade q = e := by
  have hpos : 0 < |q| := lt_of_lt_of_le (zpow_pos (by norm_num) e) h1
  have a1 : e ≤ Int.log 2 |q| := by
    rw [← Int.zpow_le_iff_le_log (by norm_num) hpos, two_zpow_eq]; exact h1
  have a2 : Int.log 2 |q| < e + 1 := by
    rw [← Int.lt_zpow_iff_log_lt (by norm_num) hpos, two_zpow_eq]; exact h2
  unfold binade
  have : Int.log 2 |q| = e := by omega
  rw [this]
  exact max_eq_left he

theorem binade_mono {x y : ℚ} (hx : 0 < x) (hxy : x ≤ y) : binade x ≤ binade y := by
  unfold binade
  have hy : 0 < y := lt_of_lt_of_le hx hxy
  rw [abs_of_pos hx, abs_of_pos hy]
  exact max_le_max (Int.log_mono_right hx hxy) le_rfl

theorem roundQ_zero : roundQ 0 = 0 := by
  unfold roundQ
  rw [zero_div]
  have : roundHalfEven 0 = 0 := by simpa using roundHalfEven_intCast 0
  rw [this]; simp

theorem roundQ_nonneg {q : ℚ} (hq : 0 ≤ q) : 0 ≤ roundQ q := by
  unfold roundQ
  apply mul_nonneg _ (ulp_pos q).le
  have h1 : (0 : ℤ) ≤ ⌊q / ulp q⌋ := Int.floor_nonneg.mpr (div_nonneg hq (ulp_pos q).le)
  have h2 := floor_le_roundHalfEven (q / ulp q)
  exact_mod_cast h1.trans h2

theorem two_pow_53_mul_ulp (q : ℚ) : (2 : ℚ) ^ (53 : ℕ) * ulp q = (2 : ℚ) ^ (binade q + 1) := by
  unfold ulp
  rw [← zpow_natCast, ← zpow_add₀ (by norm_num : (2 : ℚ) ≠ 0)]
  congr 1
  push_cast
  ring

theorem two_pow_52_mul_ulp (q : ℚ) : (2 : ℚ) ^ (52 : ℕ) * ulp q = (2 : ℚ) ^ binade q := by
  unfold ulp
  rw [← zpow_natCast, ← zpow_add₀ (by norm_num : (2 : ℚ) ≠ 0)]
  congr 1
  push_cast
  ring

theorem roundQ_le_two_zpow {q : ℚ} (hq : 0 ≤ q) : roundQ q ≤ (2 : ℚ) ^ (binade q + 1) := by
  have h1 := lt_two_zpow_binade q
  rw [abs_of_nonneg hq, ← two_pow_53_mul_ulp] at h1
  have h2 : q / ulp q ≤ ((2 ^ 53 : ℤ) : ℚ) := by
    rw [div_le_iff₀ (ulp_pos q)]; push_cast; exact h1.le
  have h3 := roundHalfEven_mono h2
  rw [roundHalfEven_intCast] at h3
  unfold roundQ
  rw [← two_pow_53_mul_ulp]
  have h4 : (roundHalfEven (q / ulp q) : ℚ) ≤ 2 ^ 53 := by exact_mod_cast h3
  exact mul_le_mul_of_nonneg_right h4 (ulp_pos q).le

theorem two_zpow_le_roundQ {q : ℚ} (hq : 0 < q) (hb : -1022 < binade q) :
    (2 : ℚ) ^ binade q ≤ roundQ q := by
  have h1 := two_zpow_binade_le q hq.ne' hb
  rw [abs_of_pos hq, ← two_pow_52_mul_ulp] at h1
  have h2 : ((2 ^ 52 : ℤ) : ℚ) ≤ q / ulp q := by
    rw [le_div_iff₀ (ulp_pos q)]; push_cast; exact h1
  have h3 := roundHalfEven_mono h2
  rw [roundHalfEven_intCast] at h3
  unfold roundQ
  rw [← two_pow_52_mul_ulp]
  have h4 : (2 ^ 52 : ℚ) ≤ (roundHalfEven (q / ulp q) : ℚ) := by exact_mod_cast h3
  exact mul_le_mul_of_nonneg_right h4 (ulp_pos q).le

/-- Rounding to a double is monotone on the non-negative numbers. -/
theorem roundQ_mono_nonneg {x y : ℚ} (hx : 0 ≤ x) (hxy : x ≤ y) : roundQ x ≤ roundQ y := by
  rcases hx.eq_or_lt with h0 | hpos
  · rw [← h0, roundQ_zero]; exact roundQ_nonneg (hx.trans hxy)
  · have hy : 0 < y := lt_of_lt_of_le hpos hxy
    rcases (binade_mono hpos hxy).eq_or_lt with heq | hlt
    · have hu : ulp x = ulp y := by unfold ulp; rw [heq]
      unfold roundQ
      rw [hu]
      have h1 : x / ulp y ≤ y / ulp y := div_le_div_of_nonneg_right hxy (ulp_pos y).le
      have h2 := roundHalfEven_mono h1
      have h3 : (roundHalfEven (x / ulp y) : ℚ) ≤ roundHalfEven (y / ulp y) := by exact_mod_cast h2
      exact mul_le_mul_of_nonneg_right h3 (ulp_pos y).le
    · calc roundQ x ≤ (2 : ℚ) ^ (binade x + 1) := roundQ_le_two_zpow hx
        _ ≤ (2 : ℚ) ^ binade y := zpow_le_zpow_right₀ (by norm_num) (by omega)
        _ ≤ roundQ y := two_zpow_le_roundQ hy (by have := binade_ge x; omega)

/-- A number `m * 2 ^ k` with `|m| < 2 ^ 53` and `k ≥ -1074` is a double: rounding fixes it. -/
theorem roundQ_of_repr (m k : ℤ) (hm : |m| < 2 ^ 53) (hk : -1074 ≤ k) :
    roundQ ((m : ℚ) * 2 ^ k) = (m : ℚ) * 2 ^ k := by
  rcases eq_or_ne m 0 with h0 | hne
  · subst h0; simp [roundQ_zero]
  have h2k : (0 : ℚ) < 2 ^ k := zpow_pos (by norm_num) k
  have hq : (m : ℚ) * 2 ^ k ≠ 0 := mul_ne_zero (by exact_mod_cast hne) h2k.ne'
  have habs : |(m : ℚ) * 2 ^ k| < (2 : ℚ) ^ (k + 53) := by
    rw [abs_mul, abs_of_pos h2k, zpow_add₀ (by norm_num : (2 : ℚ) ≠ 0), mul_comm]
    have : |(m : ℚ)| < 2 ^ (53 : ℤ) := by
      have h : ((|m| : ℤ) : ℚ) < ((2 ^ 53 : ℤ) : ℚ) := by exact_mod_cast hm
      rw [Int.cast_abs] at h
      rw [show (53 : ℤ) = ((53 : ℕ) : ℤ) from rfl, zpow_natCast]
      exact_mod_cast h
    exact mul_lt_mul_of_pos_left this h2k
  have hb : binade ((m : ℚ) * 2 ^ k) ≤ k + 52 := by
    unfold binade
    apply max_le _ (by omega)
    have := (Int.lt_zpow_iff_log_lt (R := ℚ) (b := 2) (by norm_num) (abs_pos.mpr hq)).mp
      (by rw [two_zpow_eq]; exact habs)
    omega
  obtain ⟨d, hd⟩ : ∃ d : ℕ, (d : ℤ) = k + 52 - binade ((m : ℚ) * 2 ^ k) :=
    ⟨(k + 52 - binade ((m : ℚ) * 2 ^ k)).toNat, by omega⟩
  have hu : ulp ((m : ℚ) * 2 ^ k) * 2 ^ d = 2 ^ k := by
    unfold ulp
    rw [← zpow_natCast, ← zpow_add₀ (by norm_num : (2 : ℚ) ≠ 0), hd]
    congr 1; ring
  have hdiv : (m : ℚ) * 2 ^ k / ulp ((m : ℚ) * 2 ^ k) = ((m * 2 ^ d : ℤ) : ℚ) := by
    rw [div_eq_iff (ulp_pos _).ne']
    push_cast
    rw [mul_assoc, mul_comm ((2 : ℚ) ^ d), hu]
  unfold roundQ
  rw [hdiv, roundHalfEven_intCast]
  push_cast
  rw [mul_assoc, mul_comm ((2 : ℚ) ^ d), hu]

theorem roundQ_intCast (n : ℤ) (hn : |n| < 2 ^ 53) : roundQ (n : ℚ) = n := by
  have := roundQ_of_repr n 0 hn (by norm_num)
  simpa using this

theorem roundQ_natCast (n : ℕ) (hn : n < 2 ^ 53) : roundQ (n : ℚ) = n := by
  have := roundQ_intCast (n : ℤ) (by rw [abs_of_nonneg (by positivity)]; exact_mod_cast hn)
  simpa using this

/-- The rounding error of a double: half an ulp. -/
theorem abs_roundQ_sub_le (q : ℚ) : |roundQ q - q| ≤ |q| / 2 ^ 53 + 1 / 2 ^ 1075 := by
  have hu := ulp_pos q
  have h1 : |roundQ q - q| ≤ ulp q / 2 := by
    have h := abs_roundHalfEven_sub_le (q / ulp q)
    have e : roundQ q - q = ((roundHalfEven (q / ulp q) : ℚ) - q / ulp q) * ulp q := by
      unfold roundQ; field_simp
    rw [e, abs_mul, abs_of_pos hu]
    calc |(roundHalfEven (q / ulp q) : ℚ) - q / ulp q| * ulp q ≤ 1 / 2 * ulp q :=
          mul_le_mul_of_nonneg_right h hu.le
      _ = ulp q / 2 := by ring
  rcases eq_or_ne q 0 with h0 | hne
  · subst h0; rw [roundQ_zero]; simp
  rcases (binade_ge q).eq_or_lt with hb | hb
  · have : ulp q = 1 / 2 ^ 1074 := by
      unfold ulp; rw [← hb]; norm_num
    rw [this] at h1
    have hp : 0 ≤ |q| / 2 ^ 53 := by positivity
    have : (1 : ℚ) / 2 ^ 1074 / 2 = 1 / 2 ^ 1075 := by norm_num
    linarith
  · have h2 := two_zpow_binade_le q hne hb
    rw [← two_pow_52_mul_ulp] at h2
    have hp : (0 : ℚ) ≤ 1 / 2 ^ 1075 := by positivity
    have : ulp q / 2 ≤ |q| / 2 ^ 53 := by
      rw [div_le_div_iff₀ (by norm_num) (by positivity)]
      have : (2 : ℚ) ^ 53 = 2 ^ 52 * 2 := by norm_num
      rw [this]; nlinarith
    linarith

/-! ## The accumulator as a keyed list -/

theorem statAt_upsert (st : List (String × Stat)) (k : String) (v : ℚ) (q : String) :
    statAt (upsert st k v) q =
      if k = q then some (bump k v ((statAt st k).getD { sum := .finite 0, count := 0, positiveCount := 0 }))
      else statAt st q := by
  induction st with
  | nil =>
    by_cases h : k = q <;> simp [upsert, statAt, h]
  | cons e rest ih =>
    obtain ⟨k0, s0⟩ := e
    by_cases h0 : k0 = k
    · subst h0
      by_cases h : k0 = q <;> simp [upsert, statAt, h]
    · by_cases h : k = q
      · subst h
        simp [upsert, statAt, h0, ih]
      · by_cases h1 : k0 = q
        · subst h1
          simp [upsert, statAt, h0, h]
        · simp [upsert, statAt, h0, h, h1, ih]

theorem keys_upsert (st : List (String × Stat)) (k : String) (v : ℚ) :
    (upsert st k v).map Prod.fst =
      if k ∈ st.map Prod.fst then st.map Prod.fst else st.map Prod.fst ++ [k] := by
  induction st with
  | nil => simp [upsert]
  | cons e rest ih =>
    obtain ⟨k0, s0⟩ := e
    by_cases h0 : k0 = k
    · subst h0; simp [upsert]
    · have h0' : ¬ k = k0 := fun h => h0 h.symm
      by_cases hm : k ∈ rest.map Prod.fst
      · have hm' : ∃ x, (k, x) ∈ rest := by simpa using hm
        simp [upsert, h0, h0', ih, hm, hm']
      · have hm' : ∀ x, (k, x) ∉ rest := by simpa using hm
        simp [upsert, h0, h0', ih, hm, hm']

theorem nodup_keys_upsert (st : List (String × Stat)) (k : String) (v : ℚ)
    (h : (st.map Prod.fst).Nodup) : ((upsert st k v).map Prod.fst).Nodup := by
  rw [keys_upsert]
  split
  · exact h
  · next hk =>
    rw [List.nodup_append]
    refine ⟨h, List.nodup_singleton k, ?_⟩
    intro a ha hb
    simp at hb
    subst hb
    exact hk ha

theorem nodup_keys_foldl (pairs : List (String × ℚ)) (st : List (String × Stat))
    (h : (st.map Prod.fst).Nodup) :
    ((pairs.foldl (fun st p => upsert st p.1 p.2) st).map Prod.fst).Nodup := by
  induction pairs generalizing st with
  | nil => simpa using h
  | cons p rest ih => exact ih _ (nodup_keys_upsert st p.1 p.2 h)

theorem mem_iff_statAt (st : List (String × Stat)) (h : (st.map Prod.fst).Nodup)
    (k : String) (s : Stat) : (k, s) ∈ st ↔ statAt st k = some s := by
  induction st with
  | nil => simp [statAt]
  | cons e rest ih =>
    obtain ⟨k0, s0⟩ := e
    have hn : k0 ∉ rest.map Prod.fst ∧ (rest.map Prod.fst).Nodup := by simpa using h
    by_cases h0 : k0 = k
    · subst h0
      have : ∀ s, (k0, s) ∉ rest := by
        intro s hs
        exact hn.1 (List.mem_map.mpr ⟨(k0, s), hs, rfl⟩)
      simp [statAt, this, eq_comm]
    · have h0' : ¬ k = k0 := fun h => h0 h.symm
      simp [statAt, h0, h0', ih hn.2]

/-- Folding `bump` over a list of values. -/
theorem foldl_bump (k : String) (vals : List ℚ) (s : Stat) :
    vals.foldl (fun s v => bump k v s) s =
      { sum := vals.foldl (fun (a : JsNumber) v => a.add (.finite v)) s.sum
        count := s.count + vals.length
        positiveCount := s.positiveCount + positiveCountOf k vals } := by
  induction vals generalizing s with
  | nil => simp [positiveCountOf]
  | cons v rest ih =>
    rw [List.foldl_cons, ih]
    by_cases hv : v ≥ threshold k
    · simp [bump, positiveCountOf, hv, List.filter_cons]
      refine ⟨by omega, by omega⟩
    · simp [bump, positiveCountOf, hv, List.filter_cons]
      omega

theorem valuesOf_cons (q : String) (p : String × ℚ) (rest : List (String × ℚ)) :
    valuesOf q (p :: rest) = if p.1 = q then p.2 :: valuesOf q rest else valuesOf q rest := by
  by_cases h : p.1 = q <;> simp [valuesOf, List.filter_cons, h]

theorem statAt_foldl (pairs : List (String × ℚ)) (st : List (String × Stat)) (q : String) :
    statAt (pairs.foldl (fun st p => upsert st p.1 p.2) st) q =
      if valuesOf q pairs = [] then statAt st q
      else some ((valuesOf q pairs).foldl (fun s v => bump q v s)
        ((statAt st q).getD { sum := .finite 0, count := 0, positiveCount := 0 })) := by
  induction pairs generalizing st with
  | nil => simp [valuesOf]
  | cons p rest ih =>
    rw [List.foldl_cons, ih, statAt_upsert, valuesOf_cons]
    by_cases h : p.1 = q
    · subst h
      by_cases hr : valuesOf p.1 rest = [] <;> simp [hr]
    · simp [h]

/-- The accumulator entry of a question: its running sum, count and positive count. -/
theorem statAt_foldl_nil (pairs : List (String × ℚ)) (q : String) :
    statAt (pairs.foldl (fun st p => upsert st p.1 p.2) []) q =
      if valuesOf q pairs = [] then none
      else some { sum := doubleSum (valuesOf q pairs)
                  count := (valuesOf q pairs).length
                  positiveCount := positiveCountOf q (valuesOf q pairs) } := by
  rw [statAt_foldl, foldl_bump]
  simp [statAt, doubleSum]

/-! ## The accumulation loop reads `allPairs` -/

theorem addAnswer_eq (st : List (String × Stat)) (qid : String) (r : RawVal)
    (h : r ≠ RawVal.uncoercible) :
    addAnswer st qid r = .ok ((finiteEntries [(qid, r)]).foldl (fun st p => upsert st p.1 p.2) st) := by
  unfold addAnswer
  cases r with
  | uncoercible => exact absurd rfl h
  | number n => cases n <;> simp [coerce, finiteEntries, finiteValue]
  | nonNumber n => cases n <;> simp [coerce, finiteEntries, finiteValue]

theorem addAnswer_uncoercible (st : List (String × Stat)) (qid : String) :
    addAnswer st qid RawVal.uncoercible = .error "Cannot convert object to primitive value" := rfl

theorem finiteEntries_cons (e : String × RawVal) (rest : List (String × RawVal)) :
    finiteEntries (e :: rest) = finiteEntries [(e.1, e.2)] ++ finiteEntries rest := by
  unfold finiteEntries
  cases h : finiteValue e.2 <;> simp [List.filterMap_cons, h]

theorem addAnswers_eq (entries : List (String × RawVal)) (st : List (String × Stat))
    (h : ∀ e ∈ entries, e.2 ≠ RawVal.uncoercible) :
    addAnswers entries st =
      .ok ((finiteEntries entries).foldl (fun st p => upsert st p.1 p.2) st) := by
  induction entries generalizing st with
  | nil => rfl
  | cons e rest ih =>
    unfold addAnswers
    rw [addAnswer_eq st e.1 e.2 (h e (List.mem_cons_self _ _))]
    simp only []
    rw [ih _ (fun x hx => h x (List.mem_cons_of_mem _ hx)), finiteEntries_cons e rest,
      List.foldl_append]

theorem addAnswers_error (entries : List (String × RawVal)) (st : List (String × Stat))
    (h : ∃ e ∈ entries, e.2 = RawVal.uncoercible) :
    addAnswers entries st = .error "Cannot convert object to primitive value" := by
  induction entries generalizing st with
  | nil => obtain ⟨e, he, -⟩ := h; cases he
  | cons e rest ih =>
    unfold addAnswers
    by_cases hu : e.2 = RawVal.uncoercible
    · rw [hu, addAnswer_uncoercible]
    · rw [addAnswer_eq st e.1 e.2 hu]
      simp only []
      apply ih
      obtain ⟨x, hx, hxu⟩ := h
      rcases List.mem_cons.mp hx with rfl | hx'
      · exact absurd hxu hu
      · exact ⟨x, hx', hxu⟩

theorem accumulateDoc_eq (acc : Accum) (doc : Doc)
    (h : ∀ r ∈ readValues doc, r ≠ RawVal.uncoercible) :
    accumulateDoc acc doc =
      .ok { questionStats := (readPairs doc).foldl (fun st p => upsert st p.1 p.2) acc.questionStats
            totalRespondents := acc.totalRespondents + if hasMapping doc then 1 else 0 } := by
  unfold accumulateDoc readPairs hasMapping
  unfold readValues at h
  cases ha : doc.answers with
  | mapping entries =>
    rw [ha] at h
    simp only []
    rw [addAnswers_eq entries _ (fun e he => h e.2 (List.mem_map.mpr ⟨e, he, rfl⟩))]
    simp
  | missing =>
    rw [ha] at h
    cases hq : doc.question <;> cases hr : doc.response <;> simp
    next qid rawVal =>
      rw [hq, hr] at h
      by_cases hne : qid = ""
      · simp [hne]
      · simp only [bne_iff_ne, ne_eq, hne, not_false_eq_true, if_true] at h ⊢
        rw [addAnswer_eq _ qid rawVal (h rawVal (List.mem_singleton.mpr rfl))]
        simp
  | scalar =>
    rw [ha] at h
    cases hq : doc.question <;> cases hr : doc.response <;> simp
    next qid rawVal =>
      rw [hq, hr] at h
      by_cases hne : qid = ""
      · simp [hne]
      · simp only [bne_iff_ne, ne_eq, hne, not_false_eq_true, if_true] at h ⊢
        rw [addAnswer_eq _ qid rawVal (h rawVal (List.mem_singleton.mpr rfl))]
        simp

theorem accumulateFrom_eq (docs : List Doc) (acc : Accum) (h : coercible docs) :
    accumulateFrom docs acc =
      .ok { questionStats := (allPairs docs).foldl (fun st p => upsert st p.1 p.2) acc.questionStats
            totalRespondents := acc.totalRespondents + docs.countP hasMapping } := by
  induction docs generalizing acc with
  | nil => simp [accumulateFrom, allPairs]
  | cons d rest ih =>
    unfold accumulateFrom
    rw [accumulateDoc_eq acc d (h d (List.mem_cons_self _ _))]
    simp only []
    rw [ih _ (fun x hx => h x (List.mem_cons_of_mem _ hx))]
    simp only [allPairs, List.flatMap_cons, List.foldl_append, List.countP_cons]
    congr 2
    omega

/-- When no value read makes `Number` raise, the loop ends with the accumulator of `allPairs` and
the number of records with an answers mapping. -/
theorem accumulate_eq (docs : List Doc) (h : coercible docs) :
    accumulate docs =
      .ok { questionStats := (allPairs docs).foldl (fun st p => upsert st p.1 p.2) []
            totalRespondents := docs.countP hasMapping } := by
  unfold accumulate
  rw [accumulateFrom_eq docs _ h]
  simp

theorem nodup_keys_allPairs (docs : List Doc) :
    (((allPairs docs).foldl (fun st p => upsert st p.1 p.2) []).map Prod.fst).Nodup :=
  nodup_keys_foldl _ _ (by simp)

/-- The accumulator holds, for each question id with a finite value, the running sum, the count
and the positive count of its values, and holds nothing else. -/
theorem mem_stats (docs : List Doc) (q : String) (s : Stat) :
    (q, s) ∈ (allPairs docs).foldl (fun st p => upsert st p.1 p.2) [] ↔
      valuesOf q (allPairs docs) ≠ [] ∧
        s = { sum := doubleSum (valuesOf q (allPairs docs))
              count := (valuesOf q (allPairs docs)).length
              positiveCount := positiveCountOf q (valuesOf q (allPairs docs)) } := by
  rw [mem_iff_statAt _ (nodup_keys_allPairs docs), statAt_foldl_nil]
  by_cases h : valuesOf q (allPairs docs) = []
  · simp [h]
  · simp [h, eq_comm]

/-! ## Routing and roll-up -/

theorem get_set (m : Modules) (k : ModuleKey) (v : Module) (j : ModuleKey) :
    (m.set k v).get j = if k = j then v else m.get j := by
  cases k <;> cases j <;> simp [Modules.set, Modules.get]

theorem get_pushScore (m : Modules) (k : ModuleKey) (score : QuestionScore) (j : ModuleKey) :
    (pushScore m k score).get j =
      if k = j then { m.get j with questionScores := (m.get j).questionScores ++ [score] }
      else m.get j := by
  unfold pushScore
  rw [get_set]
  by_cases h : k = j
  · subst h; simp
  · simp [h]

theorem get_foldl_routeEntry (st : List (String × Stat)) (m : Modules) (j : ModuleKey) :
    (st.foldl routeEntry m).get j =
      { m.get j with
        questionScores := (m.get j).questionScores ++
          (st.filter (fun e => decide (route e.1 = some j))).map (fun e => scoreOf e.1 e.2) } := by
  induction st generalizing m with
  | nil => simp
  | cons e rest ih =>
    rw [List.foldl_cons, ih]
    unfold routeEntry
    cases hr : route e.1 with
    | none => simp [List.filter_cons, hr]
    | some k =>
      rw [get_pushScore]
      by_cases h : k = j
      · subst h; simp [List.filter_cons, hr]
      · simp [List.filter_cons, hr, h]

theorem get_initModules (n : Nat) (j : ModuleKey) : (initModules n).get j = emptyModule n := by
  cases j <;> rfl

/-- The aggregation returns when no value read makes `Number` raise. -/
theorem aggregate_eq (docs : List Doc) (h : coercible docs) :
    aggregate docs = .ok (modulesOf docs) := by
  unfold aggregate
  rw [accumulate_eq docs h]
  rfl

theorem get_modulesOf (docs : List Doc) (j : ModuleKey) :
    (modulesOf docs).get j =
      rollUp { emptyModule (docs.countP hasMapping) with
        questionScores :=
          (((allPairs docs).foldl (fun st p => upsert st p.1 p.2) []).filter
            (fun e => decide (route e.1 = some j))).map (fun e => scoreOf e.1 e.2) } := by
  have h := get_foldl_routeEntry ((allPairs docs).foldl (fun st p => upsert st p.1 p.2) [])
    (initModules (docs.countP hasMapping)) j
  rw [get_initModules] at h
  have h2 : (modulesOf docs).get j =
      rollUp ((((allPairs docs).foldl (fun st p => upsert st p.1 p.2) []).foldl routeEntry
        (initModules (docs.countP hasMapping))).get j) := by
    cases j <;> rfl
  rw [h2, h]
  simp [emptyModule]

/-- The list `questionScores` of a module: the accumulator entries routed to it, in order. -/
theorem questionScores_modulesOf (docs : List Doc) (j : ModuleKey) :
    ((modulesOf docs).get j).questionScores =
      (((allPairs docs).foldl (fun st p => upsert st p.1 p.2) []).filter
        (fun e => decide (route e.1 = some j))).map (fun e => scoreOf e.1 e.2) := by
  rw [get_modulesOf]; rfl

/-- The roll-up of a module is computed from its own `questionScores`. -/
theorem summaryMetrics_modulesOf (docs : List Doc) (j : ModuleKey) :
    ((modulesOf docs).get j).summaryMetrics =
      (rollUp { emptyModule (docs.countP hasMapping) with
        questionScores := ((modulesOf docs).get j).questionScores }).summaryMetrics := by
  rw [questionScores_modulesOf, get_modulesOf]

/-! ## The accumulation loop raises when `Number` raises -/

theorem accumulateDoc_error (acc : Accum) (doc : Doc)
    (h : ∃ r ∈ readValues doc, r = RawVal.uncoercible) :
    accumulateDoc acc doc = .error "Cannot convert object to primitive value" := by
  unfold accumulateDoc
  unfold readValues at h
  cases ha : doc.answers with
  | mapping entries =>
    rw [ha] at h
    simp only []
    obtain ⟨r, hr, hru⟩ := h
    obtain ⟨e, he, rfl⟩ := List.mem_map.mp hr
    rw [addAnswers_error entries _ ⟨e, he, hru⟩]
  | missing =>
    rw [ha] at h
    obtain ⟨r, hr, hru⟩ := h
    cases hq : doc.question <;> cases hv : doc.response <;> rw [hq, hv] at hr <;>
      simp only [List.not_mem_nil] at hr
    next qid rawVal =>
      by_cases hne : qid = ""
      · simp [hne] at hr
      · simp only [bne_iff_ne, ne_eq, hne, not_false_eq_true, if_true,
          List.mem_singleton] at hr ⊢
        rw [← hr, hru, addAnswer_uncoercible]
  | scalar =>
    rw [ha] at h
    obtain ⟨r, hr, hru⟩ := h
    cases hq : doc.question <;> cases hv : doc.response <;> rw [hq, hv] at hr <;>
      simp only [List.not_mem_nil] at hr
    next qid rawVal =>
      by_cases hne : qid = ""
      · simp [hne] at hr
      · simp only [bne_iff_ne, ne_eq, hne, not_false_eq_true, if_true,
          List.mem_singleton] at hr ⊢
        rw [← hr, hru, addAnswer_uncoercible]

theorem accumulateFrom_error (docs : List Doc) (acc : Accum) (h : ¬ coercible docs) :
    accumulateFrom docs acc = .error "Cannot convert object to primitive value" := by
  induction docs generalizing acc with
  | nil => exact absurd (fun d hd => by cases hd) h
  | cons d rest ih =>
    unfold accumulateFrom
    by_cases hd : ∀ r ∈ readValues d, r ≠ RawVal.uncoercible
    · rw [accumulateDoc_eq acc d hd]
      simp only []
      apply ih
      intro hrest
      apply h
      intro x hx
      rcases List.mem_cons.mp hx with rfl | hx'
      · exact hd
      · exact hrest x hx'
    · push_neg at hd
      rw [accumulateDoc_error acc d hd]

/-- When some value read makes `Number` raise, the accumulation loop raises. -/
theorem accumulate_error (docs : List Doc) (h : ¬ coercible docs) :
    accumulate docs = .error "Cannot convert object to primitive value" :=
  accumulateFrom_error docs _ h

/-- When some value read makes `Number` raise, the aggregation raises. -/
theorem aggregate_error (docs : List Doc) (h : ¬ coercible docs) :
    aggregate docs = .error "Cannot convert object to primitive value" := by
  unfold aggregate accumulate
  rw [accumulateFrom_error docs _ h]

/-- The stored record `{answers: {ai-1: {toString: 1}}}` makes the aggregation raise. -/
theorem aggregate_uncoercibleDoc :
    aggregate [uncoercibleDoc] = .error "Cannot convert object to primitive value" :=
  aggregate_error _ (by unfold coercible; decide)

/-! ## Doubles returned by the arithmetic -/

theorem two_pow_53_lt_overflow : (2 : ℚ) ^ 53 < 2 ^ 1024 :=
  pow_lt_pow_right₀ (by norm_num) (by omega)

theorem lt_overflow_of_le {b : ℚ} (h : b ≤ 2 ^ 53) : b < 2 ^ 1024 :=
  lt_of_le_of_lt h two_pow_53_lt_overflow

theorem roundQ_one : roundQ 1 = 1 := by simpa using roundQ_natCast 1 (by norm_num)

theorem roundQ_hundred : roundQ 100 = 100 := by simpa using roundQ_natCast 100 (by norm_num)

theorem roundQ_thousand : roundQ 1000 = 1000 := by simpa using roundQ_natCast 1000 (by norm_num)

/-- Between 0 and a double below the overflow threshold, the operation returns a finite double
in the same range. -/
theorem fl_of_nonneg_le (q b : ℚ) (hq : 0 ≤ q) (hqb : q ≤ b) (hb : roundQ b = b)
    (hlt : b < 2 ^ 1024) : fl q = .finite (roundQ q) ∧ 0 ≤ roundQ q ∧ roundQ q ≤ b := by
  have h0 : 0 ≤ roundQ q := roundQ_nonneg hq
  have h1 : roundQ q ≤ b := by
    have := roundQ_mono_nonneg hq hqb
    rwa [hb] at this
  refine ⟨?_, h0, h1⟩
  unfold fl
  have hpos : (0 : ℚ) < 2 ^ 1024 := by positivity
  rw [if_neg (by linarith), if_neg (by linarith)]

theorem fl_natCast (n : ℕ) (hn : n < 2 ^ 53) : fl (n : ℚ) = .finite n := by
  have h := roundQ_natCast n hn
  have hlt : (n : ℚ) < 2 ^ 1024 := by
    have h1 : (n : ℚ) < 2 ^ 53 := by exact_mod_cast hn
    exact lt_overflow_of_le h1.le
  have := (fl_of_nonneg_le (n : ℚ) n (Nat.cast_nonneg n) le_rfl h hlt).1
  rw [this, h]

theorem tenthsOf_bounds (p c : Nat) (hc : 0 < c) (hp : p ≤ c) :
    0 ≤ tenthsOf p c ∧ tenthsOf p c ≤ 1000 := by
  have hc' : (0 : ℚ) < c := by exact_mod_cast hc
  have hp' : (p : ℚ) ≤ c := by exact_mod_cast hp
  have h0 : (0 : ℚ) ≤ (p : ℚ) / c := div_nonneg (by positivity) hc'.le
  have h1 : (p : ℚ) / c ≤ 1 := (div_le_one hc').mpr hp'
  have a := fl_of_nonneg_le _ _ h0 h1 roundQ_one (lt_overflow_of_le (by norm_num))
  have b := fl_of_nonneg_le (roundQ ((p : ℚ) / c) * 100) 100
    (by nlinarith [a.2.1]) (by nlinarith [a.2.2]) roundQ_hundred (lt_overflow_of_le (by norm_num))
  have d := fl_of_nonneg_le (roundQ (roundQ ((p : ℚ) / c) * 100) * 10) 1000
    (by nlinarith [b.2.1]) (by nlinarith [b.2.2]) roundQ_thousand (lt_overflow_of_le (by norm_num))
  unfold tenthsOf
  constructor
  · exact Int.floor_nonneg.mpr (by linarith [d.2.1])
  · have : ⌊roundQ (roundQ (roundQ ((p : ℚ) / c) * 100) * 10) + 1 / 2⌋ < 1001 := by
      apply Int.floor_lt.mpr
      push_cast
      linarith [d.2.2]
    omega

/-- The double written with one decimal for `n` tenths, `0 ≤ n ≤ 1000`, is finite and lies
between 0 and 100. -/
theorem fl_tenths (n : ℤ) (h0 : 0 ≤ n) (h1 : n ≤ 1000) :
    fl ((n : ℚ) / 10) = .finite (roundQ ((n : ℚ) / 10)) ∧
      0 ≤ roundQ ((n : ℚ) / 10) ∧ roundQ ((n : ℚ) / 10) ≤ 100 := by
  have a0 : (0 : ℚ) ≤ (n : ℚ) / 10 := by
    have : (0 : ℚ) ≤ n := by exact_mod_cast h0
    positivity
  have a1 : (n : ℚ) / 10 ≤ 100 := by
    have : (n : ℚ) ≤ 1000 := by exact_mod_cast h1
    linarith
  exact fl_of_nonneg_le _ _ a0 a1 roundQ_hundred (lt_overflow_of_le (by norm_num))

/-- The `positivePercentage` pushed for an accumulator entry with `count ≥ 1` and
`positiveCount ≤ count`: the double written with one decimal for `tenthsOf` tenths. -/
theorem positivePercentage_scoreOf (qid : String) (sum : JsNumber) (p c : Nat) (hc : 0 < c)
    (hp : p ≤ c) :
    (scoreOf qid { sum := sum, count := c, positiveCount := p }).positivePercentage =
      .finite (roundQ ((tenthsOf p c : ℚ) / 10)) := by
  have hc' : (0 : ℚ) < c := by exact_mod_cast hc
  have hp' : (p : ℚ) ≤ c := by exact_mod_cast hp
  have h0 : (0 : ℚ) ≤ (p : ℚ) / c := div_nonneg (by positivity) hc'.le
  have h1 : (p : ℚ) / c ≤ 1 := (div_le_one hc').mpr hp'
  have a := fl_of_nonneg_le _ _ h0 h1 roundQ_one (lt_overflow_of_le (by norm_num))
  have b := fl_of_nonneg_le (roundQ ((p : ℚ) / c) * 100) 100
    (by nlinarith [a.2.1]) (by nlinarith [a.2.2]) roundQ_hundred (lt_overflow_of_le (by norm_num))
  have d := fl_of_nonneg_le (roundQ (roundQ ((p : ℚ) / c) * 100) * 10) 1000
    (by nlinarith [b.2.1]) (by nlinarith [b.2.2]) roundQ_thousand (lt_overflow_of_le (by norm_num))
  have hb := tenthsOf_bounds p c hc hp
  have e := fl_tenths (tenthsOf p c) hb.1 hb.2
  have hcne : ¬ (c : ℚ) = 0 := hc'.ne'
  simp only [scoreOf, hc, if_true, JsNumber.div, JsNumber.mul, hcne, if_false, a.1, b.1, d.1,
    jsRound]
  have h10 : ¬ (10 : ℚ) = 0 := by norm_num
  simp only [h10, if_false]
  exact e.1

/-! ## The one-decimal rounding is a nearest tenth -/

theorem abs_roundQ_sub_le_small (q : ℚ) : |roundQ q - q| ≤ |q| / 2 ^ 53 + 1 / 2 ^ 64 := by
  have h := abs_roundQ_sub_le q
  have h2 : (1 : ℚ) / 2 ^ 1075 ≤ 1 / 2 ^ 64 :=
    one_div_le_one_div_of_le (by positivity) (pow_le_pow_right₀ (by norm_num) (by omega))
  linarith

/-- A number within `1 / (2 * L)` of `S / L` rounds, by `Math.round`, to an integer nearest to
`S / L`. -/
theorem round_near_lattice (X : ℚ) (S : ℤ) (L : ℕ) (hL : 0 < L)
    (h : |X - (S : ℚ) / L| < 1 / (2 * L)) :
    |((⌊X + 1 / 2⌋ : ℤ) : ℚ) - (S : ℚ) / L| ≤ 1 / 2 := by
  have hL' : (0 : ℚ) < L := by exact_mod_cast hL
  have h1 : ((⌊X + 1 / 2⌋ : ℤ) : ℚ) ≤ X + 1 / 2 := Int.floor_le _
  have h2 : X + 1 / 2 < ((⌊X + 1 / 2⌋ : ℤ) : ℚ) + 1 := Int.lt_floor_add_one _
  rw [abs_lt] at h
  set n := ⌊X + 1 / 2⌋ with hn
  have e1 : (1 : ℚ) / (2 * L) * (2 * L) = 1 := by field_simp
  have e2 : (S : ℚ) / L * (2 * L) = 2 * S := by field_simp; ring
  -- both strict bounds, multiplied by `2 * L`
  have u1 : ((2 * L * n - 2 * S : ℤ) : ℚ) < ((L + 1 : ℤ) : ℚ) := by
    push_cast
    have : ((n : ℚ) - (S : ℚ) / L) * (2 * L) < (1 / 2 + 1 / (2 * L)) * (2 * L) :=
      mul_lt_mul_of_pos_right (by linarith) (by positivity)
    rw [sub_mul, add_mul, e1, e2] at this
    linarith
  have u2 : ((-(L : ℤ) - 1 : ℤ) : ℚ) < ((2 * L * n - 2 * S : ℤ) : ℚ) := by
    push_cast
    have : (-(1 / 2) - 1 / (2 * L)) * (2 * L) < ((n : ℚ) - (S : ℚ) / L) * (2 * L) :=
      mul_lt_mul_of_pos_right (by linarith) (by positivity)
    rw [sub_mul, sub_mul, e1, e2] at this
    linarith
  have v1 : 2 * (L : ℤ) * n - 2 * S < L + 1 := by exact_mod_cast u1
  have v2 : -(L : ℤ) - 1 < 2 * (L : ℤ) * n - 2 * S := by exact_mod_cast u2
  have w1 : 2 * (L : ℤ) * n - 2 * S ≤ L := by omega
  have w2 : -(L : ℤ) ≤ 2 * (L : ℤ) * n - 2 * S := by omega
  have w1' : (2 * (L : ℚ) * n - 2 * S) ≤ L := by exact_mod_cast w1
  have w2' : -(L : ℚ) ≤ (2 * (L : ℚ) * n - 2 * S) := by exact_mod_cast w2
  have key : (n : ℚ) - (S : ℚ) / L = (2 * (L : ℚ) * n - 2 * S) / (2 * L) := by
    field_simp
    ring
  rw [abs_le, key]
  constructor
  · rw [le_div_iff₀ (by positivity)]; linarith
  · rw [div_le_iff₀ (by positivity)]; linarith

/-- The tenths computed for `p` out of `c` are an integer nearest to the exact `1000 * p / c`,
for every count up to `2 ^ 39`. -/
theorem tenthsOf_nearest (p c : Nat) (hc : 0 < c) (hp : p ≤ c) (hcb : c ≤ 2 ^ 39) :
    |(tenthsOf p c : ℚ) - 1000 * (p : ℚ) / c| ≤ 1 / 2 := by
  have hc' : (0 : ℚ) < c := by exact_mod_cast hc
  have hp' : (p : ℚ) ≤ c := by exact_mod_cast hp
  have hcb' : (c : ℚ) ≤ 2 ^ 39 := by exact_mod_cast hcb
  have h0 : (0 : ℚ) ≤ (p : ℚ) / c := div_nonneg (by positivity) hc'.le
  have h1 : (p : ℚ) / c ≤ 1 := (div_le_one hc').mpr hp'
  have a := fl_of_nonneg_le _ _ h0 h1 roundQ_one (lt_overflow_of_le (by norm_num))
  have b := fl_of_nonneg_le (roundQ ((p : ℚ) / c) * 100) 100
    (by nlinarith [a.2.1]) (by nlinarith [a.2.2]) roundQ_hundred (lt_overflow_of_le (by norm_num))
  have ea := abs_roundQ_sub_le_small ((p : ℚ) / c)
  have eb := abs_roundQ_sub_le_small (roundQ ((p : ℚ) / c) * 100)
  have ed := abs_roundQ_sub_le_small (roundQ (roundQ ((p : ℚ) / c) * 100) * 10)
  rw [abs_of_nonneg h0] at ea
  rw [abs_of_nonneg (by nlinarith [a.2.1] : (0 : ℚ) ≤ roundQ ((p : ℚ) / c) * 100)] at eb
  rw [abs_of_nonneg (by nlinarith [b.2.1] :
    (0 : ℚ) ≤ roundQ (roundQ ((p : ℚ) / c) * 100) * 10)] at ed
  rw [abs_le] at ea eb ed
  have hx : 1000 * (p : ℚ) / c = ((1000 * p : ℤ) : ℚ) / c := by push_cast; ring
  rw [hx]
  unfold tenthsOf
  apply round_near_lattice _ _ c hc
  have hbound : (1 : ℚ) / 2 ^ 40 ≤ 1 / (2 * c) :=
    one_div_le_one_div_of_le (by positivity) (by
      have : (2 : ℚ) ^ 40 = 2 * 2 ^ 39 := by norm_num
      rw [this]; linarith)
  refine lt_of_lt_of_le ?_ hbound
  rw [abs_lt]
  have hpc : ((1000 * p : ℤ) : ℚ) / c = 1000 * ((p : ℚ) / c) := by push_cast; ring
  rw [hpc]
  have a1 := a.2.2
  have b1 := b.2.2
  have a0 := a.2.1
  have b0 := b.2.1
  constructor
  · norm_num at ea eb ed ⊢
    linarith [ea.1, eb.1, ed.1]
  · norm_num at ea eb ed ⊢
    linarith [ea.2, eb.2, ed.2]

/-! ## The roll-up: a running double sum of one-decimal values -/

theorem orZero_finite (x : ℚ) : orZero (.finite x) = .finite x := by
  by_cases h : x = 0 <;> simp [orZero, h]

theorem roundQ_tenths_bounds (k : ℤ) (h0 : 0 ≤ k) (h1 : k ≤ 1000) :
    0 ≤ roundQ ((k : ℚ) / 10) ∧ roundQ ((k : ℚ) / 10) ≤ 100 ∧
      |roundQ ((k : ℚ) / 10) - (k : ℚ) / 10| ≤ 100 / 2 ^ 53 + 1 / 2 ^ 64 := by
  have hk0 : (0 : ℚ) ≤ k := by exact_mod_cast h0
  have hk1 : (k : ℚ) ≤ 1000 := by exact_mod_cast h1
  have b := fl_tenths k h0 h1
  refine ⟨b.2.1, b.2.2, ?_⟩
  have e := abs_roundQ_sub_le_small ((k : ℚ) / 10)
  rw [abs_of_nonneg (by positivity : (0 : ℚ) ≤ (k : ℚ) / 10)] at e
  have : (k : ℚ) / 10 / 2 ^ 53 ≤ 100 / 2 ^ 53 := by
    apply div_le_div_of_nonneg_right _ (by positivity)
    linarith
  linarith

/-- One step of the error bound of a running sum. -/
theorem sum_step_bound (s a' a P t r n η : ℚ)
    (se : |s - (a' + r)| ≤ n * (2 * η)) (fe : |a' - (a + P)| ≤ η) (pe : |P - t| ≤ η) :
    |s - (a + (t + r))| ≤ (n + 1) * (2 * η) := by
  rw [abs_le] at se fe pe ⊢
  constructor
  · linarith [se.1, fe.1, pe.1]
  · linarith [se.2, fe.2, pe.2]

/-- The error of the last three operations of the roll-up. -/
theorem rollUp_chain (s L T A W X : ℚ) (hL1 : 1 ≤ L) (hLb : L ≤ 1000000)
    (hs : |s - T| ≤ L * (2 * ((100 * L + 1) / 2 ^ 53 + 1 / 2 ^ 64)))
    (hA : |A - s / L| ≤ 100 / 2 ^ 53 + 1 / 2 ^ 64)
    (hW : |W - (A + 1 / 2 ^ 52)| ≤ 101 / 2 ^ 53 + 1 / 2 ^ 64)
    (hX : |X - W * 10| ≤ 1010 / 2 ^ 53 + 1 / 2 ^ 64) :
    |X - 10 * (T / L)| < 1 / (2 * L) := by
  have hL0 : (0 : ℚ) < L := by linarith
  have hdiv : |s / L - T / L| ≤ 2 * ((100 * L + 1) / 2 ^ 53 + 1 / 2 ^ 64) := by
    rw [← sub_div, abs_div, abs_of_pos hL0, div_le_iff₀ hL0]
    linarith
  have hmain : |X - 10 * (T / L)| ≤ (2000 * L + 3060) / 2 ^ 53 + 41 / 2 ^ 64 := by
    rw [abs_le] at hdiv hA hW hX ⊢
    constructor
    · linarith [hdiv.1, hA.1, hW.1, hX.1]
    · linarith [hdiv.2, hA.2, hW.2, hX.2]
  refine lt_of_le_of_lt hmain ?_
  rw [lt_div_iff₀ (by positivity)]
  have h1 : (2000 * L + 3060) / 2 ^ 53 + 41 / 2 ^ 64 ≤
      (2000 * 1000000 + 3060) / 2 ^ 53 + 41 / 2 ^ 64 := by
    have : (2000 * L + 3060) / 2 ^ 53 ≤ (2000 * 1000000 + 3060) / (2 : ℚ) ^ 53 :=
      div_le_div_of_nonneg_right (by linarith) (by positivity)
    linarith
  have h2 : ((2000 * L + 3060) / 2 ^ 53 + 41 / 2 ^ 64) * (2 * L) ≤
      ((2000 * 1000000 + 3060) / 2 ^ 53 + 41 / 2 ^ 64) * (2 * 1000000) :=
    mul_le_mul h1 (by linarith) (by positivity) (by positivity)
  refine lt_of_le_of_lt h2 ?_
  norm_num

/-- The running double sum of one-decimal values: it stays finite, within the exact bound, and
close to the exact sum of the tenths. -/
theorem foldl_add_tenths (N : ℕ) (hN : N ≤ 2 ^ 40) (ks : List ℤ) :
    ∀ (m : ℕ) (a : ℚ), (∀ k ∈ ks, 0 ≤ k ∧ k ≤ 1000) → m + ks.length ≤ N → 0 ≤ a →
      a ≤ 100 * m →
      ∃ s : ℚ,
        (ks.map (fun k : ℤ => JsNumber.finite (roundQ ((k : ℚ) / 10)))).foldl
            (fun (acc : JsNumber) x => acc.add (orZero x)) (.finite a) = .finite s ∧
          0 ≤ s ∧ s ≤ 100 * ((m + ks.length : ℕ) : ℚ) ∧
          |s - (a + (ks.sum : ℚ) / 10)| ≤
            (ks.length : ℚ) * (2 * ((100 * N + 1) / 2 ^ 53 + 1 / 2 ^ 64)) := by
  induction ks with
  | nil =>
    intro m a _ _ h0 h1
    refine ⟨a, rfl, h0, by simpa using h1, by simp⟩
  | cons k rest ih =>
    intro m a hk hlen h0 h1
    have hk' := hk k (List.mem_cons_self _ _)
    obtain ⟨p0, p1, pe⟩ := roundQ_tenths_bounds k hk'.1 hk'.2
    simp only [List.length_cons] at hlen
    have hm1 : m + 1 ≤ N := by omega
    have hm1q : ((m : ℚ) + 1) ≤ N := by exact_mod_cast hm1
    have hm0 : (0 : ℚ) ≤ m := Nat.cast_nonneg m
    have hb : roundQ ((100 * (m + 1) : ℕ) : ℚ) = ((100 * (m + 1) : ℕ) : ℚ) :=
      roundQ_natCast _ (by
        have h2 : 100 * 2 ^ 40 < 2 ^ 53 := by norm_num
        omega)
    have hcast : ((100 * (m + 1) : ℕ) : ℚ) = 100 * ((m : ℚ) + 1) := by push_cast; ring
    have hsum0 : 0 ≤ a + roundQ ((k : ℚ) / 10) := by linarith
    have hsum1 : a + roundQ ((k : ℚ) / 10) ≤ ((100 * (m + 1) : ℕ) : ℚ) := by
      rw [hcast]; linarith
    have hN53 : ((100 * (m + 1) : ℕ) : ℚ) ≤ 2 ^ 53 := by
      have h2 : 100 * (m + 1) ≤ 2 ^ 53 := by
        have h3 : 100 * 2 ^ 40 < 2 ^ 53 := by norm_num
        omega
      exact_mod_cast h2
    have f := fl_of_nonneg_le _ _ hsum0 hsum1 hb (lt_overflow_of_le hN53)
    have fe := abs_roundQ_sub_le_small (a + roundQ ((k : ℚ) / 10))
    rw [abs_of_nonneg hsum0] at fe
    have f1 : roundQ (a + roundQ ((k : ℚ) / 10)) ≤ 100 * (((m + 1 : ℕ)) : ℚ) := by
      have := f.2.2
      rw [hcast] at this
      push_cast
      exact this
    obtain ⟨s, hs, s0, s1, se⟩ := ih (m + 1) (roundQ (a + roundQ ((k : ℚ) / 10)))
      (fun x hx => hk x (List.mem_cons_of_mem _ hx)) (by omega) f.2.1 f1
    refine ⟨s, ?_, s0, ?_, ?_⟩
    · simp only [List.map_cons, List.foldl_cons, orZero_finite, JsNumber.add, f.1]
      exact hs
    · have : (m + (k :: rest).length : ℕ) = (m + 1 + rest.length : ℕ) := by
        simp only [List.length_cons]; omega
      rw [this]; exact s1
    · have hstep : (a + roundQ ((k : ℚ) / 10)) / 2 ^ 53 + 1 / 2 ^ 64 ≤
          (100 * (N : ℚ) + 1) / 2 ^ 53 + 1 / 2 ^ 64 := by
        have : (a + roundQ ((k : ℚ) / 10)) / 2 ^ 53 ≤ (100 * (N : ℚ) + 1) / 2 ^ 53 := by
          apply div_le_div_of_nonneg_right _ (by positivity)
          rw [hcast] at hsum1
          linarith
        linarith
      have hstep2 : (100 : ℚ) / 2 ^ 53 + 1 / 2 ^ 64 ≤ (100 * (N : ℚ) + 1) / 2 ^ 53 + 1 / 2 ^ 64 := by
        have : (100 : ℚ) / 2 ^ 53 ≤ (100 * (N : ℚ) + 1) / 2 ^ 53 := by
          apply div_le_div_of_nonneg_right _ (by positivity)
          linarith
        linarith
      have hl : (((k :: rest).length : ℕ) : ℚ) = (rest.length : ℚ) + 1 := by
        simp only [List.length_cons]; push_cast; ring
      have hsumc : (((k :: rest).sum : ℤ) : ℚ) / 10 = (k : ℚ) / 10 + (rest.sum : ℚ) / 10 := by
        rw [List.sum_cons, Int.cast_add]; ring
      rw [hl, hsumc]
      exact sum_step_bound s _ a _ _ _ _ _ se (fe.trans hstep) (pe.trans hstep2)

theorem sum_tenths_bounds (l : List ℤ) (h : ∀ k ∈ l, 0 ≤ k ∧ k ≤ 1000) :
    0 ≤ l.sum ∧ l.sum ≤ 1000 * l.length := by
  induction l with
  | nil => simp
  | cons x r ihr =>
    have hx := h x (List.mem_cons_self _ _)
    have hr := ihr (fun y hy => h y (List.mem_cons_of_mem _ hy))
    simp only [List.sum_cons, List.length_cons]
    push_cast
    constructor <;> omega

theorem roundQ_101 : roundQ 101 = 101 := by simpa using roundQ_natCast 101 (by norm_num)

theorem roundQ_1010 : roundQ 1010 = 1010 := by simpa using roundQ_natCast 1010 (by norm_num)

/-- The roll-up of a module whose `positivePercentage` values are the doubles written with one
decimal for the tenths `ks`: `positiveAverage` is the double written with one decimal for `n`
tenths, where `n` is an integer nearest to the mean of `ks`. -/
theorem positiveAverage_rollUp (cnt : Nat) (qs : List QuestionScore) (ks : List ℤ)
    (hqs : qs.map QuestionScore.positivePercentage =
      ks.map (fun k : ℤ => JsNumber.finite (roundQ ((k : ℚ) / 10))))
    (hks : ∀ k ∈ ks, 0 ≤ k ∧ k ≤ 1000) (hpos : 0 < qs.length) (hlen : qs.length ≤ 1000000) :
    ∃ n : ℤ, 0 ≤ n ∧ n ≤ 1000 ∧
      (rollUp { emptyModule cnt with questionScores := qs }).summaryMetrics.positiveAverage =
        .finite (roundQ ((n : ℚ) / 10)) ∧
      |(n : ℚ) - (ks.sum : ℚ) / qs.length| ≤ 1 / 2 := by
  have hL : ks.length = qs.length := by
    have := congrArg List.length hqs
    simpa using this.symm
  generalize hLdef : qs.length = L at hpos hlen hL ⊢
  have hLq : (0 : ℚ) < L := by exact_mod_cast hpos
  have hL1 : (1 : ℚ) ≤ L := by exact_mod_cast hpos
  have hLb : (L : ℚ) ≤ 1000000 := by exact_mod_cast hlen
  have hL40 : L ≤ 2 ^ 40 := by
    have : (1000000 : ℕ) ≤ 2 ^ 40 := by norm_num
    omega
  obtain ⟨s, hs, s0, s1, se⟩ := foldl_add_tenths L hL40 ks 0 0 hks (by omega) le_rfl (by simp)
  rw [hL] at s1 se
  simp only [zero_add] at s1 se
  have hsumk := sum_tenths_bounds ks hks
  rw [hL] at hsumk
  have hsk0 : (0 : ℚ) ≤ (ks.sum : ℚ) := by exact_mod_cast hsumk.1
  have hsk1 : (ks.sum : ℚ) ≤ 1000 * L := by exact_mod_cast hsumk.2
  -- the division by the length
  have hq0 : 0 ≤ s / L := div_nonneg s0 hLq.le
  have hq1 : s / L ≤ 100 := by rw [div_le_iff₀ hLq]; linarith
  have g := fl_of_nonneg_le _ _ hq0 hq1 roundQ_hundred (lt_overflow_of_le (by norm_num))
  have ge := abs_roundQ_sub_le_small (s / L)
  rw [abs_of_nonneg hq0] at ge
  have ge' : |roundQ (s / L) - s / L| ≤ 100 / 2 ^ 53 + 1 / 2 ^ 64 := by
    have : s / L / 2 ^ 53 ≤ 100 / 2 ^ 53 := div_le_div_of_nonneg_right hq1 (by positivity)
    linarith
  -- adding Number.EPSILON
  have heps : (0 : ℚ) ≤ 1 / 2 ^ 52 ∧ (1 : ℚ) / 2 ^ 52 ≤ 1 := by constructor <;> norm_num
  have hw0 : 0 ≤ roundQ (s / L) + 1 / 2 ^ 52 := by linarith [g.2.1, heps.1]
  have hw1 : roundQ (s / L) + 1 / 2 ^ 52 ≤ 101 := by linarith [g.2.2, heps.2]
  have w := fl_of_nonneg_le _ _ hw0 hw1 roundQ_101 (lt_overflow_of_le (by norm_num))
  have we := abs_roundQ_sub_le_small (roundQ (s / L) + 1 / 2 ^ 52)
  rw [abs_of_nonneg hw0] at we
  have we' : |roundQ (roundQ (s / L) + 1 / 2 ^ 52) - (roundQ (s / L) + 1 / 2 ^ 52)| ≤
      101 / 2 ^ 53 + 1 / 2 ^ 64 := by
    have : (roundQ (s / L) + 1 / 2 ^ 52) / 2 ^ 53 ≤ 101 / 2 ^ 53 :=
      div_le_div_of_nonneg_right hw1 (by positivity)
    linarith
  -- the multiplication by 10
  have hx0 : 0 ≤ roundQ (roundQ (s / L) + 1 / 2 ^ 52) * 10 := by linarith [w.2.1]
  have hx1 : roundQ (roundQ (s / L) + 1 / 2 ^ 52) * 10 ≤ 1010 := by linarith [w.2.2]
  have x := fl_of_nonneg_le _ _ hx0 hx1 roundQ_1010 (lt_overflow_of_le (by norm_num))
  have xe := abs_roundQ_sub_le_small (roundQ (roundQ (s / L) + 1 / 2 ^ 52) * 10)
  rw [abs_of_nonneg hx0] at xe
  have xe' : |roundQ (roundQ (roundQ (s / L) + 1 / 2 ^ 52) * 10) -
      roundQ (roundQ (s / L) + 1 / 2 ^ 52) * 10| ≤ 1010 / 2 ^ 53 + 1 / 2 ^ 64 := by
    have : roundQ (roundQ (s / L) + 1 / 2 ^ 52) * 10 / 2 ^ 53 ≤ 1010 / 2 ^ 53 :=
      div_le_div_of_nonneg_right hx1 (by positivity)
    linarith
  have hclose := rollUp_chain s L ((ks.sum : ℚ) / 10) _ _ _ hL1 hLb se ge' we' xe'
  have e10 : 10 * ((ks.sum : ℚ) / 10 / L) = ((ks.sum : ℤ) : ℚ) / L := by
    ring
  rw [e10] at hclose
  have hn := round_near_lattice _ ks.sum L hpos hclose
  have hn0 : 0 ≤ ⌊roundQ (roundQ (roundQ (s / L) + 1 / 2 ^ 52) * 10) + 1 / 2⌋ :=
    Int.floor_nonneg.mpr (by linarith [x.2.1])
  have hn1 : ⌊roundQ (roundQ (roundQ (s / L) + 1 / 2 ^ 52) * 10) + 1 / 2⌋ ≤ 1000 := by
    rw [abs_le] at hn
    have h1 : (ks.sum : ℚ) / L ≤ 1000 := by rw [div_le_iff₀ hLq]; linarith
    have h2 : ((⌊roundQ (roundQ (roundQ (s / L) + 1 / 2 ^ 52) * 10) + 1 / 2⌋ : ℤ) : ℚ) < 1001 := by
      linarith [hn.2]
    have h3 : ⌊roundQ (roundQ (roundQ (s / L) + 1 / 2 ^ 52) * 10) + 1 / 2⌋ < 1001 := by
      exact_mod_cast h2
    omega
  refine ⟨_, hn0, hn1, ?_, hn⟩
  have t := fl_tenths _ hn0 hn1
  have hL0 : ¬ (L : ℚ) = 0 := hLq.ne'
  have h10 : ¬ (10 : ℚ) = 0 := by norm_num
  have hfold : qs.foldl (fun (acc : JsNumber) q => acc.add (orZero q.positivePercentage))
      (JsNumber.finite 0) = .finite s := by
    rw [← hs, ← hqs, List.foldl_map]
  have hgt : qs.length > 0 := by rw [hLdef]; exact hpos
  unfold rollUp
  simp only [hgt, if_true, hfold, hLdef, gt_iff_lt, hpos]
  simp only [JsNumber.div, hL0, if_false, g.1, EPSILON, JsNumber.add, w.1, JsNumber.mul, x.1,
    jsRound, h10]
  exact t.1

/-! ## Evaluating a rounding -/

/-- The double nearest to `q`, from its binade `e` and the nearest multiple `m` of the spacing. -/
theorem roundQ_eval (q : ℚ) (e m : ℤ) (he : -1022 ≤ e) (h1 : (2 : ℚ) ^ e ≤ |q|)
    (h2 : |q| < (2 : ℚ) ^ (e + 1)) (hm : |q / (2 : ℚ) ^ (e - 52) - m| < 1 / 2) :
    roundQ q = (m : ℚ) * (2 : ℚ) ^ (e - 52) := by
  have hb := binade_eq_of_bounds q e he h1 h2
  unfold roundQ ulp
  rw [hb, roundHalfEven_eq_of_abs_lt _ m hm]

theorem roundQ_eval_tie_even (q : ℚ) (e m : ℤ) (he : -1022 ≤ e) (h1 : (2 : ℚ) ^ e ≤ |q|)
    (h2 : |q| < (2 : ℚ) ^ (e + 1)) (hm : q / (2 : ℚ) ^ (e - 52) = m + 1 / 2) (hev : m % 2 = 0) :
    roundQ q = (m : ℚ) * (2 : ℚ) ^ (e - 52) := by
  have hb := binade_eq_of_bounds q e he h1 h2
  unfold roundQ ulp
  rw [hb, roundHalfEven_tie_even _ m hm hev]

theorem roundQ_eval_tie_odd (q : ℚ) (e m : ℤ) (he : -1022 ≤ e) (h1 : (2 : ℚ) ^ e ≤ |q|)
    (h2 : |q| < (2 : ℚ) ^ (e + 1)) (hm : q / (2 : ℚ) ^ (e - 52) = m + 1 / 2) (hod : m % 2 = 1) :
    roundQ q = ((m + 1 : ℤ) : ℚ) * (2 : ℚ) ^ (e - 52) := by
  have hb := binade_eq_of_bounds q e he h1 h2
  unfold roundQ ulp
  rw [hb, roundHalfEven_tie_odd _ m hm hod]

theorem fl_of_roundQ (q r : ℚ) (h : roundQ q = r) (h0 : -(2 ^ 53) ≤ r) (h1 : r ≤ 2 ^ 53) :
    fl q = .finite r := by
  unfold fl
  rw [h]
  have hlt := two_pow_53_lt_overflow
  rw [if_neg (by linarith), if_neg (by linarith)]

theorem roundQ_50_eps : roundQ (50 + 1 / 2 ^ 52) = 50 := by
  have h := roundQ_eval (50 + 1 / 2 ^ 52) 5 7036874417766400 (by norm_num)
    (by rw [abs_of_pos (by norm_num)]; norm_num)
    (by rw [abs_of_pos (by norm_num)]; norm_num)
    (by norm_num [abs_lt])
  rw [h]; norm_num

/-! ## Prefixes -/

theorem startsWith_iff (qid p : String) :
    startsWith qid p = true ↔ ∃ rest, qid.toList = p.toList ++ rest := by
  unfold startsWith
  rw [List.isPrefixOf_iff_prefix]
  constructor
  · rintro ⟨t, ht⟩; exact ⟨t, ht.symm⟩
  · rintro ⟨t, ht⟩; exact ⟨t, ht.symm⟩

theorem head_of_startsWith (qid p : String) (c : Char) (cs : List Char)
    (hp : p.toList = c :: cs) (h : startsWith qid p = true) : qid.toList.head? = some c := by
  obtain ⟨rest, hr⟩ := (startsWith_iff qid p).mp h
  rw [hr, hp]; rfl

theorem head_ai (qid : String) (h : startsWith qid "ai-" = true) : qid.toList.head? = some 'a' :=
  head_of_startsWith qid "ai-" 'a' ['i', '-'] rfl h

theorem head_leadership (qid : String) (h : startsWith qid "leadership-" = true) :
    qid.toList.head? = some 'l' :=
  head_of_startsWith qid "leadership-" 'l' _ rfl h

theorem head_ee (qid : String) (h : startsWith qid "ee-" = true) : qid.toList.head? = some 'e' :=
  head_of_startsWith qid "ee-" 'e' _ rfl h

theorem head_employee (qid : String) (h : startsWith qid "employee" = true) :
    qid.toList.head? = some 'e' :=
  head_of_startsWith qid "employee" 'e' _ rfl h

/-- The `if / else if` chain sends an id to a module exactly when it carries its prefix:
the prefixes exclude one another. -/
theorem route_eq_some_iff (qid : String) (j : ModuleKey) :
    route qid = some j ↔ hasModulePrefix j qid = true := by
  unfold route
  by_cases h1 : startsWith qid "ai-" = true
  · have ha := head_ai qid h1
    have n2 : ¬ startsWith qid "leadership-" = true := by
      intro h; have := head_leadership qid h; rw [ha] at this; exact absurd this (by decide)
    have n3 : ¬ startsWith qid "ee-" = true := by
      intro h; have := head_ee qid h; rw [ha] at this; exact absurd this (by decide)
    have n4 : ¬ startsWith qid "employee" = true := by
      intro h; have := head_employee qid h; rw [ha] at this; exact absurd this (by decide)
    cases j <;> simp [hasModulePrefix, h1, n2, n3, n4]
  · by_cases h2 : startsWith qid "leadership-" = true
    · have hl := head_leadership qid h2
      have n3 : ¬ startsWith qid "ee-" = true := by
        intro h; have := head_ee qid h; rw [hl] at this; exact absurd this (by decide)
      have n4 : ¬ startsWith qid "employee" = true := by
        intro h; have := head_employee qid h; rw [hl] at this; exact absurd this (by decide)
      cases j <;> simp [hasModulePrefix, h1, h2, n3, n4]
    · by_cases h3 : (startsWith qid "ee-" || startsWith qid "employee") = true
      · cases j <;> simp [hasModulePrefix, h1, h2, h3]
      · cases j <;> simp [hasModulePrefix, h1, h2, h3]

theorem route_eq_none_iff (qid : String) :
    route qid = none ↔ ∀ j, hasModulePrefix j qid = false := by
  constructor
  · intro h j
    cases hj : hasModulePrefix j qid
    · rfl
    · rw [(route_eq_some_iff qid j).mpr hj] at h; exact absurd h (by simp)
  · intro h
    cases hr : route qid with
    | none => rfl
    | some j =>
      have hj := (route_eq_some_iff qid j).mp hr
      rw [h j] at hj
      exact absurd hj (by simp)

theorem firstSegment_of_startsWith (qid seg : String) (hseg : '-' ∉ seg.toList)
    (h : startsWith qid (seg ++ "-") = true) : firstSegment qid = seg := by
  obtain ⟨rest, hr⟩ := (startsWith_iff qid (seg ++ "-")).mp h
  unfold firstSegment
  rw [hr]
  have : (seg ++ "-").toList = seg.toList ++ ['-'] := by simp
  rw [this, List.append_assoc, List.takeWhile_append_of_pos]
  · simp [List.takeWhile]
  · intro c hc
    have : c ≠ '-' := fun hcc => hseg (hcc ▸ hc)
    simpa using this

/-! ## Module lists -/

theorem questionIds_modulesOf (docs : List Doc) (j : ModuleKey) :
    ((modulesOf docs).get j).questionScores.map QuestionScore.questionId =
      (((allPairs docs).foldl (fun st p => upsert st p.1 p.2) []).filter
        (fun e => decide (route e.1 = some j))).map Prod.fst := by
  rw [questionScores_modulesOf, List.map_map]
  rfl

theorem nodup_questionIds (docs : List Doc) (j : ModuleKey) :
    (((modulesOf docs).get j).questionScores.map QuestionScore.questionId).Nodup := by
  rw [questionIds_modulesOf]
  exact (nodup_keys_allPairs docs).sublist ((List.filter_sublist _).map _)

theorem mem_questionScores (docs : List Doc) (j : ModuleKey) (e : QuestionScore) :
    e ∈ ((modulesOf docs).get j).questionScores ↔
      ∃ s, (e.questionId, s) ∈ (allPairs docs).foldl (fun st p => upsert st p.1 p.2) [] ∧
        route e.questionId = some j ∧ e = scoreOf e.questionId s := by
  rw [questionScores_modulesOf]
  simp only [List.mem_map, List.mem_filter, decide_eq_true_eq]
  constructor
  · rintro ⟨⟨q, s⟩, ⟨hm, hr⟩, rfl⟩
    exact ⟨s, hm, hr, rfl⟩
  · rintro ⟨s, hm, hr, he⟩
    exact ⟨(e.questionId, s), ⟨hm, hr⟩, he.symm⟩

theorem mem_questionIds (docs : List Doc) (j : ModuleKey) (qid : String) :
    qid ∈ ((modulesOf docs).get j).questionScores.map QuestionScore.questionId ↔
      hasModulePrefix j qid = true ∧ valuesOf qid (allPairs docs) ≠ [] := by
  rw [questionIds_modulesOf]
  simp only [List.mem_map, List.mem_filter, decide_eq_true_eq]
  constructor
  · rintro ⟨⟨q, s⟩, ⟨hm, hr⟩, rfl⟩
    exact ⟨(route_eq_some_iff q j).mp hr, ((mem_stats docs q s).mp hm).1⟩
  · rintro ⟨hp, hv⟩
    exact ⟨(qid, _), ⟨(mem_stats docs qid _).mpr ⟨hv, rfl⟩, (route_eq_some_iff qid j).mpr hp⟩,
      rfl⟩

theorem length_pos_of_ne_nil {α : Type} (l : List α) (h : l ≠ []) : 0 < l.length :=
  List.length_pos.mpr h

theorem positiveCountOf_le (qid : String) (vals : List ℚ) :
    positiveCountOf qid vals ≤ vals.length :=
  List.length_filter_le _ _

/-- Every entry of a module list is the score of the values read for its question id. -/
theorem entry_of_mem_questionScores (docs : List Doc) (j : ModuleKey) (e : QuestionScore)
    (he : e ∈ ((modulesOf docs).get j).questionScores) :
    valuesOf e.questionId (allPairs docs) ≠ [] ∧
      e = scoreOf e.questionId
        { sum := doubleSum (valuesOf e.questionId (allPairs docs))
          count := (valuesOf e.questionId (allPairs docs)).length
          positiveCount := positiveCountOf e.questionId (valuesOf e.questionId (allPairs docs)) } := by
  obtain ⟨s, hm, -, hs⟩ := (mem_questionScores docs j e).mp he
  obtain ⟨hv, rfl⟩ := (mem_stats docs _ s).mp hm
  exact ⟨hv, hs⟩

/-- Statement C1.  When the aggregation returns (no value read makes `Number` raise), the list
`questionScores` of each module has exactly one entry for each question id that carries the prefix
of the module and has at least one finite value: the ids of the list are pairwise distinct and an
id is in the list exactly when it carries the prefix and has a finite value.  Each entry has
`average` equal to the sum of the finite values of its id (the running double sum, in reading
order) divided by their number, and `positivePercentage` equal to `(positiveCount / count) * 100`
rounded to one decimal by `Math.round(x * 10) / 10`, in double arithmetic; that value is the
double written with one decimal for `n` tenths, where `n` is an integer nearest to the exact
`1000 * positiveCount / count` (for every count up to `2 ^ 39`).  An id with none of the prefixes
is in no module. -/
theorem questionScores_per_question (docs : List Doc) (hc : coercible docs) :
    ∃ m, aggregate docs = .ok m ∧ ∀ j,
      ((m.get j).questionScores.map QuestionScore.questionId).Nodup ∧
      (∀ qid, qid ∈ (m.get j).questionScores.map QuestionScore.questionId ↔
        hasModulePrefix j qid = true ∧ valuesOf qid (allPairs docs) ≠ []) ∧
      (∀ e ∈ (m.get j).questionScores,
        e.average = (doubleSum (valuesOf e.questionId (allPairs docs))).div
            (.finite (valuesOf e.questionId (allPairs docs)).length) ∧
        e.positivePercentage = roundOneDecimal
          (((JsNumber.finite (positiveCountOf e.questionId
              (valuesOf e.questionId (allPairs docs)))).div
            (.finite (valuesOf e.questionId (allPairs docs)).length)).mul (.finite 100)) ∧
        ∃ n : ℤ, e.positivePercentage = .finite (roundQ ((n : ℚ) / 10)) ∧
          ((valuesOf e.questionId (allPairs docs)).length ≤ 2 ^ 39 →
            |(n : ℚ) - 1000 * (positiveCountOf e.questionId
                (valuesOf e.questionId (allPairs docs)) : ℚ) /
              (valuesOf e.questionId (allPairs docs)).length| ≤ 1 / 2)) ∧
      (∀ qid, (∀ k, hasModulePrefix k qid = false) →
        ∀ k, qid ∉ (m.get k).questionScores.map QuestionScore.questionId) := by
  refine ⟨modulesOf docs, aggregate_eq docs hc, fun j => ?_⟩
  refine ⟨nodup_questionIds docs j, mem_questionIds docs j, ?_, ?_⟩
  · intro e he
    obtain ⟨hv, hs⟩ := entry_of_mem_questionScores docs j e he
    have hl := length_pos_of_ne_nil _ hv
    have hp := positiveCountOf_le e.questionId (valuesOf e.questionId (allPairs docs))
    have havg := congrArg QuestionScore.average hs
    have hpp := congrArg QuestionScore.positivePercentage hs
    refine ⟨?_, ?_, ⟨tenthsOf (positiveCountOf e.questionId (valuesOf e.questionId (allPairs docs)))
      (valuesOf e.questionId (allPairs docs)).length, ?_, ?_⟩⟩
    · rw [havg]; rfl
    · rw [hpp]; simp only [scoreOf, hl, if_true, roundOneDecimal, gt_iff_lt]
    · rw [hpp]; exact positivePercentage_scoreOf _ _ _ _ hl hp
    · intro hb
      exact tenthsOf_nearest _ _ hl hp hb
  · intro qid hq k hk
    have := ((mem_questionIds docs k qid).mp hk).1
    rw [hq k] at this
    exact absurd this (by simp)

/-- Statement C8.  The aggregation either raises, exactly when some value read makes `Number`
raise, or returns; and when it returns, every entry of every `questionScores` has a
`positivePercentage` between 0 and 100 that is a one-decimal value (the double written with one
decimal for an integer number of tenths between 0 and 1000), and every accumulated question stat
has `count >= 1` and `0 <= positiveCount <= count`. -/
theorem positivePercentage_range (docs : List Doc) :
    (¬ coercible docs ∧ aggregate docs = .error "Cannot convert object to primitive value") ∨
    (coercible docs ∧
      (∃ m, aggregate docs = .ok m ∧ ∀ j, ∀ e ∈ (m.get j).questionScores,
        ∃ v : ℚ, e.positivePercentage = .finite v ∧ 0 ≤ v ∧ v ≤ 100 ∧
          ∃ n : ℤ, 0 ≤ n ∧ n ≤ 1000 ∧ v = roundQ ((n : ℚ) / 10)) ∧
      (∃ acc, accumulate docs = .ok acc ∧ ∀ q s, (q, s) ∈ acc.questionStats →
        1 ≤ s.count ∧ 0 ≤ s.positiveCount ∧ s.positiveCount ≤ s.count)) := by
  by_cases hc : coercible docs
  · refine Or.inr ⟨hc, ?_, ?_⟩
    · refine ⟨modulesOf docs, aggregate_eq docs hc, fun j e he => ?_⟩
      obtain ⟨hv, hs⟩ := entry_of_mem_questionScores docs j e he
      have hl := length_pos_of_ne_nil _ hv
      have hp := positiveCountOf_le e.questionId (valuesOf e.questionId (allPairs docs))
      have hb := tenthsOf_bounds _ _ hl hp
      have ht := fl_tenths _ hb.1 hb.2
      refine ⟨_, ?_, ht.2.1, ht.2.2, _, hb.1, hb.2, rfl⟩
      rw [congrArg QuestionScore.positivePercentage hs]
      exact positivePercentage_scoreOf _ _ _ _ hl hp
    · refine ⟨_, accumulate_eq docs hc, fun q s hm => ?_⟩
      obtain ⟨hv, rfl⟩ := (mem_stats docs q s).mp hm
      exact ⟨length_pos_of_ne_nil _ hv, Nat.zero_le _, positiveCountOf_le _ _⟩
  · exact Or.inl ⟨hc, aggregate_error docs hc⟩

theorem roundQ_sum_01_02 : roundQ (10808639105689191 / 36028797018963968) = 1351079888211149 / 4503599627370496 := by
  have h := roundQ_eval_tie_odd (10808639105689191 / 36028797018963968) (-2) 5404319552844595 (by norm_num)
    (by rw [abs_of_pos (by norm_num)]; norm_num)
    (by rw [abs_of_pos (by norm_num)]; norm_num)
    (by norm_num) (by norm_num)
  rw [h]; norm_num

theorem roundQ_sum_01_02_03 : roundQ (10808639105689191 / 18014398509481984) = 1351079888211149 / 2251799813685248 := by
  have h := roundQ_eval_tie_odd (10808639105689191 / 18014398509481984) (-1) 5404319552844595 (by norm_num)
    (by rw [abs_of_pos (by norm_num)]; norm_num)
    (by rw [abs_of_pos (by norm_num)]; norm_num)
    (by norm_num) (by norm_num)
  rw [h]; norm_num

theorem roundQ_avg_01_02_03 : roundQ (1351079888211149 / 6755399441055744) = 7205759403792795 / 36028797018963968 := by
  have h := roundQ_eval (1351079888211149 / 6755399441055744) (-3) 7205759403792795 (by norm_num)
    (by rw [abs_of_pos (by norm_num)]; norm_num)
    (by rw [abs_of_pos (by norm_num)]; norm_num)
    (by norm_num [abs_lt])
  rw [h]; norm_num

theorem roundQ_sum_03_02 : roundQ (1 / 2) = 1 / 2 := by
  have h := roundQ_eval (1 / 2) (-1) 4503599627370496 (by norm_num)
    (by rw [abs_of_pos (by norm_num)]; norm_num)
    (by rw [abs_of_pos (by norm_num)]; norm_num)
    (by norm_num [abs_lt])
  rw [h]; norm_num

theorem roundQ_sum_03_02_01 : roundQ (21617278211378381 / 36028797018963968) = 5404319552844595 / 9007199254740992 := by
  have h := roundQ_eval (21617278211378381 / 36028797018963968) (-1) 5404319552844595 (by norm_num)
    (by rw [abs_of_pos (by norm_num)]; norm_num)
    (by rw [abs_of_pos (by norm_num)]; norm_num)
    (by norm_num [abs_lt])
  rw [h]; norm_num

theorem roundQ_avg_03_02_01 : roundQ (5404319552844595 / 27021597764222976) = 7205759403792793 / 36028797018963968 := by
  have h := roundQ_eval (5404319552844595 / 27021597764222976) (-3) 7205759403792793 (by norm_num)
    (by rw [abs_of_pos (by norm_num)]; norm_num)
    (by rw [abs_of_pos (by norm_num)]; norm_num)
    (by norm_num [abs_lt])
  rw [h]; norm_num

theorem roundQ_23_80 : roundQ (23 / 80) = 2589569785738035 / 9007199254740992 := by
  have h := roundQ_eval (23 / 80) (-2) 5179139571476070 (by norm_num)
    (by rw [abs_of_pos (by norm_num)]; norm_num)
    (by rw [abs_of_pos (by norm_num)]; norm_num)
    (by norm_num [abs_lt])
  rw [h]; norm_num

theorem roundQ_23_80_pct : roundQ (64739244643450875 / 2251799813685248) = 8092405580431359 / 281474976710656 := by
  have h := roundQ_eval (64739244643450875 / 2251799813685248) 4 8092405580431359 (by norm_num)
    (by rw [abs_of_pos (by norm_num)]; norm_num)
    (by rw [abs_of_pos (by norm_num)]; norm_num)
    (by norm_num [abs_lt])
  rw [h]; norm_num

theorem roundQ_23_80_tenths : roundQ (40462027902156795 / 140737488355328) = 5057753487769599 / 17592186044416 := by
  have h := roundQ_eval (40462027902156795 / 140737488355328) 8 5057753487769599 (by norm_num)
    (by rw [abs_of_pos (by norm_num)]; norm_num)
    (by rw [abs_of_pos (by norm_num)]; norm_num)
    (by norm_num [abs_lt])
  rw [h]; norm_num

theorem roundQ_1_16 : roundQ (1 / 16) = 1 / 16 := by
  have h := roundQ_eval (1 / 16) (-4) 4503599627370496 (by norm_num)
    (by rw [abs_of_pos (by norm_num)]; norm_num)
    (by rw [abs_of_pos (by norm_num)]; norm_num)
    (by norm_num [abs_lt])
  rw [h]; norm_num

theorem roundQ_1_16_pct : roundQ (25 / 4) = 25 / 4 := by
  have h := roundQ_eval (25 / 4) 2 7036874417766400 (by norm_num)
    (by rw [abs_of_pos (by norm_num)]; norm_num)
    (by rw [abs_of_pos (by norm_num)]; norm_num)
    (by norm_num [abs_lt])
  rw [h]; norm_num

theorem roundQ_1_16_tenths : roundQ (125 / 2) = 125 / 2 := by
  have h := roundQ_eval (125 / 2) 5 8796093022208000 (by norm_num)
    (by rw [abs_of_pos (by norm_num)]; norm_num)
    (by rw [abs_of_pos (by norm_num)]; norm_num)
    (by norm_num [abs_lt])
  rw [h]; norm_num

theorem roundQ_d111 : roundQ (6248744482976563 / 562949953421312) = 6248744482976563 / 562949953421312 := by
  have h := roundQ_eval (6248744482976563 / 562949953421312) 3 6248744482976563 (by norm_num)
    (by rw [abs_of_pos (by norm_num)]; norm_num)
    (by rw [abs_of_pos (by norm_num)]; norm_num)
    (by norm_num [abs_lt])
  rw [h]; norm_num

theorem roundQ_sum_111_778 : roundQ (50046250859154635 / 562949953421312) = 6255781357394329 / 70368744177664 := by
  have h := roundQ_eval (50046250859154635 / 562949953421312) 6 6255781357394329 (by norm_num)
    (by rw [abs_of_pos (by norm_num)]; norm_num)
    (by rw [abs_of_pos (by norm_num)]; norm_num)
    (by norm_num [abs_lt])
  rw [h]; norm_num

theorem roundQ_avg_111_778 : roundQ (6255781357394329 / 140737488355328) = 6255781357394329 / 140737488355328 := by
  have h := roundQ_eval (6255781357394329 / 140737488355328) 5 6255781357394329 (by norm_num)
    (by rw [abs_of_pos (by norm_num)]; norm_num)
    (by rw [abs_of_pos (by norm_num)]; norm_num)
    (by norm_num [abs_lt])
  rw [h]; norm_num

theorem roundQ_eps_111_778 : roundQ (200185003436618529 / 4503599627370496) = 6255781357394329 / 140737488355328 := by
  have h := roundQ_eval (200185003436618529 / 4503599627370496) 5 6255781357394329 (by norm_num)
    (by rw [abs_of_pos (by norm_num)]; norm_num)
    (by rw [abs_of_pos (by norm_num)]; norm_num)
    (by norm_num [abs_lt])
  rw [h]; norm_num

theorem roundQ_ten_111_778 : roundQ (31278906786971645 / 70368744177664) = 7819726696742911 / 17592186044416 := by
  have h := roundQ_eval (31278906786971645 / 70368744177664) 8 7819726696742911 (by norm_num)
    (by rw [abs_of_pos (by norm_num)]; norm_num)
    (by rw [abs_of_pos (by norm_num)]; norm_num)
    (by norm_num [abs_lt])
  rw [h]; norm_num

theorem roundQ_444 : roundQ (222 / 5) = 6248744482976563 / 140737488355328 := by
  have h := roundQ_eval (222 / 5) 5 6248744482976563 (by norm_num)
    (by rw [abs_of_pos (by norm_num)]; norm_num)
    (by rw [abs_of_pos (by norm_num)]; norm_num)
    (by norm_num [abs_lt])
  rw [h]; norm_num

/-! ## Doubles of the sample records -/

theorem fl_2 : fl 2 = .finite 2 := by simpa using fl_natCast 2 (by norm_num)

theorem fl_5 : fl 5 = .finite 5 := by simpa using fl_natCast 5 (by norm_num)

theorem fl_8 : fl 8 = .finite 8 := by simpa using fl_natCast 8 (by norm_num)

theorem fl_50 : fl 50 = .finite 50 := by simpa using fl_natCast 50 (by norm_num)

theorem fl_100 : fl 100 = .finite 100 := by simpa using fl_natCast 100 (by norm_num)

theorem fl_500 : fl 500 = .finite 500 := by simpa using fl_natCast 500 (by norm_num)

theorem fl_50_eps : fl (50 + 1 / 2 ^ 52) = .finite 50 :=
  fl_of_roundQ _ _ roundQ_50_eps (by norm_num) (by norm_num)

/-- The score of a question whose `c ≥ 1` values sum to the double `sum` and are all positive. -/
theorem tenthsOf_all (c : Nat) (hc : 0 < c) : tenthsOf c c = 1000 := by
  have hc' : (c : ℚ) ≠ 0 := by exact_mod_cast hc.ne'
  unfold tenthsOf
  rw [div_self hc', roundQ_one, one_mul, roundQ_hundred]
  norm_num [roundQ_thousand]

theorem tenthsOf_none (c : Nat) : tenthsOf 0 c = 0 := by
  unfold tenthsOf
  norm_num [roundQ_zero]

/-! ## Response count -/

theorem responseCount_modulesOf (docs : List Doc) (j : ModuleKey) :
    ((modulesOf docs).get j).summaryMetrics.responseCount = docs.countP hasMapping := by
  rw [get_modulesOf]; rfl

theorem coercible_legacyDoc : coercible [legacyDoc] := by
  unfold coercible; decide

/-- Statement C2, refuted as stated: one record of the legacy shape is scanned and read (its
question is listed in `ai-readiness`), yet `responseCount` is 0 in the three modules. -/
theorem responseCount_legacy_not_counted :
    [legacyDoc].length = 1 ∧
    ∃ m, aggregate [legacyDoc] = .ok m ∧
      (m.get .aiReadiness).questionScores.map QuestionScore.questionId = ["ai-1"] ∧
      (m.get .aiReadiness).summaryMetrics.responseCount = 0 ∧
      (m.get .leadership).summaryMetrics.responseCount = 0 ∧
      (m.get .employeeExperience).summaryMetrics.responseCount = 0 := by
  refine ⟨rfl, modulesOf [legacyDoc], aggregate_eq _ coercible_legacyDoc, ?_, ?_, ?_, ?_⟩
  · rw [questionIds_modulesOf]
    simp [allPairs, readPairs, legacyDoc, finiteEntries, finiteValue, upsert, route, startsWith]
  all_goals rw [responseCount_modulesOf]; rfl

/-- Statement C2, amended.  The aggregation either raises, exactly when some value read makes
`Number` raise, or returns; when it returns, `responseCount` is the same number in the three
modules, and when moreover every fetched record carries an answers mapping, whether or not its
values are numeric, that number is the number of records scanned. -/
theorem responseCount_of_mappings (docs : List Doc) :
    (¬ coercible docs ∧ aggregate docs = .error "Cannot convert object to primitive value") ∨
    (coercible docs ∧ ∃ m, aggregate docs = .ok m ∧
      (∀ j k, (m.get j).summaryMetrics.responseCount = (m.get k).summaryMetrics.responseCount) ∧
      ((∀ d ∈ docs, hasMapping d = true) →
        ∀ j, (m.get j).summaryMetrics.responseCount = docs.length)) := by
  by_cases hc : coercible docs
  · refine Or.inr ⟨hc, modulesOf docs, aggregate_eq docs hc, fun j k => ?_, fun h j => ?_⟩
    · rw [responseCount_modulesOf, responseCount_modulesOf]
    · rw [responseCount_modulesOf]
      exact List.countP_eq_length.mpr h
  · exact Or.inl ⟨hc, aggregate_error docs hc⟩

/-- Two records with an answers mapping, one of them with a value that is not a number: the
count is 2 in each module. -/
theorem responseCount_of_mappings_witness :
    coercible [aiDoc, notNumericDoc] ∧
    ∃ m, aggregate [aiDoc, notNumericDoc] = .ok m ∧
      (∀ j k, (m.get j).summaryMetrics.responseCount = (m.get k).summaryMetrics.responseCount) ∧
      ∀ j, (m.get j).summaryMetrics.responseCount = 2 :=
  (responseCount_of_mappings [aiDoc, notNumericDoc]).elim
    (fun h => absurd (by unfold coercible; decide) h.1)
    (fun h => ⟨h.1, h.2.imp (fun _ hm => ⟨hm.1, hm.2.1, hm.2.2 (by decide)⟩)⟩)

/-! ## Positive threshold -/

theorem coercible_employeesDoc : coercible [employeesDoc] := by
  unfold coercible; decide

theorem coercible_bareEeDoc : coercible [bareEeDoc] := by
  unfold coercible; decide

/-- Statement C3, refuted as stated: the id `employees-1` is routed to employee-experience, its
value 5 is below 7, and it is counted as positive; the id `ee` is routed to no module, its value
5 is at least 4, and it is not counted as positive. -/
theorem threshold_differs_from_routing :
    route "employees-1" = some ModuleKey.employeeExperience ∧
    accumulate [employeesDoc] = .ok
      { questionStats := [("employees-1", { sum := .finite 5, count := 1, positiveCount := 1 })]
        totalRespondents := 1 } ∧
    (∃ m, aggregate [employeesDoc] = .ok m ∧
      (m.get .employeeExperience).questionScores =
        [{ questionId := "employees-1", average := .finite 5
           positivePercentage := .finite 100 }]) ∧
    route "ee" = none ∧
    accumulate [bareEeDoc] = .ok
      { questionStats := [("ee", { sum := .finite 5, count := 1, positiveCount := 0 })]
        totalRespondents := 1 } := by
  have t1 : threshold "employees-1" = 4 := by
    unfold threshold; rw [if_neg (by decide)]
  have t2 : threshold "ee" = 7 := by
    unfold threshold; rw [if_pos (by decide)]
  have hstat : (allPairs [employeesDoc]).foldl (fun st p => upsert st p.1 p.2) [] =
      [("employees-1", { sum := .finite 5, count := 1, positiveCount := 1 })] := by
    simp [allPairs, readPairs, employeesDoc, finiteEntries, finiteValue, upsert, bump, t1,
      JsNumber.add, fl_5]
    norm_num
  refine ⟨by decide, ?_, ?_, by decide, ?_⟩
  · rw [accumulate_eq _ coercible_employeesDoc, hstat]; rfl
  · refine ⟨modulesOf [employeesDoc], aggregate_eq _ coercible_employeesDoc, ?_⟩
    rw [questionScores_modulesOf, hstat]
    have hr : route "employees-1" = some ModuleKey.employeeExperience := by decide
    have hpp := positivePercentage_scoreOf "employees-1" (.finite 5) 1 1 (by norm_num) le_rfl
    rw [tenthsOf_all 1 (by norm_num)] at hpp
    have h100 : roundQ ((1000 : ℤ) / 10 : ℚ) = 100 := by
      have : ((1000 : ℤ) / 10 : ℚ) = 100 := by norm_num
      rw [this, roundQ_hundred]
    rw [h100] at hpp
    simp only [List.filter_cons, hr, decide_True, if_true, List.filter_nil, List.map_cons,
      List.map_nil]
    have havg : (scoreOf "employees-1" { sum := .finite 5, count := 1, positiveCount := 1 }).average
        = .finite 5 := by
      simp [scoreOf, JsNumber.div, fl_5]
    have hid : (scoreOf "employees-1" { sum := .finite 5, count := 1, positiveCount := 1 }).questionId
        = "employees-1" := rfl
    have : scoreOf "employees-1" { sum := .finite 5, count := 1, positiveCount := 1 } =
        { questionId := "employees-1", average := .finite 5, positivePercentage := .finite 100 } := by
      cases hsc : scoreOf "employees-1" { sum := .finite 5, count := 1, positiveCount := 1 }
      rw [hsc] at havg hid hpp
      simp only at havg hid hpp
      rw [havg, hid, hpp]
    rw [this]
  · rw [accumulate_eq _ coercible_bareEeDoc]
    simp [allPairs, readPairs, bareEeDoc, finiteEntries, finiteValue, upsert, bump, t2,
      JsNumber.add, fl_5, hasMapping]
    norm_num

theorem positiveCount_bump (qid : String) (val : ℚ) (s : Stat) :
    ((bump qid val s).positiveCount = s.positiveCount + 1 ↔ val ≥ threshold qid) ∧
    ((bump qid val s).positiveCount = s.positiveCount ↔ ¬ val ≥ threshold qid) := by
  by_cases h : val ≥ threshold qid <;> simp [bump, h]

/-- Statement C3, amended.  A finite value is counted as positive exactly when it is at least 7 if
the text of its question id before the first hyphen is `ee` or `employee`, and exactly when it is
at least 4 for every other id: this holds of each update of an accumulator entry and, whenever
the accumulation returns (it raises exactly when some value read makes `Number` raise), of the
positive count of each accumulated question.  Every id that starts with `ee-` or `employee-` is
of the first kind. -/
theorem positive_threshold_by_first_segment (docs : List Doc) (qid : String) :
    (∀ (val : ℚ) (s : Stat),
      ((bump qid val s).positiveCount = s.positiveCount + 1 ↔
        val ≥ (if firstSegment qid = "ee" ∨ firstSegment qid = "employee" then 7 else 4)) ∧
      ((bump qid val s).positiveCount = s.positiveCount ↔
        ¬ val ≥ (if firstSegment qid = "ee" ∨ firstSegment qid = "employee" then 7 else 4))) ∧
    ((¬ coercible docs ∧
        accumulate docs = .error "Cannot convert object to primitive value") ∨
      (coercible docs ∧ ∃ acc, accumulate docs = .ok acc ∧
        ∀ s, (qid, s) ∈ acc.questionStats →
          s.positiveCount = ((valuesOf qid (allPairs docs)).filter (fun v =>
            decide (v ≥ (if firstSegment qid = "ee" ∨ firstSegment qid = "employee"
              then (7 : ℚ) else 4)))).length)) ∧
    (startsWith qid "ee-" = true ∨ startsWith qid "employee-" = true →
      firstSegment qid = "ee" ∨ firstSegment qid = "employee") := by
  refine ⟨fun val s => positiveCount_bump qid val s, ?_, ?_⟩
  · by_cases hc : coercible docs
    · refine Or.inr ⟨hc, _, accumulate_eq docs hc, fun s hm => ?_⟩
      obtain ⟨-, rfl⟩ := (mem_stats docs qid s).mp hm
      rfl
    · exact Or.inl ⟨hc, accumulate_error docs hc⟩
  · rintro (h | h)
    · exact Or.inl (firstSegment_of_startsWith qid "ee" (by decide) h)
    · exact Or.inr (firstSegment_of_startsWith qid "employee" (by decide) h)

/-! ## Roll-up -/

theorem valuesOf_ne_nil_iff (qid : String) (ps : List (String × ℚ)) :
    valuesOf qid ps ≠ [] ↔ qid ∈ ps.map Prod.fst := by
  induction ps with
  | nil => simp [valuesOf]
  | cons p rest ih =>
    rw [valuesOf_cons]
    by_cases h : p.1 = qid
    · simp [h]
    · have h2 : ¬ qid = p.1 := fun e => h e.symm
      simp only [h, if_false, ih, List.map_cons, List.mem_cons, h2, false_or]

theorem length_questionScores (docs : List Doc) (j : ModuleKey) :
    ((modulesOf docs).get j).questionScores.length =
      ((((allPairs docs).map Prod.fst).dedup).filter (hasModulePrefix j)).length := by
  have h1 : (((modulesOf docs).get j).questionScores.map QuestionScore.questionId).Perm
      ((((allPairs docs).map Prod.fst).dedup).filter (hasModulePrefix j)) := by
    rw [List.perm_ext_iff_of_nodup (nodup_questionIds docs j)
      ((List.nodup_dedup _).filter _)]
    intro qid
    rw [mem_questionIds, List.mem_filter, List.mem_dedup, valuesOf_ne_nil_iff]
    exact and_comm
  simpa using h1.length_eq

/-- The `positivePercentage` values of a module are the doubles written with one decimal for
integer numbers of tenths between 0 and 1000. -/
theorem tenths_of_questionScores (docs : List Doc) (j : ModuleKey) :
    ∃ ks : List ℤ, (∀ k ∈ ks, 0 ≤ k ∧ k ≤ 1000) ∧
      ((modulesOf docs).get j).questionScores.map QuestionScore.positivePercentage =
        ks.map (fun k : ℤ => JsNumber.finite (roundQ ((k : ℚ) / 10))) := by
  have key : ∀ qs : List QuestionScore, (∀ e ∈ qs, e ∈ ((modulesOf docs).get j).questionScores) →
      ∃ ks : List ℤ, (∀ k ∈ ks, 0 ≤ k ∧ k ≤ 1000) ∧
        qs.map QuestionScore.positivePercentage =
          ks.map (fun k : ℤ => JsNumber.finite (roundQ ((k : ℚ) / 10))) := by
    intro qs
    induction qs with
    | nil => intro _; exact ⟨[], by simp, rfl⟩
    | cons e rest ih =>
      intro h
      obtain ⟨ks, hks, hmap⟩ := ih (fun x hx => h x (List.mem_cons_of_mem _ hx))
      obtain ⟨hv, hs⟩ := entry_of_mem_questionScores docs j e (h e (List.mem_cons_self _ _))
      have hl := length_pos_of_ne_nil _ hv
      have hp := positiveCountOf_le e.questionId (valuesOf e.questionId (allPairs docs))
      have hb := tenthsOf_bounds _ _ hl hp
      refine ⟨tenthsOf (positiveCountOf e.questionId (valuesOf e.questionId (allPairs docs)))
        (valuesOf e.questionId (allPairs docs)).length :: ks, ?_, ?_⟩
      · intro k hk
        rcases List.mem_cons.mp hk with rfl | hk'
        · exact hb
        · exact hks k hk'
      · rw [List.map_cons, List.map_cons, hmap, congrArg QuestionScore.positivePercentage hs,
          positivePercentage_scoreOf _ _ _ _ hl hp]
  exact key _ (fun e he => he)

/-- Statement C4.  When the aggregation returns, for each module `totalQuestions` is the length of
its `questionScores`, which is the number of distinct question ids routed to it, and
`positiveAverage` is 0 when the module has no question and otherwise the arithmetic mean of its
`positivePercentage` values rounded to one decimal: with the `positivePercentage` values being
`ks` tenths, `positiveAverage` is the double written with one decimal for `n` tenths, where `n`
is an integer nearest to the mean of `ks`.  The rounding is proved for modules of at most
1000000 questions, where the error of the running double sum stays below the gap to a tie. -/
theorem rollUp_of_module (docs : List Doc) (j : ModuleKey) (hc : coercible docs) :
    ∃ m, aggregate docs = .ok m ∧
      (m.get j).summaryMetrics.totalQuestions = (m.get j).questionScores.length ∧
      (m.get j).summaryMetrics.totalQuestions =
        ((((allPairs docs).map Prod.fst).dedup).filter (hasModulePrefix j)).length ∧
      ((m.get j).questionScores = [] → (m.get j).summaryMetrics.positiveAverage = .finite 0) ∧
      ((m.get j).questionScores ≠ [] → (m.get j).questionScores.length ≤ 1000000 →
        ∃ (ks : List ℤ) (n : ℤ),
          (m.get j).questionScores.map QuestionScore.positivePercentage =
            ks.map (fun k : ℤ => JsNumber.finite (roundQ ((k : ℚ) / 10))) ∧
          (∀ k ∈ ks, 0 ≤ k ∧ k ≤ 1000) ∧ 0 ≤ n ∧ n ≤ 1000 ∧
          (m.get j).summaryMetrics.positiveAverage = .finite (roundQ ((n : ℚ) / 10)) ∧
          |(n : ℚ) - (ks.sum : ℚ) / (m.get j).questionScores.length| ≤ 1 / 2) := by
  refine ⟨modulesOf docs, aggregate_eq docs hc, ?_⟩
  have ht : ((modulesOf docs).get j).summaryMetrics.totalQuestions =
      ((modulesOf docs).get j).questionScores.length := by
    rw [summaryMetrics_modulesOf]; rfl
  refine ⟨ht, ?_, ?_, ?_⟩
  · rw [ht, length_questionScores]
  · intro hnil
    rw [summaryMetrics_modulesOf, hnil]
    rfl
  · intro hne hlen
    obtain ⟨ks, hks, hmap⟩ := tenths_of_questionScores docs j
    obtain ⟨n, hn0, hn1, hpa, hnear⟩ := positiveAverage_rollUp (docs.countP hasMapping) _ ks hmap hks
      (length_pos_of_ne_nil _ hne) hlen
    refine ⟨ks, n, hmap, hks, hn0, hn1, ?_, hnear⟩
    rw [summaryMetrics_modulesOf]
    exact hpa

theorem add_finite (a b : ℚ) : (JsNumber.finite a).add (.finite b) = fl (a + b) := rfl

theorem mul_finite (a b : ℚ) : (JsNumber.finite a).mul (.finite b) = fl (a * b) := rfl

theorem div_finite (a b : ℚ) (hb : b ≠ 0) : (JsNumber.finite a).div (.finite b) = fl (a / b) := by
  simp [JsNumber.div, hb]

theorem jsRound_finite (x : ℚ) : jsRound (.finite x) = .finite ((⌊x + 1 / 2⌋ : ℤ) : ℚ) := rfl

/-- The score pushed for an accumulator entry, from its average and its tenths. -/
theorem scoreOf_eq (qid : String) (sum v : JsNumber) (p c : Nat) (r : ℚ) (hc : 0 < c)
    (hp : p ≤ c) (havg : sum.div (.finite c) = v) (hr : roundQ ((tenthsOf p c : ℚ) / 10) = r) :
    scoreOf qid { sum := sum, count := c, positiveCount := p } =
      { questionId := qid, average := v, positivePercentage := .finite r } := by
  have hpp := positivePercentage_scoreOf qid sum p c hc hp
  rw [hr] at hpp
  have hid : (scoreOf qid { sum := sum, count := c, positiveCount := p }).questionId = qid := rfl
  have ha : (scoreOf qid { sum := sum, count := c, positiveCount := p }).average = v := havg
  cases hsc : scoreOf qid { sum := sum, count := c, positiveCount := p }
  rw [hsc] at hpp hid ha
  simp only at hpp hid ha
  rw [hpp, hid, ha]

theorem coercible_aiDoc : coercible [aiDoc] := by
  unfold coercible; decide

/-- The aggregates of the single record `{answers: {ai-1: 8, ai-2: 2}}`. -/
theorem aggregate_aiDoc :
    ∃ m, aggregate [aiDoc] = .ok m ∧
      (m.get .aiReadiness).questionScores =
        [{ questionId := "ai-1", average := .finite 8, positivePercentage := .finite 100 },
         { questionId := "ai-2", average := .finite 2, positivePercentage := .finite 0 }] ∧
      (m.get .aiReadiness).summaryMetrics.totalQuestions = 2 ∧
      (m.get .aiReadiness).summaryMetrics.positiveAverage = .finite 50 := by
  have t1 : threshold "ai-1" = 4 := by unfold threshold; rw [if_neg (by decide)]
  have t2 : threshold "ai-2" = 4 := by unfold threshold; rw [if_neg (by decide)]
  have hstat : (allPairs [aiDoc]).foldl (fun st p => upsert st p.1 p.2) [] =
      [("ai-1", { sum := .finite 8, count := 1, positiveCount := 1 }),
       ("ai-2", { sum := .finite 2, count := 1, positiveCount := 0 })] := by
    simp [allPairs, readPairs, aiDoc, finiteEntries, finiteValue, upsert, bump, t1, t2,
      JsNumber.add, fl_8, fl_2]
    norm_num
  have hr1 : route "ai-1" = some ModuleKey.aiReadiness := by decide
  have hr2 : route "ai-2" = some ModuleKey.aiReadiness := by decide
  have s1 : scoreOf "ai-1" { sum := .finite 8, count := 1, positiveCount := 1 } =
      { questionId := "ai-1", average := .finite 8, positivePercentage := .finite 100 } :=
    scoreOf_eq _ _ _ 1 1 _ (by norm_num) le_rfl
      (by rw [div_finite _ _ (by norm_num)]; norm_num [fl_8])
      (by rw [tenthsOf_all 1 (by norm_num)]; norm_num [roundQ_hundred])
  have s2 : scoreOf "ai-2" { sum := .finite 2, count := 1, positiveCount := 0 } =
      { questionId := "ai-2", average := .finite 2, positivePercentage := .finite 0 } :=
    scoreOf_eq _ _ _ 0 1 _ (by norm_num) (by norm_num)
      (by rw [div_finite _ _ (by norm_num)]; norm_num [fl_2])
      (by rw [tenthsOf_none 1]; norm_num [roundQ_zero])
  have hqs : ((modulesOf [aiDoc]).get .aiReadiness).questionScores =
      [{ questionId := "ai-1", average := .finite 8, positivePercentage := .finite 100 },
       { questionId := "ai-2", average := .finite 2, positivePercentage := .finite 0 }] := by
    rw [questionScores_modulesOf, hstat]
    simp only [List.filter_cons, hr1, hr2, decide_True, if_true, List.filter_nil, List.map_cons,
      List.map_nil, s1, s2]
  refine ⟨modulesOf [aiDoc], aggregate_eq _ coercible_aiDoc, hqs, ?_, ?_⟩
  · rw [summaryMetrics_modulesOf, hqs]; rfl
  · rw [summaryMetrics_modulesOf, hqs]
    have e1 : fl ((0 : ℚ) + 100) = .finite 100 := by rw [zero_add, fl_100]
    have e2 : fl ((100 : ℚ) + 0) = .finite 100 := by rw [add_zero, fl_100]
    have e3 : fl ((100 : ℚ) / ((2 : ℕ) : ℚ)) = .finite 50 := by
      have : (100 : ℚ) / ((2 : ℕ) : ℚ) = 50 := by norm_num
      rw [this, fl_50]
    have e4 : fl ((50 : ℚ) * 10) = .finite 500 := by
      have : (50 : ℚ) * 10 = 500 := by norm_num
      rw [this, fl_500]
    have e5 : ((⌊(500 : ℚ) + 1 / 2⌋ : ℤ) : ℚ) = 500 := by norm_num
    have e6 : fl ((500 : ℚ) / 10) = .finite 50 := by
      have : (500 : ℚ) / 10 = 50 := by norm_num
      rw [this, fl_50]
    have h2 : ((2 : ℕ) : ℚ) ≠ 0 := by norm_num
    have h10 : (10 : ℚ) ≠ 0 := by norm_num
    simp only [rollUp, List.length_cons, List.length_nil, List.foldl_cons, List.foldl_nil,
      orZero_finite, add_finite, e1, e2, Nat.zero_add, Nat.reduceAdd, gt_iff_lt, Nat.ofNat_pos,
      if_true, div_finite _ _ h2, e3, EPSILON, fl_50_eps, mul_finite, e4, jsRound_finite, e5,
      div_finite _ _ h10, e6]

/-- The single record `{answers: {ai-1: 8, ai-2: 2}}`. -/
theorem questionScores_per_question_witness :
    coercible [aiDoc] ∧
    (∃ m, aggregate [aiDoc] = .ok m ∧ ∀ j,
        ((m.get j).questionScores.map QuestionScore.questionId).Nodup ∧
        (∀ qid, qid ∈ (m.get j).questionScores.map QuestionScore.questionId ↔
          hasModulePrefix j qid = true ∧ valuesOf qid (allPairs [aiDoc]) ≠ []) ∧
        (∀ e ∈ (m.get j).questionScores,
          e.average = (doubleSum (valuesOf e.questionId (allPairs [aiDoc]))).div
              (.finite (valuesOf e.questionId (allPairs [aiDoc])).length) ∧
          e.positivePercentage = roundOneDecimal
            (((JsNumber.finite (positiveCountOf e.questionId
                (valuesOf e.questionId (allPairs [aiDoc])))).div
              (.finite (valuesOf e.questionId (allPairs [aiDoc])).length)).mul (.finite 100)) ∧
          ∃ n : ℤ, e.positivePercentage = .finite (roundQ ((n : ℚ) / 10)) ∧
            ((valuesOf e.questionId (allPairs [aiDoc])).length ≤ 2 ^ 39 →
              |(n : ℚ) - 1000 * (positiveCountOf e.questionId
                  (valuesOf e.questionId (allPairs [aiDoc])) : ℚ) /
                (valuesOf e.questionId (allPairs [aiDoc])).length| ≤ 1 / 2)) ∧
        (∀ qid, (∀ k, hasModulePrefix k qid = false) →
          ∀ k, qid ∉ (m.get k).questionScores.map QuestionScore.questionId)) :=
  ⟨coercible_aiDoc, questionScores_per_question [aiDoc] coercible_aiDoc⟩

/-! ## Exact ties of the one-decimal rounding

The program rounds in double arithmetic, so a percentage that lies exactly halfway between two
one-decimal values goes to either neighbour. -/

/-- The tenths of 23 out of 80 (exactly 28.75 percent) are 287, those of 1 out of 16 (exactly
6.25 percent) are 63: the program answers `28.7` and `6.3`. -/
theorem tenthsOf_ties : tenthsOf 23 80 = 287 ∧ tenthsOf 1 16 = 63 := by
  constructor
  · unfold tenthsOf
    have e1 : ((23 : ℕ) : ℚ) / ((80 : ℕ) : ℚ) = 23 / 80 := by norm_num
    have e2 : (2589569785738035 / 9007199254740992 : ℚ) * 100 =
        64739244643450875 / 2251799813685248 := by norm_num
    have e3 : (8092405580431359 / 281474976710656 : ℚ) * 10 =
        40462027902156795 / 140737488355328 := by norm_num
    rw [e1, roundQ_23_80, e2, roundQ_23_80_pct, e3, roundQ_23_80_tenths]
    norm_num
  · unfold tenthsOf
    have e1 : ((1 : ℕ) : ℚ) / ((16 : ℕ) : ℚ) = 1 / 16 := by norm_num
    have e2 : (1 / 16 : ℚ) * 100 = 25 / 4 := by norm_num
    have e3 : (25 / 4 : ℚ) * 10 = 125 / 2 := by norm_num
    rw [e1, roundQ_1_16, e2, roundQ_1_16_pct, e3, roundQ_1_16_tenths]
    norm_num

/-- The roll-up of two questions at `11.1` and `77.8` (mean exactly 44.45) is `44.4`. -/
theorem rollUp_tieModule :
    (rollUp tieModule).summaryMetrics.positiveAverage =
      .finite (6248744482976563 / 140737488355328) := by
  have e1 : fl ((0 : ℚ) + 6248744482976563 / 562949953421312) =
      .finite (6248744482976563 / 562949953421312) := by
    rw [zero_add]
    exact fl_of_roundQ _ _ roundQ_d111 (by norm_num) (by norm_num)
  have e2 : fl ((6248744482976563 / 562949953421312 : ℚ) + 5474688297022259 / 70368744177664) =
      .finite (6255781357394329 / 70368744177664) := by
    have : (6248744482976563 / 562949953421312 : ℚ) + 5474688297022259 / 70368744177664 =
        50046250859154635 / 562949953421312 := by norm_num
    rw [this]
    exact fl_of_roundQ _ _ roundQ_sum_111_778 (by norm_num) (by norm_num)
  have e3 : fl ((6255781357394329 / 70368744177664 : ℚ) / ((2 : ℕ) : ℚ)) =
      .finite (6255781357394329 / 140737488355328) := by
    have : (6255781357394329 / 70368744177664 : ℚ) / ((2 : ℕ) : ℚ) =
        6255781357394329 / 140737488355328 := by norm_num
    rw [this]
    exact fl_of_roundQ _ _ roundQ_avg_111_778 (by norm_num) (by norm_num)
  have e4 : fl ((6255781357394329 / 140737488355328 : ℚ) + 1 / 2 ^ 52) =
      .finite (6255781357394329 / 140737488355328) := by
    have : (6255781357394329 / 140737488355328 : ℚ) + 1 / 2 ^ 52 =
        200185003436618529 / 4503599627370496 := by norm_num
    rw [this]
    exact fl_of_roundQ _ _ roundQ_eps_111_778 (by norm_num) (by norm_num)
  have e5 : fl ((6255781357394329 / 140737488355328 : ℚ) * 10) =
      .finite (7819726696742911 / 17592186044416) := by
    have : (6255781357394329 / 140737488355328 : ℚ) * 10 =
        31278906786971645 / 70368744177664 := by norm_num
    rw [this]
    exact fl_of_roundQ _ _ roundQ_ten_111_778 (by norm_num) (by norm_num)
  have e6 : ((⌊(7819726696742911 / 17592186044416 : ℚ) + 1 / 2⌋ : ℤ) : ℚ) = 444 := by
    norm_num
  have e7 : fl ((444 : ℚ) / 10) = .finite (6248744482976563 / 140737488355328) := by
    have : (444 : ℚ) / 10 = 222 / 5 := by norm_num
    rw [this]
    exact fl_of_roundQ _ _ roundQ_444 (by norm_num) (by norm_num)
  have h2 : ((2 : ℕ) : ℚ) ≠ 0 := by norm_num
  have h10 : (10 : ℚ) ≠ 0 := by norm_num
  have o1 : orZero (.finite (6248744482976563 / 562949953421312)) =
      .finite (6248744482976563 / 562949953421312) := orZero_finite _
  have o2 : orZero (.finite (5474688297022259 / 70368744177664)) =
      .finite (5474688297022259 / 70368744177664) := orZero_finite _
  simp only [rollUp, tieModule, List.length_cons, List.length_nil, List.foldl_cons,
    List.foldl_nil, o1, o2, add_finite, e1, e2, Nat.zero_add, Nat.reduceAdd, gt_iff_lt,
    Nat.ofNat_pos, if_true, div_finite _ _ h2, e3, EPSILON, e4, mul_finite, e5, jsRound_finite,
    e6, div_finite _ _ h10, e7]

/-- The single record `{answers: {ai-1: 8, ai-2: 2}}`: the roll-up of `ai-readiness`, with
`ai-1` at 100, `ai-2` at 0, two questions and `positiveAverage` 50. -/
theorem rollUp_of_module_witness :
    coercible [aiDoc] ∧
    (∃ m, aggregate [aiDoc] = .ok m ∧
      (m.get .aiReadiness).summaryMetrics.totalQuestions =
        (m.get .aiReadiness).questionScores.length ∧
      (m.get .aiReadiness).summaryMetrics.totalQuestions =
        ((((allPairs [aiDoc]).map Prod.fst).dedup).filter
          (hasModulePrefix .aiReadiness)).length ∧
      ((m.get .aiReadiness).questionScores = [] →
        (m.get .aiReadiness).summaryMetrics.positiveAverage = .finite 0) ∧
      ((m.get .aiReadiness).questionScores ≠ [] →
        (m.get .aiReadiness).questionScores.length ≤ 1000000 →
        ∃ (ks : List ℤ) (n : ℤ),
          (m.get .aiReadiness).questionScores.map QuestionScore.positivePercentage =
            ks.map (fun k : ℤ => JsNumber.finite (roundQ ((k : ℚ) / 10))) ∧
          (∀ k ∈ ks, 0 ≤ k ∧ k ≤ 1000) ∧ 0 ≤ n ∧ n ≤ 1000 ∧
          (m.get .aiReadiness).summaryMetrics.positiveAverage = .finite (roundQ ((n : ℚ) / 10)) ∧
          |(n : ℚ) - (ks.sum : ℚ) / (m.get .aiReadiness).questionScores.length| ≤ 1 / 2)) ∧
    (∃ m, aggregate [aiDoc] = .ok m ∧
      (m.get .aiReadiness).questionScores =
        [{ questionId := "ai-1", average := .finite 8, positivePercentage := .finite 100 },
         { questionId := "ai-2", average := .finite 2, positivePercentage := .finite 0 }] ∧
      (m.get .aiReadiness).summaryMetrics.totalQuestions = 2 ∧
      (m.get .aiReadiness).summaryMetrics.positiveAverage = .finite 50) :=
  ⟨coercible_aiDoc, rollUp_of_module [aiDoc] .aiReadiness coercible_aiDoc, aggregate_aiDoc⟩

/-! ## Order of the fetched records -/

theorem allPairs_perm {docs docs2 : List Doc} (h : docs.Perm docs2) :
    (allPairs docs).Perm (allPairs docs2) :=
  List.Perm.flatMap_right readPairs h

theorem valuesOf_perm (qid : String) {ps ps2 : List (String × ℚ)} (h : ps.Perm ps2) :
    (valuesOf qid ps).Perm (valuesOf qid ps2) :=
  (h.filter _).map _

theorem positiveCountOf_perm (qid : String) {vs vs2 : List ℚ} (h : vs.Perm vs2) :
    positiveCountOf qid vs = positiveCountOf qid vs2 :=
  (h.filter _).length_eq

theorem coercible_perm {docs docs2 : List Doc} (h : docs.Perm docs2) (hc : coercible docs) :
    coercible docs2 :=
  fun d hd => hc d (h.symm.subset hd)

theorem mem_countsOf (docs : List Doc) (x : String × Nat × Nat) :
    x ∈ ((allPairs docs).foldl (fun st p => upsert st p.1 p.2) []).map countsOf ↔
      valuesOf x.1 (allPairs docs) ≠ [] ∧ x.2.1 = (valuesOf x.1 (allPairs docs)).length ∧
        x.2.2 = positiveCountOf x.1 (valuesOf x.1 (allPairs docs)) := by
  obtain ⟨q, c, p⟩ := x
  simp only [List.mem_map, countsOf, Prod.mk.injEq]
  constructor
  · rintro ⟨⟨q', s⟩, hm, rfl, rfl, rfl⟩
    obtain ⟨hv, rfl⟩ := (mem_stats docs q' s).mp hm
    exact ⟨hv, rfl, rfl⟩
  · rintro ⟨hv, rfl, rfl⟩
    exact ⟨(q, _), (mem_stats docs q _).mpr ⟨hv, rfl⟩, rfl, rfl, rfl⟩

theorem nodup_countsOf (docs : List Doc) :
    (((allPairs docs).foldl (fun st p => upsert st p.1 p.2) []).map countsOf).Nodup := by
  have h := nodup_keys_allPairs docs
  have e : ((allPairs docs).foldl (fun st p => upsert st p.1 p.2) []).map Prod.fst =
      (((allPairs docs).foldl (fun st p => upsert st p.1 p.2) []).map countsOf).map Prod.fst := by
    rw [List.map_map]; rfl
  rw [e] at h
  exact List.Nodup.of_map _ h

theorem countsOf_perm {docs docs2 : List Doc} (h : docs.Perm docs2) :
    (((allPairs docs).foldl (fun st p => upsert st p.1 p.2) []).map countsOf).Perm
      (((allPairs docs2).foldl (fun st p => upsert st p.1 p.2) []).map countsOf) := by
  rw [List.perm_ext_iff_of_nodup (nodup_countsOf docs) (nodup_countsOf docs2)]
  intro x
  rw [mem_countsOf, mem_countsOf]
  have hv := valuesOf_perm x.1 (allPairs_perm h)
  rw [hv.length_eq, positiveCountOf_perm x.1 hv]
  constructor
  · rintro ⟨hne, hs⟩
    exact ⟨fun h0 => hne (by rw [h0] at hv; exact List.Perm.eq_nil hv), hs⟩
  · rintro ⟨hne, hs⟩
    exact ⟨fun h0 => hne (by rw [h0] at hv; exact List.Perm.eq_nil hv.symm), hs⟩

theorem labels_modulesOf (docs : List Doc) (j : ModuleKey) :
    ((modulesOf docs).get j).questionScores.map labelOf =
      ((((allPairs docs).foldl (fun st p => upsert st p.1 p.2) []).map countsOf).filter
        (fun x => decide (route x.1 = some j))).map
        (fun x => (x.1, (scoreOf x.1 { sum := .finite 0, count := x.2.1
                                       positiveCount := x.2.2 }).positivePercentage)) := by
  rw [questionScores_modulesOf, List.map_map, List.filter_map, List.map_map]
  rfl

theorem labels_perm {docs docs2 : List Doc} (h : docs.Perm docs2) (j : ModuleKey) :
    (((modulesOf docs).get j).questionScores.map labelOf).Perm
      (((modulesOf docs2).get j).questionScores.map labelOf) := by
  rw [labels_modulesOf, labels_modulesOf]
  exact ((countsOf_perm h).filter _).map _

/-- The `positivePercentage` values of a module, as tenths computed from the counts of its
questions. -/
theorem tenths_of_counts (docs : List Doc) (j : ModuleKey) :
    ((modulesOf docs).get j).questionScores.map QuestionScore.positivePercentage =
      (((((allPairs docs).foldl (fun st p => upsert st p.1 p.2) []).map countsOf).filter
        (fun x => decide (route x.1 = some j))).map (fun x => tenthsOf x.2.2 x.2.1)).map
        (fun k : ℤ => JsNumber.finite (roundQ ((k : ℚ) / 10))) ∧
    ∀ k ∈ ((((allPairs docs).foldl (fun st p => upsert st p.1 p.2) []).map countsOf).filter
        (fun x => decide (route x.1 = some j))).map (fun x => tenthsOf x.2.2 x.2.1),
      0 ≤ k ∧ k ≤ 1000 := by
  have hmem : ∀ x ∈ (((allPairs docs).foldl (fun st p => upsert st p.1 p.2) []).map countsOf).filter
      (fun x => decide (route x.1 = some j)), 0 < x.2.1 ∧ x.2.2 ≤ x.2.1 := by
    intro x hx
    obtain ⟨hv, hc, hp⟩ := (mem_countsOf docs x).mp (List.mem_filter.mp hx).1
    rw [hc, hp]
    exact ⟨length_pos_of_ne_nil _ hv, positiveCountOf_le _ _⟩
  constructor
  · have e : ((modulesOf docs).get j).questionScores.map QuestionScore.positivePercentage =
        (((modulesOf docs).get j).questionScores.map labelOf).map Prod.snd := by
      rw [List.map_map]; rfl
    rw [e, labels_modulesOf, List.map_map, List.map_map]
    apply List.map_congr_left
    intro x hx
    obtain ⟨h1, h2⟩ := hmem x hx
    exact positivePercentage_scoreOf x.1 (.finite 0) x.2.2 x.2.1 h1 h2
  · intro k hk
    obtain ⟨x, hx, rfl⟩ := List.mem_map.mp hk
    obtain ⟨h1, h2⟩ := hmem x hx
    exact tenthsOf_bounds _ _ h1 h2

/-- Two integers nearest to the same rational are equal, or are the two neighbours of a tie. -/
theorem nearest_eq_or_tie (x : ℚ) (n n2 : ℤ) (h1 : |(n : ℚ) - x| ≤ 1 / 2)
    (h2 : |(n2 : ℚ) - x| ≤ 1 / 2) :
    n = n2 ∨ (x = n + 1 / 2 ∧ n2 = n + 1) ∨ (x = n2 + 1 / 2 ∧ n = n2 + 1) := by
  rw [abs_le] at h1 h2
  rcases lt_trichotomy n n2 with hlt | heq | hgt
  · right; left
    have h3 : (n : ℚ) + 1 ≤ n2 := by exact_mod_cast hlt
    have h4 : (n2 : ℚ) = n + 1 := by linarith
    exact ⟨by linarith, by exact_mod_cast h4⟩
  · exact Or.inl heq
  · right; right
    have h3 : (n2 : ℚ) + 1 ≤ n := by exact_mod_cast hgt
    have h4 : (n : ℚ) = n2 + 1 := by linarith
    exact ⟨by linarith, by exact_mod_cast h4⟩

/-- Statement C9, amended.  For two record lists that are permutations of each other on which the
aggregation returns, each module has the same `totalQuestions` and `responseCount` and lists the
same question ids with the same `positivePercentage`, up to the order of the list.  For a module
of at most 1000000 questions `positiveAverage` is the same as well, unless the mean of the
`positivePercentage` values (`ks` tenths) lies exactly halfway between two one-decimal values,
where the two results are one or the other of these.  The `average` of a question is a running
double sum in the order of the records and is not covered. -/
theorem aggregate_perm_up_to_order (docs docs2 : List Doc) (h : docs.Perm docs2)
    (hc : coercible docs) :
    ∃ m m2, aggregate docs = .ok m ∧ aggregate docs2 = .ok m2 ∧ ∀ j,
      ((m.get j).questionScores.map labelOf).Perm ((m2.get j).questionScores.map labelOf) ∧
      (m.get j).summaryMetrics.totalQuestions = (m2.get j).summaryMetrics.totalQuestions ∧
      (m.get j).summaryMetrics.responseCount = (m2.get j).summaryMetrics.responseCount ∧
      ((m.get j).questionScores.length ≤ 1000000 →
        (m.get j).summaryMetrics.positiveAverage = (m2.get j).summaryMetrics.positiveAverage ∨
        ∃ (ks : List ℤ) (n : ℤ),
          (m.get j).questionScores.map QuestionScore.positivePercentage =
            ks.map (fun k : ℤ => JsNumber.finite (roundQ ((k : ℚ) / 10))) ∧
          (ks.sum : ℚ) / (m.get j).questionScores.length = n + 1 / 2 ∧
          (((m.get j).summaryMetrics.positiveAverage = .finite (roundQ ((n : ℚ) / 10)) ∧
            (m2.get j).summaryMetrics.positiveAverage =
              .finite (roundQ (((n + 1 : ℤ) : ℚ) / 10))) ∨
           ((m.get j).summaryMetrics.positiveAverage =
              .finite (roundQ (((n + 1 : ℤ) : ℚ) / 10)) ∧
            (m2.get j).summaryMetrics.positiveAverage = .finite (roundQ ((n : ℚ) / 10))))) := by
  have hlenq : ∀ j, ((modulesOf docs).get j).questionScores.length =
      ((modulesOf docs2).get j).questionScores.length := by
    intro j
    simpa using (labels_perm h j).length_eq
  refine ⟨modulesOf docs, modulesOf docs2, aggregate_eq docs hc,
    aggregate_eq docs2 (coercible_perm h hc), fun j => ⟨labels_perm h j, ?_, ?_, ?_⟩⟩
  · have t1 : ((modulesOf docs).get j).summaryMetrics.totalQuestions =
        ((modulesOf docs).get j).questionScores.length := by
      rw [summaryMetrics_modulesOf]; rfl
    have t2 : ((modulesOf docs2).get j).summaryMetrics.totalQuestions =
        ((modulesOf docs2).get j).questionScores.length := by
      rw [summaryMetrics_modulesOf]; rfl
    rw [t1, t2]
    exact hlenq j
  · rw [responseCount_modulesOf, responseCount_modulesOf, h.countP_eq]
  · intro hlen
    by_cases hnil : ((modulesOf docs).get j).questionScores = []
    · left
      have hnil2 : ((modulesOf docs2).get j).questionScores = [] := by
        apply List.eq_nil_of_length_eq_zero
        rw [← hlenq j, hnil]; rfl
      rw [summaryMetrics_modulesOf, summaryMetrics_modulesOf, hnil, hnil2]
      rfl
    · have hpos := length_pos_of_ne_nil _ hnil
      obtain ⟨hmap, hks⟩ := tenths_of_counts docs j
      obtain ⟨hmap2, hks2⟩ := tenths_of_counts docs2 j
      have hperm := ((countsOf_perm h).filter (fun x => decide (route x.1 = some j))).map
        (fun x => tenthsOf x.2.2 x.2.1)
      obtain ⟨n, -, -, hpa, hnear⟩ := positiveAverage_rollUp (docs.countP hasMapping) _ _ hmap hks
        hpos hlen
      obtain ⟨n2, -, -, hpa2, hnear2⟩ := positiveAverage_rollUp (docs2.countP hasMapping) _ _
        hmap2 hks2 (by rw [← hlenq j]; exact hpos) (by rw [← hlenq j]; exact hlen)
      rw [← hperm.sum_eq, ← hlenq j] at hnear2
      rw [summaryMetrics_modulesOf, summaryMetrics_modulesOf]
      rcases nearest_eq_or_tie _ n n2 hnear hnear2 with heq | ⟨hx, hn⟩ | ⟨hx, hn⟩
      · left
        rw [hpa, hpa2, heq]
      · right
        refine ⟨_, n, hmap, hx, Or.inl ⟨hpa, ?_⟩⟩
        rw [hpa2, hn]
      · right
        refine ⟨_, n2, hmap, hx, Or.inr ⟨?_, hpa2⟩⟩
        rw [hpa, hn]

theorem roundQ_dbl01_lit : roundQ (3602879701896397 / 36028797018963968) = 3602879701896397 / 36028797018963968 := by
  have h := roundQ_eval (3602879701896397 / 36028797018963968) (-4) 7205759403792794 (by norm_num)
    (by rw [abs_of_pos (by norm_num)]; norm_num)
    (by rw [abs_of_pos (by norm_num)]; norm_num)
    (by norm_num [abs_lt])
  rw [h]; norm_num

theorem roundQ_dbl03_lit : roundQ (5404319552844595 / 18014398509481984) = 5404319552844595 / 18014398509481984 := by
  have h := roundQ_eval (5404319552844595 / 18014398509481984) (-2) 5404319552844595 (by norm_num)
    (by rw [abs_of_pos (by norm_num)]; norm_num)
    (by rw [abs_of_pos (by norm_num)]; norm_num)
    (by norm_num [abs_lt])
  rw [h]; norm_num

/-! ## Running sums of `0.1`, `0.2`, `0.3` in two orders -/

theorem fl_sum_a1 : fl (0 + dbl01) = .finite dbl01 := by
  have e : (0 : ℚ) + dbl01 = 3602879701896397 / 36028797018963968 := by norm_num [dbl01]
  rw [e]
  exact fl_of_roundQ _ _ (by rw [roundQ_dbl01_lit]; norm_num [dbl01]) (by norm_num [dbl01])
    (by norm_num [dbl01])

theorem fl_sum_a2 : fl (dbl01 + dbl02) = .finite (1351079888211149 / 4503599627370496) := by
  have e : dbl01 + dbl02 = 10808639105689191 / 36028797018963968 := by norm_num [dbl01, dbl02]
  rw [e]
  exact fl_of_roundQ _ _ roundQ_sum_01_02 (by norm_num) (by norm_num)

theorem fl_sum_a3 : fl (1351079888211149 / 4503599627370496 + dbl03) =
    .finite (1351079888211149 / 2251799813685248) := by
  have e : (1351079888211149 / 4503599627370496 : ℚ) + dbl03 =
      10808639105689191 / 18014398509481984 := by norm_num [dbl03]
  rw [e]
  exact fl_of_roundQ _ _ roundQ_sum_01_02_03 (by norm_num) (by norm_num)

theorem fl_avg_a : fl (1351079888211149 / 2251799813685248 / ((3 : ℕ) : ℚ)) =
    .finite (7205759403792795 / 36028797018963968) := by
  have e : (1351079888211149 / 2251799813685248 : ℚ) / ((3 : ℕ) : ℚ) =
      1351079888211149 / 6755399441055744 := by norm_num
  rw [e]
  exact fl_of_roundQ _ _ roundQ_avg_01_02_03 (by norm_num) (by norm_num)

theorem fl_sum_b1 : fl (0 + dbl03) = .finite dbl03 := by
  have e : (0 : ℚ) + dbl03 = 5404319552844595 / 18014398509481984 := by norm_num [dbl03]
  rw [e]
  exact fl_of_roundQ _ _ (by rw [roundQ_dbl03_lit]; norm_num [dbl03]) (by norm_num [dbl03])
    (by norm_num [dbl03])

theorem fl_sum_b2 : fl (dbl03 + dbl02) = .finite (1 / 2) := by
  have e : dbl03 + dbl02 = 1 / 2 := by norm_num [dbl03, dbl02]
  rw [e]
  exact fl_of_roundQ _ _ roundQ_sum_03_02 (by norm_num) (by norm_num)

theorem fl_sum_b3 : fl (1 / 2 + dbl01) = .finite (5404319552844595 / 9007199254740992) := by
  have e : (1 / 2 : ℚ) + dbl01 = 21617278211378381 / 36028797018963968 := by norm_num [dbl01]
  rw [e]
  exact fl_of_roundQ _ _ roundQ_sum_03_02_01 (by norm_num) (by norm_num)

theorem fl_avg_b : fl (5404319552844595 / 9007199254740992 / ((3 : ℕ) : ℚ)) =
    .finite (7205759403792793 / 36028797018963968) := by
  have e : (5404319552844595 / 9007199254740992 : ℚ) / ((3 : ℕ) : ℚ) =
      5404319552844595 / 27021597764222976 := by norm_num
  rw [e]
  exact fl_of_roundQ _ _ roundQ_avg_03_02_01 (by norm_num) (by norm_num)

/-- The `average` values of `ai-readiness` for three records that answer `ai-1` with `a`, `b`
and `c`, all below the threshold. -/
theorem averages_of_three (a b c : ℚ) (ha : ¬ a ≥ 4) (hb : ¬ b ≥ 4) (hc : ¬ c ≥ 4) :
    ∃ m, aggregate [ai1DocOf a, ai1DocOf b, ai1DocOf c] = .ok m ∧
      (m.get .aiReadiness).questionScores.map QuestionScore.average =
        [((((JsNumber.finite 0).add (.finite a)).add (.finite b)).add (.finite c)).div
          (.finite ((3 : ℕ) : ℚ))] := by
  have hco : coercible [ai1DocOf a, ai1DocOf b, ai1DocOf c] := by
    intro d hd r hr
    simp only [List.mem_cons, List.mem_singleton, List.not_mem_nil, or_false] at hd
    rcases hd with rfl | rfl | rfl <;>
      · simp only [readValues, ai1DocOf, List.map_cons, List.map_nil, List.mem_singleton] at hr
        rw [hr]; exact fun h => by cases h
  have t1 : threshold "ai-1" = 4 := by unfold threshold; rw [if_neg (by decide)]
  have hr1 : route "ai-1" = some ModuleKey.aiReadiness := by decide
  refine ⟨modulesOf _, aggregate_eq _ hco, ?_⟩
  rw [questionScores_modulesOf]
  simp [allPairs, readPairs, ai1DocOf, finiteEntries, finiteValue, upsert, bump, t1, ha, hb, hc,
    hr1, scoreOf]

theorem coercible_ai1_ai2 : coercible [ai1Doc, ai2Doc] := by
  unfold coercible; decide

theorem coercible_ai2_ai1 : coercible [ai2Doc, ai1Doc] := by
  unfold coercible; decide

/-- Statement C9, refuted as stated: two record lists that are permutations of each other give
`questionScores` lists in different orders, hence different aggregates; and three records that
answer `ai-1` with `0.1`, `0.2`, `0.3` give the `average` `0.20000000000000004`, while the same
records in the order `0.3`, `0.2`, `0.1` give `0.19999999999999998`. -/
theorem aggregate_depends_on_order :
    ([ai1Doc, ai2Doc].Perm [ai2Doc, ai1Doc] ∧
      ∃ m m2, aggregate [ai1Doc, ai2Doc] = .ok m ∧ aggregate [ai2Doc, ai1Doc] = .ok m2 ∧
        (m.get .aiReadiness).questionScores.map QuestionScore.questionId = ["ai-1", "ai-2"] ∧
        (m2.get .aiReadiness).questionScores.map QuestionScore.questionId = ["ai-2", "ai-1"] ∧
        m ≠ m2) ∧
    ([ai1DocOf dbl01, ai1DocOf dbl02, ai1DocOf dbl03].Perm
        [ai1DocOf dbl03, ai1DocOf dbl02, ai1DocOf dbl01] ∧
      ∃ m m2, aggregate [ai1DocOf dbl01, ai1DocOf dbl02, ai1DocOf dbl03] = .ok m ∧
        aggregate [ai1DocOf dbl03, ai1DocOf dbl02, ai1DocOf dbl01] = .ok m2 ∧
        (m.get .aiReadiness).questionScores.map QuestionScore.average =
          [.finite (7205759403792795 / 36028797018963968)] ∧
        (m2.get .aiReadiness).questionScores.map QuestionScore.average =
          [.finite (7205759403792793 / 36028797018963968)]) := by
  constructor
  · have h1 : ((modulesOf [ai1Doc, ai2Doc]).get .aiReadiness).questionScores.map
        QuestionScore.questionId = ["ai-1", "ai-2"] := by
      rw [questionIds_modulesOf]
      simp [allPairs, readPairs, ai1Doc, ai2Doc, finiteEntries, finiteValue, upsert, route,
        startsWith]
    have h2 : ((modulesOf [ai2Doc, ai1Doc]).get .aiReadiness).questionScores.map
        QuestionScore.questionId = ["ai-2", "ai-1"] := by
      rw [questionIds_modulesOf]
      simp [allPairs, readPairs, ai1Doc, ai2Doc, finiteEntries, finiteValue, upsert, route,
        startsWith]
    refine ⟨List.Perm.swap _ _ _, modulesOf _, modulesOf _, aggregate_eq _ coercible_ai1_ai2,
      aggregate_eq _ coercible_ai2_ai1, h1, h2, ?_⟩
    intro h
    rw [h, h2] at h1
    exact absurd h1 (by decide)
  · have d1 : ¬ dbl01 ≥ 4 := by norm_num [dbl01]
    have d2 : ¬ dbl02 ≥ 4 := by norm_num [dbl02]
    have d3 : ¬ dbl03 ≥ 4 := by norm_num [dbl03]
    obtain ⟨m, hm, ha⟩ := averages_of_three dbl01 dbl02 dbl03 d1 d2 d3
    obtain ⟨m2, hm2, hb⟩ := averages_of_three dbl03 dbl02 dbl01 d3 d2 d1
    have h3 : (((3 : ℕ) : ℚ)) ≠ 0 := by norm_num
    refine ⟨?_, m, m2, hm, hm2, ?_, ?_⟩
    · exact (List.Perm.swap _ _ _).trans ((List.Perm.swap _ _ _).cons _ |>.trans
        (List.Perm.swap _ _ _))
    · rw [ha, add_finite, fl_sum_a1, add_finite, fl_sum_a2, add_finite, fl_sum_a3,
        div_finite _ _ h3, fl_avg_a]
    · rw [hb, add_finite, fl_sum_b1, add_finite, fl_sum_b2, add_finite, fl_sum_b3,
        div_finite _ _ h3, fl_avg_b]

/-- The two orders of the records `{ai-1: 5}` and `{ai-2: 5}`. -/
theorem aggregate_perm_up_to_order_witness :
    [ai1Doc, ai2Doc].Perm [ai2Doc, ai1Doc] ∧ coercible [ai1Doc, ai2Doc] ∧
    ∃ m m2, aggregate [ai1Doc, ai2Doc] = .ok m ∧ aggregate [ai2Doc, ai1Doc] = .ok m2 ∧ ∀ j,
      ((m.get j).questionScores.map labelOf).Perm ((m2.get j).questionScores.map labelOf) ∧
      (m.get j).summaryMetrics.totalQuestions = (m2.get j).summaryMetrics.totalQuestions ∧
      (m.get j).summaryMetrics.responseCount = (m2.get j).summaryMetrics.responseCount :=
  ⟨List.Perm.swap _ _ _, coercible_ai1_ai2,
    (aggregate_perm_up_to_order [ai1Doc, ai2Doc] [ai2Doc, ai1Doc] (List.Perm.swap _ _ _)
      coercible_ai1_ai2).imp (fun _ hm => hm.imp (fun _ hm2 =>
        ⟨hm2.1, hm2.2.1, fun j => ⟨(hm2.2.2 j).1, (hm2.2.2 j).2.1, (hm2.2.2 j).2.2.1⟩⟩))⟩

/-! ## Submission -/

theorem postResponses_rejected (now : Nat) (persist : Except String String)
    (writeThrows : Nat → Bool) (srv : Server) (body : SubmitBody) (h : accepted body = false) :
    postResponses now persist writeThrows srv body =
      (srv, PostResult.badRequest "companyId, surveyId and answers required", []) := by
  unfold postResponses
  have : (!truthy body.companyId || !truthy body.surveyId ||
      body.answers == AnswersField.missing) = true := by
    unfold accepted at h
    cases h1 : truthy body.companyId <;> cases h2 : truthy body.surveyId <;>
      cases h3 : body.answers <;> simp_all
  rw [if_pos this]

theorem postResponses_accepted (now : Nat) (insertedId : String) (writeThrows : Nat → Bool)
    (srv : Server) (body : SubmitBody) (h : accepted body = true) :
    postResponses now (.ok insertedId) writeThrows srv body =
      ({ srv with store :=
          { id := insertedId, companyId := body.companyId.getD "", surveyId := body.surveyId.getD ""
            respondentId := if truthy body.respondentId then body.respondentId else none
            answers := body.answers, question := none, response := none, createdAt := now }
            :: srv.store },
        PostResult.ok
          { id := insertedId, companyId := body.companyId.getD "", surveyId := body.surveyId.getD ""
            respondentId := if truthy body.respondentId then body.respondentId else none
            answers := body.answers, question := none, response := none, createdAt := now },
        sseBroadcast writeThrows srv.sseClients
            { surveyId := body.surveyId.getD "", companyId := body.companyId.getD ""
              timestamp := now, submitted := 1 } ++
          [Effect.ioEmit (body.companyId.getD "") (body.surveyId.getD "") now]) := by
  unfold postResponses
  have : ¬ (!truthy body.companyId || !truthy body.surveyId ||
      body.answers == AnswersField.missing) = true := by
    unfold accepted at h
    cases h1 : truthy body.companyId <;> cases h2 : truthy body.surveyId <;>
      cases h3 : body.answers <;> simp_all
  rw [if_neg this]
  rfl

theorem postResponses_persist_failed (now : Nat) (message : String) (writeThrows : Nat → Bool)
    (srv : Server) (body : SubmitBody) (h : accepted body = true) :
    postResponses now (.error message) writeThrows srv body =
      (srv, PostResult.serverError message, [Effect.consoleError message]) := by
  unfold postResponses
  have : ¬ (!truthy body.companyId || !truthy body.surveyId ||
      body.answers == AnswersField.missing) = true := by
    unfold accepted at h
    cases h1 : truthy body.companyId <;> cases h2 : truthy body.surveyId <;>
      cases h3 : body.answers <;> simp_all
  rw [if_neg this]

/-- Statement C6.  When `companyId`, `surveyId` or `answers` is absent from the body, the handler
answers with the validation error (status 400), leaves the store as it was and writes to no
subscriber (it has no effect at all). -/
theorem missing_field_rejected (now : Nat) (persist : Except String String)
    (writeThrows : Nat → Bool) (srv : Server) (body : SubmitBody)
    (h : body.companyId = none ∨ body.surveyId = none ∨ body.answers = AnswersField.missing) :
    (postResponses now persist writeThrows srv body).2.1 =
        PostResult.badRequest "companyId, surveyId and answers required" ∧
    (postResponses now persist writeThrows srv body).1 = srv ∧
    (postResponses now persist writeThrows srv body).1.store.length = srv.store.length ∧
    (postResponses now persist writeThrows srv body).2.2 = [] := by
  have ha : accepted body = false := by
    unfold accepted
    rcases h with h | h | h <;> simp [h, truthy]
  rw [postResponses_rejected now persist writeThrows srv body ha]
  exact ⟨rfl, rfl, rfl, rfl⟩

/-- A body without `answers` sent to a server with one stored record and two subscribers. -/
theorem missing_field_rejected_witness :
    (legacyBody.companyId = none ∨ legacyBody.surveyId = none ∨
      legacyBody.answers = AnswersField.missing) ∧
    (postResponses 7 (.ok "id1") (fun _ => false) { store := [ai1Doc], sseClients := [1, 2] }
        legacyBody).2.1 = PostResult.badRequest "companyId, surveyId and answers required" ∧
    (postResponses 7 (.ok "id1") (fun _ => false) { store := [ai1Doc], sseClients := [1, 2] }
        legacyBody).1 = { store := [ai1Doc], sseClients := [1, 2] } ∧
    (postResponses 7 (.ok "id1") (fun _ => false) { store := [ai1Doc], sseClients := [1, 2] }
        legacyBody).1.store.length = 1 ∧
    (postResponses 7 (.ok "id1") (fun _ => false) { store := [ai1Doc], sseClients := [1, 2] }
        legacyBody).2.2 = [] :=
  ⟨Or.inr (Or.inr rfl),
    missing_field_rejected 7 (.ok "id1") (fun _ => false) { store := [ai1Doc], sseClients := [1, 2] }
      legacyBody (Or.inr (Or.inr rfl))⟩

/-- Statement C7, refuted as stated: a body with `companyId`, `surveyId` and the legacy pair
`question`, `response` is answered with the validation error and nothing is stored. -/
theorem legacy_pair_rejected :
    legacyBody.companyId = some "c1" ∧ legacyBody.surveyId = some "s1" ∧
    legacyBody.question = some "ai-1" ∧ legacyBody.response = some (.number (.finite 5)) ∧
    postResponses 7 (.ok "id1") (fun _ => false) { store := [], sseClients := [] } legacyBody =
      ({ store := [], sseClients := [] },
        PostResult.badRequest "companyId, surveyId and answers required", []) :=
  ⟨rfl, rfl, rfl, rfl, postResponses_rejected _ _ _ _ _ (by decide)⟩

/-- Statement C7, amended.  A body that has `companyId` and `surveyId` and carries its answers as
an answers mapping is accepted: the handler answers `{ok: true}` with the stored record and the
record is put at the front of the store with the mapping unchanged.  When `Number` returns on
every value of the mapping, the aggregation reads from that record the entries with a finite
value and counts it as one respondent; when `Number` raises on one of them, reading the record
raises.  A body without `answers` is answered with the validation error, whatever legacy pair
it carries. -/
theorem mapping_accepted (now : Nat) (insertedId : String) (writeThrows : Nat → Bool)
    (srv : Server) (body : SubmitBody) (entries : List (String × RawVal))
    (hc : truthy body.companyId = true) (hs : truthy body.surveyId = true)
    (ha : body.answers = AnswersField.mapping entries) :
    ∃ saved : Doc,
      (postResponses now (.ok insertedId) writeThrows srv body).2.1 = PostResult.ok saved ∧
      (postResponses now (.ok insertedId) writeThrows srv body).1.store = saved :: srv.store ∧
      saved.answers = AnswersField.mapping entries ∧
      ((∀ e ∈ entries, e.2 ≠ RawVal.uncoercible) → ∀ acc, accumulateDoc acc saved = .ok
        { questionStats :=
            (finiteEntries entries).foldl (fun st p => upsert st p.1 p.2) acc.questionStats
          totalRespondents := acc.totalRespondents + 1 }) ∧
      ((∃ e ∈ entries, e.2 = RawVal.uncoercible) → ∀ acc, accumulateDoc acc saved =
        .error "Cannot convert object to primitive value") ∧
      ∀ (persist : Except String String) (other : SubmitBody),
        other.answers = AnswersField.missing →
        postResponses now persist writeThrows srv other =
          (srv, PostResult.badRequest "companyId, surveyId and answers required", []) := by
  have hacc : accepted body = true := by simp [accepted, hc, hs, ha]
  rw [postResponses_accepted now insertedId writeThrows srv body hacc]
  refine ⟨_, rfl, rfl, ha, ?_, ?_, ?_⟩
  · intro hco acc
    simp only [accumulateDoc, ha, addAnswers_eq entries _ hco]
  · intro hun acc
    simp only [accumulateDoc, ha, addAnswers_error entries _ hun]
  · intro persist other ho
    exact postResponses_rejected _ _ _ _ _ (by simp [accepted, ho])

/-- The submission `{companyId: c1, surveyId: s1, answers: {ai-1: 5}}` on an empty store. -/
theorem mapping_accepted_witness :
    truthy mappingBody.companyId = true ∧ truthy mappingBody.surveyId = true ∧
    ∃ saved : Doc,
      (postResponses 7 (.ok "id1") (fun _ => false) { store := [], sseClients := [] }
        mappingBody).2.1 = PostResult.ok saved ∧
      (postResponses 7 (.ok "id1") (fun _ => false) { store := [], sseClients := [] }
        mappingBody).1.store = saved :: [] ∧
      saved.answers = AnswersField.mapping [("ai-1", .number (.finite 5))] ∧
      ((∀ e ∈ [(("ai-1", RawVal.number (.finite 5)) : String × RawVal)],
          e.2 ≠ RawVal.uncoercible) → ∀ acc, accumulateDoc acc saved = .ok
        { questionStats :=
            (finiteEntries [("ai-1", .number (.finite 5))]).foldl
              (fun st p => upsert st p.1 p.2) acc.questionStats
          totalRespondents := acc.totalRespondents + 1 }) ∧
      ((∃ e ∈ [(("ai-1", RawVal.number (.finite 5)) : String × RawVal)],
          e.2 = RawVal.uncoercible) → ∀ acc, accumulateDoc acc saved =
        .error "Cannot convert object to primitive value") ∧
      ∀ (persist : Except String String) (other : SubmitBody),
        other.answers = AnswersField.missing →
        postResponses 7 persist (fun _ => false) { store := [], sseClients := [] } other =
          ({ store := [], sseClients := [] },
            PostResult.badRequest "companyId, surveyId and answers required", []) :=
  ⟨by decide, by decide,
    mapping_accepted 7 "id1" (fun _ => false) { store := [], sseClients := [] } mappingBody
      [("ai-1", .number (.finite 5))] (by decide) (by decide) rfl⟩

/-! ## Submission followed by aggregation -/

/-- The `responseCount` reported by the handler when no stored value read makes `Number` raise. -/
theorem responseCount_getAggregates (store : List Doc) (req : AggregatesRequest)
    (hc : coercible (findSortLimit store (buildQuery req) 10000)) :
    ∃ m, getAggregates store req = .ok m ∧ ∀ j,
      (m.get j).summaryMetrics.responseCount =
        (((store.filter (matchesQuery (buildQuery req))).take 10000).countP hasMapping) := by
  refine ⟨_, aggregate_eq _ hc, fun j => ?_⟩
  rw [responseCount_modulesOf]
  rfl

theorem matchesQuery_saved (req : AggregatesRequest) (body : SubmitBody) (d : Doc)
    (hc : truthy body.companyId = true) (hs : truthy body.surveyId = true)
    (hm : requestMatches req body = true)
    (hdc : d.companyId = body.companyId.getD "") (hds : d.surveyId = body.surveyId.getD "") :
    matchesQuery (buildQuery req) d = true := by
  unfold requestMatches at hm
  unfold matchesQuery buildQuery
  rcases hbc : body.companyId with _ | bc
  · simp [hbc, truthy] at hc
  rcases hbs : body.surveyId with _ | bs
  · simp [hbs, truthy] at hs
  rw [hbc] at hdc hm
  rw [hbs] at hds hm
  simp only [Option.getD_some] at hdc hds
  rcases hrc : req.companyId with _ | rc <;> rcases hrs : req.surveyId with _ | rs <;>
    simp [hrc, hrs, truthy, hdc, hds] at hm ⊢
  · by_cases h1 : rs = ""
    · simp [h1]
    · simp [h1] at hm ⊢; exact hm.symm
  · by_cases h1 : rc = ""
    · simp [h1]
    · simp [h1] at hm ⊢; exact hm.symm
  · by_cases h1 : rc = "" <;> by_cases h2 : rs = "" <;> simp [h1, h2] at hm ⊢
    · exact hm.symm
    · exact hm.symm
    · exact ⟨hm.1.symm, hm.2.symm⟩

theorem coercible_replicate (n : Nat) (d : Doc) (h : coercible [d]) :
    coercible (List.replicate n d) := by
  intro x hx
  rw [List.eq_of_mem_replicate hx]
  exact h d (List.mem_singleton.mpr rfl)

theorem coercible_ai1Doc : coercible [ai1Doc] := by
  unfold coercible; decide

/-- Statement C5, refuted as stated: with 10000 matching records already stored, an accepted
submission leaves `responseCount` at 10000; a submission whose `answers` is a string is
accepted and stored, and leaves `responseCount` at 0; and after the accepted submission
`answers: {ai-1: {toString: 1}}` the aggregation raises and answers with status 500. -/
theorem responseCount_not_always_incremented :
    ((postResponses 7 (.ok "id1") (fun _ => false) { store := fullStore, sseClients := [] }
        mappingBody).2.1 =
      PostResult.ok { id := "id1", companyId := "c1", surveyId := "s1", respondentId := none
                      answers := .mapping [("ai-1", .number (.finite 5))], question := none
                      response := none, createdAt := 7 } ∧
    (∃ m, getAggregates fullStore c1s1Request = .ok m ∧
      (m.get .aiReadiness).summaryMetrics.responseCount = 10000) ∧
    (∃ m, getAggregates (postResponses 7 (.ok "id1") (fun _ => false)
        { store := fullStore, sseClients := [] } mappingBody).1.store c1s1Request = .ok m ∧
      (m.get .aiReadiness).summaryMetrics.responseCount = 10000)) ∧
    ((postResponses 7 (.ok "id1") (fun _ => false) { store := [], sseClients := [] }
        scalarBody).2.1 =
      PostResult.ok { id := "id1", companyId := "c1", surveyId := "s1", respondentId := none
                      answers := .scalar, question := none, response := none, createdAt := 7 } ∧
    (∃ m, getAggregates [] c1s1Request = .ok m ∧
      (m.get .aiReadiness).summaryMetrics.responseCount = 0) ∧
    (∃ m, getAggregates (postResponses 7 (.ok "id1") (fun _ => false)
        { store := [], sseClients := [] } scalarBody).1.store c1s1Request = .ok m ∧
      (m.get .aiReadiness).summaryMetrics.responseCount = 0)) ∧
    ((postResponses 7 (.ok "id1") (fun _ => false) { store := [], sseClients := [] }
        uncoercibleBody).2.1 =
      PostResult.ok { id := "id1", companyId := "c1", surveyId := "s1", respondentId := none
                      answers := .mapping [("ai-1", .uncoercible)], question := none
                      response := none, createdAt := 7 } ∧
    getAggregates (postResponses 7 (.ok "id1") (fun _ => false)
        { store := [], sseClients := [] } uncoercibleBody).1.store c1s1Request =
      .error "Cannot convert object to primitive value") := by
  have hm : matchesQuery (buildQuery c1s1Request) ai1Doc = true := by decide
  have hmap : hasMapping ai1Doc = true := by decide
  have hfull : findSortLimit fullStore (buildQuery c1s1Request) 10000 =
      List.replicate 10000 ai1Doc := by
    simp only [findSortLimit, fullStore, List.filter_replicate, hm, if_true,
      List.take_replicate, min_self]
  have ht : ∀ (a : Doc) (l : List Doc), List.take 10000 (a :: l) = a :: List.take 9999 l :=
    fun _ _ => rfl
  refine ⟨⟨?_, ?_, ?_⟩, ⟨?_, ?_, ?_⟩, ?_, ?_⟩
  · rw [postResponses_accepted _ _ _ _ _ (by decide)]; rfl
  · obtain ⟨m, hm1, hm2⟩ := responseCount_getAggregates fullStore c1s1Request
      (by rw [hfull]; exact coercible_replicate _ _ coercible_ai1Doc)
    refine ⟨m, hm1, ?_⟩
    rw [hm2]
    simp only [fullStore, List.filter_replicate, hm, if_true, List.take_replicate,
      List.countP_replicate, hmap]
    decide
  · rw [postResponses_accepted _ _ _ _ _ (by decide)]
    have hm2 : matchesQuery (buildQuery c1s1Request)
        { id := "id1", companyId := mappingBody.companyId.getD ""
          surveyId := mappingBody.surveyId.getD ""
          respondentId := if truthy mappingBody.respondentId then mappingBody.respondentId else none
          answers := mappingBody.answers, question := none, response := none, createdAt := 7 }
        = true := by decide
    have hfetch : findSortLimit
        ({ id := "id1", companyId := mappingBody.companyId.getD ""
           surveyId := mappingBody.surveyId.getD ""
           respondentId := if truthy mappingBody.respondentId then mappingBody.respondentId
             else none
           answers := mappingBody.answers, question := none, response := none
           createdAt := 7 } :: fullStore) (buildQuery c1s1Request) 10000 =
        { id := "id1", companyId := mappingBody.companyId.getD ""
          surveyId := mappingBody.surveyId.getD ""
          respondentId := if truthy mappingBody.respondentId then mappingBody.respondentId
            else none
          answers := mappingBody.answers, question := none, response := none
          createdAt := 7 } :: List.replicate 9999 ai1Doc := by
      simp only [findSortLimit, fullStore, List.filter_cons, hm2, if_true, List.filter_replicate,
        hm, ht, List.take_replicate]
      rfl
    obtain ⟨m, hm1, hm3⟩ := responseCount_getAggregates
      ({ id := "id1", companyId := mappingBody.companyId.getD ""
         surveyId := mappingBody.surveyId.getD ""
         respondentId := if truthy mappingBody.respondentId then mappingBody.respondentId
           else none
         answers := mappingBody.answers, question := none, response := none
         createdAt := 7 } :: fullStore) c1s1Request (by
        rw [hfetch]
        intro d hd
        rcases List.mem_cons.mp hd with rfl | hd'
        · decide
        · exact coercible_replicate _ _ coercible_ai1Doc d hd')
    refine ⟨m, hm1, ?_⟩
    rw [hm3]
    have := hfetch
    unfold findSortLimit at this
    rw [this]
    simp only [List.countP_cons, List.countP_replicate, hmap, if_true]
    decide
  · rw [postResponses_accepted _ _ _ _ _ (by decide)]; rfl
  · obtain ⟨m, hm1, hm2⟩ := responseCount_getAggregates [] c1s1Request (by
      intro d hd; cases hd)
    exact ⟨m, hm1, by rw [hm2]; rfl⟩
  · rw [postResponses_accepted _ _ _ _ _ (by decide)]
    obtain ⟨m, hm1, hm2⟩ := responseCount_getAggregates
      [{ id := "id1", companyId := scalarBody.companyId.getD ""
         surveyId := scalarBody.surveyId.getD ""
         respondentId := if truthy scalarBody.respondentId then scalarBody.respondentId else none
         answers := scalarBody.answers, question := none, response := none
         createdAt := 7 }] c1s1Request (by unfold coercible; decide)
    exact ⟨m, hm1, by rw [hm2]; decide⟩
  · rw [postResponses_accepted _ _ _ _ _ (by decide)]; rfl
  · rw [postResponses_accepted _ _ _ _ _ (by decide)]
    rfl

/-- Statement C5, amended.  When the store holds fewer than 10000 records matching the filter,
`Number` returns on every answer value of those records and on every value of the submitted
mapping, and the accepted submission carries its answers as a mapping, the aggregation with a
matching filter returns before and after the submission and reports, in each module, a
`responseCount` one greater than before. -/
theorem responseCount_incremented (now : Nat) (insertedId : String) (writeThrows : Nat → Bool)
    (srv : Server) (body : SubmitBody) (req : AggregatesRequest)
    (entries : List (String × RawVal))
    (hc : truthy body.companyId = true) (hs : truthy body.surveyId = true)
    (ha : body.answers = AnswersField.mapping entries)
    (hm : requestMatches req body = true)
    (hcap : (srv.store.filter (matchesQuery (buildQuery req))).length < 10000)
    (hstore : coercible (srv.store.filter (matchesQuery (buildQuery req))))
    (hentries : ∀ e ∈ entries, e.2 ≠ RawVal.uncoercible) :
    ∃ before after,
      getAggregates srv.store req = .ok before ∧
      getAggregates (postResponses now (.ok insertedId) writeThrows srv body).1.store req
        = .ok after ∧
      ∀ j, (after.get j).summaryMetrics.responseCount =
        (before.get j).summaryMetrics.responseCount + 1 := by
  have hacc : accepted body = true := by simp [accepted, hc, hs, ha]
  rw [postResponses_accepted now insertedId writeThrows srv body hacc]
  have hq := matchesQuery_saved req body
    { id := insertedId, companyId := body.companyId.getD "", surveyId := body.surveyId.getD ""
      respondentId := if truthy body.respondentId then body.respondentId else none
      answers := body.answers, question := none, response := none, createdAt := now }
    hc hs hm rfl rfl
  have hf1 : findSortLimit srv.store (buildQuery req) 10000 =
      srv.store.filter (matchesQuery (buildQuery req)) := by
    unfold findSortLimit
    exact List.take_of_length_le (by omega)
  have hf2 : findSortLimit
      ({ id := insertedId, companyId := body.companyId.getD "", surveyId := body.surveyId.getD ""
         respondentId := if truthy body.respondentId then body.respondentId else none
         answers := body.answers, question := none, response := none, createdAt := now }
        :: srv.store) (buildQuery req) 10000 =
      { id := insertedId, companyId := body.companyId.getD "", surveyId := body.surveyId.getD ""
        respondentId := if truthy body.respondentId then body.respondentId else none
        answers := body.answers, question := none, response := none, createdAt := now }
        :: srv.store.filter (matchesQuery (buildQuery req)) := by
    unfold findSortLimit
    rw [List.filter_cons, hq, if_pos rfl]
    exact List.take_of_length_le (by simp only [List.length_cons]; omega)
  have hnew : coercible
      ({ id := insertedId, companyId := body.companyId.getD "", surveyId := body.surveyId.getD ""
         respondentId := if truthy body.respondentId then body.respondentId else none
         answers := body.answers, question := none, response := none, createdAt := now }
        :: srv.store.filter (matchesQuery (buildQuery req))) := by
    intro d hd r hr
    rcases List.mem_cons.mp hd with rfl | hd'
    · simp only [readValues, ha, List.mem_map] at hr
      obtain ⟨e, he, rfl⟩ := hr
      exact hentries e he
    · exact hstore d hd' r hr
  obtain ⟨before, hb1, hb2⟩ := responseCount_getAggregates srv.store req (by rw [hf1]; exact hstore)
  obtain ⟨after, ha1, ha2⟩ := responseCount_getAggregates _ req (by rw [hf2]; exact hnew)
  refine ⟨before, after, hb1, ha1, fun j => ?_⟩
  rw [ha2, hb2]
  simp only [List.filter_cons, hq, if_true]
  rw [List.take_of_length_le (by simp only [List.length_cons]; omega),
    List.take_of_length_le (by omega), List.countP_cons]
  simp [hasMapping, ha]

/-- One stored record, then the submission `{companyId: c1, surveyId: s1, answers: {ai-1: 5}}`. -/
theorem responseCount_incremented_witness :
    truthy mappingBody.companyId = true ∧ truthy mappingBody.surveyId = true ∧
    requestMatches c1s1Request mappingBody = true ∧
    ([ai1Doc].filter (matchesQuery (buildQuery c1s1Request))).length < 10000 ∧
    coercible ([ai1Doc].filter (matchesQuery (buildQuery c1s1Request))) ∧
    ∃ before after,
      getAggregates [ai1Doc] c1s1Request = .ok before ∧
      getAggregates (postResponses 7 (.ok "id1") (fun _ => false)
        { store := [ai1Doc], sseClients := [] } mappingBody).1.store c1s1Request = .ok after ∧
      ∀ j, (after.get j).summaryMetrics.responseCount =
        (before.get j).summaryMetrics.responseCount + 1 :=
  ⟨by decide, by decide, by decide, by decide, by unfold coercible; decide,
    responseCount_incremented 7 "id1" (fun _ => false) { store := [ai1Doc], sseClients := [] }
      mappingBody c1s1Request [("ai-1", .number (.finite 5))] (by decide) (by decide) rfl
      (by decide) (by decide) (by unfold coercible; decide) (by decide)⟩

/-! ## The change notifier -/

theorem nodup_sseAdd (srv : Server) (client : Nat) (h : srv.sseClients.Nodup) :
    (sseAdd srv client).sseClients.Nodup := by
  unfold sseAdd
  split
  · exact h
  · next hc =>
    rw [List.nodup_append]
    refine ⟨h, List.nodup_singleton _, ?_⟩
    intro a ha hb
    rw [List.mem_singleton] at hb
    exact hc (hb ▸ ha)

theorem nodup_sseDelete (srv : Server) (client : Nat) (h : srv.sseClients.Nodup) :
    (sseDelete srv client).sseClients.Nodup :=
  h.filter _

theorem writesTo_sseBroadcast (writeThrows : Nat → Bool) (clients : List Nat)
    (payload : SsePayload) (c : Nat) :
    writesTo c (sseBroadcast writeThrows clients payload) =
      List.replicate (clients.count c)
        (Effect.sseWrite c "response:created" payload (writeThrows c)) := by
  induction clients with
  | nil => rfl
  | cons a rest ih =>
    unfold writesTo sseBroadcast at ih ⊢
    by_cases h : a = c
    · subst h
      simp only [List.map_cons, List.filter_cons, beq_self_eq_true, if_true, List.count_cons_self,
        List.replicate_succ, ih]
    · have h2 : (a == c) = false := by simpa using h
      simp only [List.map_cons, List.filter_cons, h2, Bool.false_eq_true, if_false, ih,
        List.count_cons_of_ne (fun e => h e.symm)]

theorem writesTo_append_ioEmit (c : Nat) (effects : List Effect) (a b : String) (t : Nat) :
    writesTo c (effects ++ [Effect.ioEmit a b t]) = writesTo c effects := by
  simp [writesTo, List.filter_append]

/-- Statement C10.  For every set of SSE subscribers: when the submission is valid and persistence
succeeds, the handler answers `{ok: true}` and calls `write` exactly once on each subscriber,
with the event `response:created`, whether or not `write` raises on any subscriber (the outcome
of the call on one subscriber is its own); when validation or persistence fails, `write` is
called on no subscriber. -/
theorem notify_each_subscriber_once (now : Nat) (writeThrows : Nat → Bool) (srv : Server)
    (body : SubmitBody) (hset : srv.sseClients.Nodup) :
    (∀ insertedId, accepted body = true →
      (∃ saved, (postResponses now (.ok insertedId) writeThrows srv body).2.1
        = PostResult.ok saved) ∧
      ∀ c ∈ srv.sseClients,
        writesTo c (postResponses now (.ok insertedId) writeThrows srv body).2.2 =
          [Effect.sseWrite c "response:created"
            { surveyId := body.surveyId.getD "", companyId := body.companyId.getD ""
              timestamp := now, submitted := 1 } (writeThrows c)]) ∧
    (∀ persist, accepted body = false →
      sseWrites (postResponses now persist writeThrows srv body).2.2 = []) ∧
    (∀ message, sseWrites (postResponses now (.error message) writeThrows srv body).2.2 = []) := by
  refine ⟨?_, ?_, ?_⟩
  · intro insertedId hacc
    rw [postResponses_accepted now insertedId writeThrows srv body hacc]
    refine ⟨⟨_, rfl⟩, ?_⟩
    intro c hc
    simp only []
    rw [writesTo_append_ioEmit, writesTo_sseBroadcast, List.count_eq_one_of_mem hset hc]
    rfl
  · intro persist hrej
    rw [postResponses_rejected now persist writeThrows srv body hrej]
    rfl
  · intro message
    cases hacc : accepted body
    · rw [postResponses_rejected now _ writeThrows srv body hacc]; rfl
    · rw [postResponses_persist_failed now message writeThrows srv body hacc]; rfl

/-- Three subscribers, `write` raising on the second one. -/
theorem notify_each_subscriber_once_witness :
    ([1, 2, 3] : List Nat).Nodup ∧
    (∀ c ∈ [1, 2, 3],
      writesTo c (postResponses 7 (.ok "id1") (fun c => c == 2)
          { store := [], sseClients := [1, 2, 3] } mappingBody).2.2 =
        [Effect.sseWrite c "response:created"
          { surveyId := "s1", companyId := "c1", timestamp := 7, submitted := 1 } (c == 2)]) ∧
    (∃ saved, (postResponses 7 (.ok "id1") (fun c => c == 2)
      { store := [], sseClients := [1, 2, 3] } mappingBody).2.1 = PostResult.ok saved) :=
  ⟨by decide,
    ((notify_each_subscriber_once 7 (fun c => c == 2) { store := [], sseClients := [1, 2, 3] }
      mappingBody (by decide)).1 "id1" (by decide)).2,
    ((notify_each_subscriber_once 7 (fun c => c == 2) { store := [], sseClients := [1, 2, 3] }
      mappingBody (by decide)).1 "id1" (by decide)).1⟩

end GuruJi
